import Mathlib

/-!
The offset codec and the format classifier of chronus.

A shallow embedding of `tzinfo/tzinfo.go` and `chronus.go`.

Conventions of the embedding:
* a Go `string` is a `List Char` (the well-formed UTF-8 strings; `range` over
  such a string yields exactly its code points);
* a Go `int` is an `Int` kept in the signed 64-bit range by `wrap64` wherever
  the source does arithmetic that may leave it;
* a call of `log.Fatalln` is the result `none`.
-/

namespace gostd

/-- Two's-complement wrap of an integer into the signed 64-bit range. -/
def wrap64 (x : Int) : Int := (x + 2 ^ 63) % 2 ^ 64 - 2 ^ 63

/-- The predicate `unicode.IsSpace`: the code points with the White_Space property. -/
def isSpace (c : Char) : Bool :=
  let n := c.toNat
  n == 0x09 || n == 0x0A || n == 0x0B || n == 0x0C || n == 0x0D || n == 0x20
    || n == 0x85 || n == 0xA0 || n == 0x1680 || (0x2000 ≤ n && n ≤ 0x200A)
    || n == 0x2028 || n == 0x2029 || n == 0x202F || n == 0x205F || n == 0x3000

/-- The function `strings.TrimSpace`: drop leading and trailing white space. -/
def TrimSpace (s : List Char) : List Char :=
  ((s.dropWhile isSpace).reverse.dropWhile isSpace).reverse

/-- The function `strings.ContainsAny`: some code point of `chars` occurs in `s`. -/
def ContainsAny (s chars : List Char) : Bool :=
  s.any (fun c => chars.contains c)

/-- The function `strings.Contains`: `substr` occurs in `s` as a contiguous block. -/
def Contains : List Char → List Char → Bool
  | [], substr => substr.isEmpty
  | c :: s, substr => substr.isPrefixOf (c :: s) || Contains s substr

/-- The ASCII digit test `'0' <= c <= '9'`. -/
def isDigit (c : Char) : Bool := 48 ≤ c.toNat && c.toNat ≤ 57

/-- The value of an ASCII digit. -/
def digitVal (c : Char) : Nat := c.toNat - 48

/-- The decimal value of a digit string, most significant digit first. -/
def decimalVal (s : List Char) : Nat :=
  s.foldl (fun a c => a * 10 + digitVal c) 0

/-- The function `strconv.Atoi`: an optional sign and one or more ASCII digits, the value
within the signed 64-bit range; every other input is an error (`none`). -/
def Atoi (s : List Char) : Option Int :=
  let neg := s.head? == some '-'
  let body := if s.head? == some '-' || s.head? == some '+' then s.tail else s
  if body.isEmpty || !body.all isDigit then none
  else
    let v : Int := if neg then -(decimalVal body : Int) else (decimalVal body : Int)
    if -(2 ^ 63) ≤ v ∧ v < 2 ^ 63 then some v else none

/-- The decimal digits of a natural number, as `fmt` prints them for the verb `%d`. -/
def fmtNat (n : Nat) : List Char := Nat.toDigits 10 n

/-- The verb `%02d` of `fmt.Sprintf`: zero padding to width two, the width counting the
minus sign of a negative number. -/
def fmt02d (x : Int) : List Char :=
  if x < 0 then
    let ds := fmtNat x.natAbs
    '-' :: (List.replicate (1 - ds.length) '0' ++ ds)
  else
    let ds := fmtNat x.toNat
    List.replicate (2 - ds.length) '0' ++ ds

end gostd

namespace tzinfo

open gostd

/-- The five rune variables `sign`, `h10`, `h01`, `m10`, `m01` of `OffsetStringToSeconds`. -/
structure OffsetRunes where
  sign : Char
  h10 : Char
  h01 : Char
  m10 : Char
  m01 : Char
deriving DecidableEq, Repr

/-- The body of the `range` loop of `OffsetStringToSeconds` for one rune; `none` is the
fatal exit "more than four digits in offset string". -/
def offsetRune (st : OffsetRunes) (r : Char) : Option OffsetRunes :=
  if r = '+' ∨ r = '-' then some { st with sign := r }
  else if r = ':' then some st
  else if st.h10 = 'X' then some { st with h10 := r }
  else if st.h01 = 'X' then some { st with h01 := r }
  else if st.m10 = 'X' then some { st with m10 := r }
  else if st.m01 = 'X' then some { st with m01 := r }
  else none

/-- The whole `range` loop of `OffsetStringToSeconds`. -/
def offsetRunes : OffsetRunes → List Char → Option OffsetRunes
  | st, [] => some st
  | st, r :: rs => (offsetRune st r).bind (fun st1 => offsetRunes st1 rs)

/-- The function `OffsetSecondsToString` of `tzinfo.go`. The local `colonStr` is
initialised to the empty string and never assigned again. -/
def OffsetSecondsToString (offset : Int) (zulu : List Char) : List Char :=
  let colonStr : List Char := []
  let hours : Int := 3600
  let minutes : Int := 60
  if offset = 0 then
    if zulu.length > 0 then
      if ContainsAny zulu "Zz".toList then "Z".toList
      else
        let result := if Contains zulu "+".toList then "+00".toList else "-00".toList
        if Contains zulu ":".toList then result ++ ":00".toList else result ++ "00".toList
    else "-0000".toList
  else
    let positiveOffset := if offset < 0 then wrap64 (-offset) else offset
    let hourSeconds := Int.tdiv positiveOffset hours
    let minuteSeconds := Int.tdiv (wrap64 (positiveOffset - wrap64 (hourSeconds * hours))) minutes
    let offsetStr := fmt02d hourSeconds ++ colonStr ++ fmt02d minuteSeconds
    if offset > 0 then "+".toList ++ offsetStr else "-".toList ++ offsetStr

/-- The function `OffsetStringToSeconds` of `tzinfo.go`; `none` is a `log.Fatalln` exit. -/
def OffsetStringToSeconds (offsetStr : List Char) : Option Int :=
  let offsetStr := TrimSpace offsetStr
  match offsetRunes ⟨'+', 'X', 'X', 'X', 'X'⟩ offsetStr with
  | none => none
  | some st =>
    let hoursStr := [st.h10, st.h01]
    match Atoi hoursStr with
    | none => none
    | some hoursInt =>
      let minutesStr := [st.m10, st.m01]
      match Atoi minutesStr with
      | none => none
      | some minutesInt =>
        let offset : Int := 0
        let offset := if hoursInt > 0 then wrap64 (wrap64 (hoursInt * 60) * 60) else offset
        let offset := if minutesInt > 0 then wrap64 (offset + wrap64 (minutesInt * 60)) else offset
        let offset := if st.sign = '-' then wrap64 (-offset) else offset
        let _offsetStr := OffsetSecondsToString offset "Z".toList
        some offset

end tzinfo

namespace regexp

/-- The fragment of the `regexp` syntax that the patterns of `chronus.go` are written in.
Repetition with `+` occurs in them only on a character class, `{1,2}` and `{4}` are
written out with `seq` and `opt`. -/
inductive Re where
  | eps : Re
  | cls : (Char → Bool) → Re
  | seq : Re → Re → Re
  | alt : Re → Re → Re
  | opt : Re → Re
  | plus : (Char → Bool) → Re
  | group : Nat → Re → Re
  | bol : Re
  | eol : Re

/-- The submatch slots of one match: slot 0 is the whole match, slot `i` is group `i`;
a group that took no part in the match holds the empty string, as in the slice that
`FindStringSubmatch` returns. -/
abbrev Caps := List (List Char)

/-- A continuation of the backtracking matcher: position, rest of the text, slots. -/
abbrev Cont := Nat → List Char → Caps → Option Caps

/-- Greedy `x+` on a class: take as many code points as possible, give back one at a
time while the continuation fails. -/
def plusRun (p : Char → Bool) : Nat → List Char → Caps → Cont → Option Caps
  | _, [], _, _ => none
  | i, x :: t, c, k =>
    if p x then (plusRun p (i + 1) t c k).orElse (fun _ => k (i + 1) t c) else none

/-- Leftmost-first (Perl-like) backtracking match of `r` at position `i` of the text,
`s` being the text from `i` on: the left branch of `|` is preferred, `?` and `+` are
greedy. -/
def Re.run : Re → Nat → List Char → Caps → Cont → Option Caps
  | .eps, i, s, c, k => k i s c
  | .cls p, i, s, c, k =>
    match s with
    | [] => none
    | x :: t => if p x then k (i + 1) t c else none
  | .seq a b, i, s, c, k => a.run i s c (fun i1 s1 c1 => b.run i1 s1 c1 k)
  | .alt a b, i, s, c, k => (a.run i s c k).orElse (fun _ => b.run i s c k)
  | .opt a, i, s, c, k => (a.run i s c k).orElse (fun _ => k i s c)
  | .plus p, i, s, c, k => plusRun p i s c k
  | .group n a, i, s, c, k => a.run i s c (fun i1 s1 c1 => k i1 s1 (c1.set n (s.take (i1 - i))))
  | .bol, i, s, c, k => if i = 0 then k i s c else none
  | .eol, i, s, c, k => if s.isEmpty then k i s c else none

/-- The number of capture groups of a pattern (the largest group index). -/
def Re.numGroups : Re → Nat
  | .seq a b => max a.numGroups b.numGroups
  | .alt a b => max a.numGroups b.numGroups
  | .opt a => a.numGroups
  | .group n a => max n a.numGroups
  | _ => 0

/-- A match of `r` that starts at position `i`, `s` being the text from `i` on; slot 0
receives the matched block. -/
def matchAt (r : Re) (i : Nat) (s : List Char) : Option Caps :=
  r.run i s (List.replicate (r.numGroups + 1) []) (fun i1 _ c1 => some (c1.set 0 (s.take (i1 - i))))

/-- Try a match starting at position `i`, then at `i + 1`, ... up to the end of the text. -/
def searchFrom (r : Re) : Nat → List Char → Option Caps
  | i, [] => matchAt r i []
  | i, x :: t => (matchAt r i (x :: t)).orElse (fun _ => searchFrom r (i + 1) t)

/-- The method `(*Regexp).FindStringSubmatch`: the slots of the leftmost match, `none`
for the nil slice. -/
def FindStringSubmatch (r : Re) (s : List Char) : Option Caps := searchFrom r 0 s

/-- The method `(*Regexp).MatchString`. -/
def MatchString (r : Re) (s : List Char) : Bool := (FindStringSubmatch r s).isSome

/-- Concatenation of a list of patterns. -/
def Re.cat : List Re → Re
  | [] => .eps
  | [a] => a
  | a :: rest => .seq a (Re.cat rest)

/-- A literal code point. -/
def lit (ch : Char) : Re := .cls (fun x => x == ch)

/-- The class `\d`, ASCII digits. -/
def isD (c : Char) : Bool := gostd.isDigit c

/-- The class `[A-Z]`. -/
def isAZ (c : Char) : Bool := 65 ≤ c.toNat && c.toNat ≤ 90

/-- The class `\w`, that is `[0-9A-Za-z_]`. -/
def isW (c : Char) : Bool :=
  isD c || isAZ c || (97 ≤ c.toNat && c.toNat ≤ 122) || c == '_'

/-- The class `[+-]`. -/
def isSign (c : Char) : Bool := c == '+' || c == '-'

/-- The class `[A-Z0-9-]`. -/
def isAZ09Dash (c : Char) : Bool := isAZ c || isD c || c == '-'

end regexp

namespace tzinfo

open gostd

/-- A value of `*time.Location`, as far as this package looks at it: its name, and the
offset of a zone made by `time.FixedZone`. -/
structure Location where
  name : List Char
  fixedOffset : Option Int
deriving DecidableEq, Repr

/-- The struct `TimeZoneLocation` of `tzinfo.go`; a nil `location` is `none`. -/
structure TimeZoneLocation where
  countryCodeAlpha2 : List Char
  countryCodeAlpha3 : List Char
  ianaName : List Char
  location : Option Location
  nation : List Char
  offset : Int
  status : List Char
  zone : List Char
deriving DecidableEq, Repr

/-- The package variables `timeZoneDataByAbbreviation`, `TimeZoneLocations` and
`unitedStatesAbbreviationMap`; a map is the list of its bindings. -/
structure Registry where
  timeZoneDataByAbbreviation : List (List Char × List TimeZoneLocation)
  TimeZoneLocations : List TimeZoneLocation
  unitedStatesAbbreviationMap : List (List Char × List TimeZoneLocation)

/-- What the functions of the package read from the platform: the zone name and offset
that `time.Now().Zone()` reports, the zone database behind `time.LoadLocation`, and the
case mapping behind `strings.ToUpper`. -/
structure Platform where
  nowZone : List Char × Int
  LoadLocation : List Char → Option Location
  ToUpper : List Char → List Char

/-- The method `(*TimeZoneLocation).Zone`. -/
def TimeZoneLocation.Zone (tzloc : TimeZoneLocation) : List Char × Int :=
  (tzloc.zone, tzloc.offset)

/-- The function `GetCurrentTimeZoneLocation` of `tzinfo.go`. -/
def GetCurrentTimeZoneLocation (P : Platform) : TimeZoneLocation :=
  let zone := P.nowZone.1
  let offset := P.nowZone.2
  let ianaLoc : List Char := []
  let nation : List Char := []
  let loc : Location := ⟨zone, some offset⟩
  { countryCodeAlpha2 := [], countryCodeAlpha3 := [], ianaName := ianaLoc,
    location := some loc, nation := nation, offset := offset, status := [], zone := zone }

/-- The function `GetUSTimeZoneLocationByTZAbbreviation` of `tzinfo.go`: the first entry
of the United States map for `abbr`; `none` is the pair of a nil location and the error
"zone ... not found in United States timezone data". -/
def GetUSTimeZoneLocationByTZAbbreviation (reg : Registry) (abbr : List Char) :
    Option TimeZoneLocation :=
  match reg.unitedStatesAbbreviationMap.lookup abbr with
  | some tzlocs => tzlocs.head?
  | none => none

end tzinfo

namespace chronus

open gostd regexp

/-- The layout constant `GitDateTime`. -/
def GitDateTime : List Char := "Mon Jan 2 15:04:05 2006 -0700".toList
/-- The layout constant `SQLDateTime`. -/
def SQLDateTime : List Char := "2006-01-02 15:04:05".toList
/-- The layout constant `SQLDateYearToDay`. -/
def SQLDateYearToDay : List Char := "2006-01-02".toList
/-- The layout constant `SQLDateTimeYearToMinute`. -/
def SQLDateTimeYearToMinute : List Char := "2006-01-02 15:04".toList
/-- The layout constant `SQLDateTimeYearToMinuteWithTZ`. -/
def SQLDateTimeYearToMinuteWithTZ : List Char := "2006-01-02 15:04 MST".toList
/-- The layout constant `SQLDateTimeYearToMinuteWithOffset`. -/
def SQLDateTimeYearToMinuteWithOffset : List Char := "2006-01-02 15:04:05 -0700".toList
/-- The layout constant `SQLDateTimeYearToMinuteWithOffset2`. -/
def SQLDateTimeYearToMinuteWithOffset2 : List Char := "2006-01-02 15:04:05 -07:00".toList
/-- The layout constant `SQLDateTimeYearToSecond`. -/
def SQLDateTimeYearToSecond : List Char := "2006-01-02 15:04:05".toList
/-- The layout constant `SQLDateTimeYearToSecondWithOffset`. -/
def SQLDateTimeYearToSecondWithOffset : List Char := "2006-01-02 15:04:05 -0700".toList
/-- The layout constant `SQLDateTimeYearToSecondWithOffset2`. -/
def SQLDateTimeYearToSecondWithOffset2 : List Char := "2006-01-02 15:04:05 -07:00".toList
/-- The layout constant `SQLDateTimeYearToSecondWithTZ`. -/
def SQLDateTimeYearToSecondWithTZ : List Char := "2006-01-02 15:04:05 MST".toList
/-- The sentinel layout `UnixTimeStamp`. -/
def UnixTimeStamp : List Char := "UNIX Timestamp".toList
/-- The sentinel layout `UnixTimeStampFloat`. -/
def UnixTimeStampFloat : List Char := "UNIX Timestamp with Subsecond Value".toList
/-- The layout constant `RFC5322C`. -/
def RFC5322C : List Char := "Mon, 2 Jan 2006 15:04:05 -0700 (MST)".toList

/-- One `\d`. -/
def d : Re := .cls isD
/-- One blank. -/
def sp : Re := lit ' '

/-- The pattern `(\w+) (\w+) (\d+) (\d\d:\d\d:\d\d) (\d+) (-\d+)`. -/
def regExGitDateTime : Re :=
  Re.cat [.group 1 (.plus isW), sp, .group 2 (.plus isW), sp, .group 3 (.plus isD), sp,
    .group 4 (Re.cat [d, d, lit ':', d, d, lit ':', d, d]), sp, .group 5 (.plus isD), sp,
    .group 6 (Re.cat [lit '-', .plus isD])]

/-- The pattern `(\w+) (\w+) ( ?\d+) (\d\d):(\d\d)(:\d\d)? ([A-Z0-9-]+) ([A-Z0-9-]+)`. -/
def regExAnsiGitRubyUnix : Re :=
  Re.cat [.group 1 (.plus isW), sp, .group 2 (.plus isW), sp,
    .group 3 (Re.cat [.opt sp, .plus isD]), sp, .group 4 (Re.cat [d, d]), lit ':',
    .group 5 (Re.cat [d, d]), .opt (.group 6 (Re.cat [lit ':', d, d])), sp,
    .group 7 (.plus isAZ09Dash), sp, .group 8 (.plus isAZ09Dash)]

/-- The pattern `(\d+)-(\d\d)-(\d\d)T(\d\d):(\d\d):(\d\d)(\.\d+)?([+-]\d\d:?\d\d|Z)`. -/
def regExRFC3339 : Re :=
  Re.cat [.group 1 (.plus isD), lit '-', .group 2 (Re.cat [d, d]), lit '-',
    .group 3 (Re.cat [d, d]), lit 'T', .group 4 (Re.cat [d, d]), lit ':',
    .group 5 (Re.cat [d, d]), lit ':', .group 6 (Re.cat [d, d]),
    .opt (.group 7 (Re.cat [lit '.', .plus isD])),
    .group 8 (.alt (Re.cat [.cls isSign, d, d, .opt (lit ':'), d, d]) (lit 'Z'))]

/-- The pattern `^[+-]?(\d+)\.?(\d+)?$`. -/
def regExUnixTimeStamp : Re :=
  Re.cat [.bol, .opt (.cls isSign), .group 1 (.plus isD), .opt (lit '.'),
    .opt (.group 2 (.plus isD)), .eol]

/-- The pattern `\w+ ( \d|\d{1,2}) \d{4} \d\d:\d\d(:\d\d)?`. -/
def regExUSCommonDateTime : Re :=
  Re.cat [.plus isW, sp, .group 1 (.alt (Re.cat [sp, d]) (Re.cat [d, .opt d])), sp,
    d, d, d, d, sp, d, d, lit ':', d, d, .opt (.group 2 (Re.cat [lit ':', d, d]))]

/-- The pattern `^\w+ ( \d|\d{1,2}) \d{4} \d\d:\d\d(:\d\d)?$`. -/
def regExUSCommonDateTimeStrict : Re :=
  Re.cat [.bol, .plus isW, sp, .group 1 (.alt (Re.cat [sp, d]) (Re.cat [d, .opt d])), sp,
    d, d, d, d, sp, d, d, lit ':', d, d, .opt (.group 2 (Re.cat [lit ':', d, d])), .eol]

/-- The pattern
`^(\w+, )?( \d|\d{1,2})( \w+)( \d{4})( \d\d:\d\d)(:\d\d)?( \-\d+| \w+)?( \(\w+\))?$`. -/
def regExRFCUnitedKingdom : Re :=
  Re.cat [.bol, .opt (.group 1 (Re.cat [.plus isW, lit ',', sp])),
    .group 2 (.alt (Re.cat [sp, d]) (Re.cat [d, .opt d])),
    .group 3 (Re.cat [sp, .plus isW]), .group 4 (Re.cat [sp, d, d, d, d]),
    .group 5 (Re.cat [sp, d, d, lit ':', d, d]), .opt (.group 6 (Re.cat [lit ':', d, d])),
    .opt (.group 7 (.alt (Re.cat [sp, lit '-', .plus isD]) (Re.cat [sp, .plus isW]))),
    .opt (.group 8 (Re.cat [sp, lit '(', .plus isW, lit ')'])), .eol]

/-- The pattern `(\d+-\d+-\d+) ?(\d+:\d+(:\d+)?)? ?(\w+|[+-]?\d+:?\d+)?`. -/
def regExSQLDateTime : Re :=
  Re.cat [.group 1 (Re.cat [.plus isD, lit '-', .plus isD, lit '-', .plus isD]), .opt sp,
    .opt (.group 2 (Re.cat [.plus isD, lit ':', .plus isD,
      .opt (.group 3 (Re.cat [lit ':', .plus isD]))])),
    .opt sp,
    .opt (.group 4 (.alt (.plus isW)
      (Re.cat [.opt (.cls isSign), .plus isD, .opt (lit ':'), .plus isD])))]

/-- The pattern `[+-]?\d{4}?` of the package variable `reIsOffset`; the lazy `{4}?` is
exactly four digits. -/
def reIsOffset : Re := Re.cat [.opt (.cls isSign), d, d, d, d]

/-- The pattern `[+-]?\d{1,2}:\d{2}` of the package variable `reIsOffsetWithColon`. -/
def reIsOffsetWithColon : Re := Re.cat [.opt (.cls isSign), d, .opt d, lit ':', d, d]

/-- The pattern `[A-Z][A-Z]+` of `GetTimeZoneFormat`. -/
def reZoneName : Re := Re.cat [.cls isAZ, .plus isAZ]

/-- The pattern `[+-]\d+:\d+` of `GetTimeZoneFormat`. -/
def reZoneColonOffset : Re := Re.cat [.cls isSign, .plus isD, lit ':', .plus isD]

/-- The pattern `^ [A-Z]+$` of the last stage of `GetFormat`. -/
def reBlankUpper : Re := Re.cat [.bol, sp, .plus isAZ, .eol]

/-- The function `TimezoneIsOffset` of `chronus.go`. -/
def TimezoneIsOffset (tz : List Char) : Int :=
  if MatchString reIsOffset tz then 1
  else if MatchString reIsOffsetWithColon tz then 2
  else 0

/-- The function `GetTimeZoneFormat` of `chronus.go`. -/
def GetTimeZoneFormat (tz : List Char) : List Char :=
  if MatchString reZoneName tz then "MST".toList
  else if MatchString reZoneColonOffset tz then "Z07:00".toList
  else "Z0700".toList

/-- The function `GetUnixTimeStampFormat` of `chronus.go`. The assignment of
`UnixTimeStampFloat` is followed, outside the inner `if`, by the assignment of
`UnixTimeStamp`. -/
def GetUnixTimeStampFormat (dtz : List Char) : List Char :=
  let format : List Char := []
  if MatchString regExUnixTimeStamp dtz then
    let matches_ := (FindStringSubmatch regExUnixTimeStamp dtz).getD []
    let _format := if matches_.length = 3 ∧ (matches_.getD 2 []).length > 0
      then UnixTimeStampFloat else format
    let format := UnixTimeStamp
    format
  else format

/-- The function `GetRFC3339Format` of `chronus.go`. The fractional layout is assigned
inside the inner `if`, and the assignment that follows the `if` overwrites it. -/
def GetRFC3339Format (dtz : List Char) : List Char :=
  let format : List Char := []
  if MatchString regExRFC3339 dtz then
    let matches_ := (FindStringSubmatch regExRFC3339 dtz).getD []
    let _format := if (matches_.getD 7 []).length > 0
      then "2006-01-02T15:04:05.999999999".toList ++ GetTimeZoneFormat (matches_.getD 8 [])
      else format
    let format := "2006-01-02T15:04:05".toList ++ GetTimeZoneFormat (matches_.getD 8 [])
    format
  else format

/-- What `GetSQLFormat` and `GetFormat` return, together with the value they leave in
the package variable `CountryCode`. -/
structure Classified where
  format : List Char
  tzloc : Option tzinfo.TimeZoneLocation
  CountryCode : List Char
deriving DecidableEq, Repr

/-- The function `GetSQLFormat` of `chronus.go`; `CountryCode` is the value of the package
variable when the function is entered. -/
def GetSQLFormat (P : tzinfo.Platform) (reg : tzinfo.Registry) (CountryCode : List Char)
    (dtz : List Char) : Classified :=
  let format : List Char := []
  let tzloc : Option tzinfo.TimeZoneLocation := none
  if MatchString regExSQLDateTime dtz then
    let matches_ := (FindStringSubmatch regExSQLDateTime dtz).getD []
    let timeStr := matches_.getD 2 []
    let seconds := matches_.getD 3 []
    let timezone := matches_.getD 4 []
    let tzIsOffset := TimezoneIsOffset timezone
    let format := SQLDateTime
    let format :=
      if timeStr.length > 0 then
        if seconds.length > 0 then SQLDateTimeYearToSecond else SQLDateTimeYearToMinute
      else format
    let format :=
      if timezone.length > 0 then
        if timeStr.length > 0 then
          if seconds.length > 0 then
            if tzIsOffset = 1 then SQLDateTimeYearToSecondWithOffset
            else if tzIsOffset = 2 then SQLDateTimeYearToSecondWithOffset2
            else SQLDateTimeYearToSecondWithTZ
          else
            if tzIsOffset = 1 then SQLDateTimeYearToMinuteWithOffset
            else if tzIsOffset = 2 then SQLDateTimeYearToMinuteWithOffset2
            else SQLDateTimeYearToMinuteWithTZ
        else format
      else format
    if timezone.length > 0 ∧ tzIsOffset = 0 then
      let tzloc := some (tzinfo.GetCurrentTimeZoneLocation P)
      if CountryCode.length > 0 then
        let CountryCode := P.ToUpper CountryCode
        if CountryCode = "US".toList ∨ CountryCode = "USA".toList then
          ⟨format, tzinfo.GetUSTimeZoneLocationByTZAbbreviation reg timezone, CountryCode⟩
        else ⟨format, tzloc, CountryCode⟩
      else ⟨format, tzloc, CountryCode⟩
    else ⟨format, tzloc, CountryCode⟩
  else ⟨format, tzloc, CountryCode⟩

/-- The reconstruction loop of the last stage of `GetFormat`: over the slots `c, s` of
the match of the input, in order, with `formatMatches` the slots of `RFC5322C`. -/
def ukLayout (formatMatches : Caps) : Nat → Caps → List Char → List Char
  | _, [], format => format
  | c, s :: rest, format =>
    let format :=
      if (TrimSpace s).length > 0 ∧ c > 0 then
        if formatMatches.getD c [] = " -0700".toList ∧ MatchString reBlankUpper s
        then format ++ " MST".toList
        else format ++ formatMatches.getD c []
      else format
    ukLayout formatMatches (c + 1) rest format

/-- The function `GetFormat` of `chronus.go`. -/
def GetFormat (P : tzinfo.Platform) (reg : tzinfo.Registry) (CountryCode : List Char)
    (dtz : List Char) : Classified :=
  let tzloc : Option tzinfo.TimeZoneLocation := none
  let format := GetUnixTimeStampFormat dtz
  if format.length > 0 then ⟨format, tzloc, CountryCode⟩
  else
    let format := GetRFC3339Format dtz
    if format.length > 0 then ⟨format, tzloc, CountryCode⟩
    else
      let r := GetSQLFormat P reg CountryCode dtz
      if r.format.length > 0 then r
      else if MatchString regExAnsiGitRubyUnix dtz ∧ MatchString regExGitDateTime dtz then
        ⟨GitDateTime, r.tzloc, r.CountryCode⟩
      else if MatchString regExUSCommonDateTime dtz then
        ⟨r.format, r.tzloc, r.CountryCode⟩
      else
        let matches_ := (FindStringSubmatch regExRFCUnitedKingdom dtz).getD []
        let formatMatches := (FindStringSubmatch regExRFCUnitedKingdom RFC5322C).getD []
        ⟨ukLayout formatMatches 0 matches_ [], r.tzloc, r.CountryCode⟩

end chronus


namespace gostd

/-- The ASCII digit character of a number below ten. -/
def digitChar (n : Nat) : Char := Char.ofNat (48 + n)

end gostd

namespace regexp

/-- The words of a pattern: `r.Matches i u v` says that `r` matches the word `u` when
`u` starts at position `i` of the text and is followed there by `v`. -/
def Re.Matches : Re → Nat → List Char → List Char → Prop
  | .eps, _, u, _ => u = []
  | .cls p, _, u, _ => ∃ x, u = [x] ∧ p x = true
  | .seq a b, i, u, v =>
    ∃ u1 u2, u = u1 ++ u2 ∧ a.Matches i u1 (u2 ++ v) ∧ b.Matches (i + u1.length) u2 v
  | .alt a b, i, u, v => a.Matches i u v ∨ b.Matches i u v
  | .opt a, i, u, v => a.Matches i u v ∨ u = []
  | .plus p, _, u, _ => u ≠ [] ∧ ∀ x ∈ u, p x = true
  | .group _ a, i, u, v => a.Matches i u v
  | .bol, i, u, _ => u = [] ∧ i = 0
  | .eol, _, u, v => u = [] ∧ v = []

/-- A continuation whose success does not depend on the slots it is given. -/
def CapsBlind (k : Cont) : Prop :=
  ∀ i s c1 c2, (k i s c1).isSome = (k i s c2).isSome

end regexp

namespace regexp

/-- The pattern `r`, started at position `i` on the text `u ++ s` with slots `c`, takes
the word `u` as its preferred choice and leaves the slots `c1`: whenever the rest of the
match succeeds from there, the match as a whole returns that result. -/
def Commits (r : Re) (i : Nat) (u s : List Char) (c c1 : Caps) : Prop :=
  ∀ (k : Cont) (v : Caps), k (i + u.length) s c1 = some v → r.run i (u ++ s) c k = some v

/-- The pattern `r` has no match at position `i` on the text `s`, whatever follows it. -/
def Fails (r : Re) (i : Nat) (s : List Char) (c : Caps) : Prop :=
  ∀ k : Cont, r.run i s c k = none

end regexp

namespace chronus

open regexp

/-- The text holds two adjacent letters of `A` to `Z`. -/
def HasUpperPair (tz : List Char) : Prop :=
  ∃ pre a b post, tz = pre ++ a :: b :: post ∧ isAZ a = true ∧ isAZ b = true

/-- The text holds a sign, one or more digits, a colon and a digit, in a row. -/
def HasSignedColonOffset (tz : List Char) : Prop :=
  ∃ pre sg ds x post, tz = pre ++ sg :: (ds ++ ':' :: x :: post) ∧ isSign sg = true ∧
    ds ≠ [] ∧ (∀ y ∈ ds, isD y = true) ∧ isD x = true

end chronus

namespace gostd

/-- The ASCII letters `A` to `Z` and `a` to `z`. -/
def isLetter (c : Char) : Bool :=
  (65 ≤ c.toNat && c.toNat ≤ 90) || (97 ≤ c.toNat && c.toNat ≤ 122)

/-- The upper-case form of an ASCII code point: `a` to `z` go to `A` to `Z`, every other
ASCII code point stays. -/
def upperASCII (c : Char) : Char :=
  if 97 ≤ c.toNat ∧ c.toNat ≤ 122 then Char.ofNat (c.toNat - 32) else c

/-- The function `strconv.Itoa`. -/
def Itoa (x : Int) : List Char :=
  if x < 0 then '-' :: fmtNat x.natAbs else fmtNat x.toNat

/-- The function `strconv.ParseInt` at base 10 and bit size 64: the same texts and
values as `strconv.Atoi` on a 64-bit platform. -/
def ParseInt (s : List Char) : Option Int := Atoi s

end gostd

namespace tzinfo

open gostd

/-- What `strings.ToUpper` of the platform does on ASCII text: it maps `a` to `z` to
`A` to `Z` and leaves the other code points. -/
def Platform.UpperOnASCII (P : Platform) : Prop :=
  ∀ s : List Char, (∀ c ∈ s, c.toNat < 128) → P.ToUpper s = s.map upperASCII

/-- The method `(*time.Location).String`: the name, `UTC` for the nil location. -/
def locationString (l : Option Location) : List Char :=
  match l with
  | none => "UTC".toList
  | some loc => loc.name

/-- The zone names for which `setTimeZoneLocation` sets the status `deprecated`. -/
def deprecatedNames : List (List Char) :=
  ["America/Atka".toList, "America/Fort_Wayne".toList, "America/Indianapolis".toList,
   "America/Knox_IN".toList, "America/Louisville".toList, "America/Shiprock".toList,
   "Navajo".toList, "US/Alaska".toList, "US/Aleutian".toList, "US/Arizona".toList,
   "US/Central".toList, "US/East-Indiana".toList, "US/Eastern".toList, "US/Hawaii".toList,
   "US/Indiana-Starke".toList, "US/Michigan".toList, "US/Mountain".toList,
   "US/Pacific".toList]

/-- The value of `m[k]` for a map of slices: the nil slice for a missing key. -/
def mapGet (m : List (List Char × List TimeZoneLocation)) (k : List Char) :
    List TimeZoneLocation :=
  (m.lookup k).getD []

/-- The assignment `m[k] = v`. -/
def mapPut (m : List (List Char × List TimeZoneLocation)) (k : List Char)
    (v : List TimeZoneLocation) : List (List Char × List TimeZoneLocation) :=
  (k, v) :: m.filter (fun e => !(e.1 == k))

/-- The function `setTimeZoneLocation` of `tzinfo.go`, as a change of the package
variables; `none` is the fatal exit of `OffsetStringToSeconds`. -/
def setTimeZoneLocation (P : Platform) (reg : Registry) (abbr offset ianaLoc nation : List Char) :
    Option Registry :=
  let loc := P.LoadLocation ianaLoc
  let nationUpper := P.ToUpper nation
  if nationUpper = "AMERICA".toList ∨ nationUpper = "US".toList ∨ nationUpper = "USA".toList then
    let status := if locationString loc ∈ deprecatedNames then "deprecated".toList
      else "canonical".toList
    match OffsetStringToSeconds offset with
    | none => none
    | some off =>
      let tzloc : TimeZoneLocation :=
        { countryCodeAlpha2 := "US".toList, countryCodeAlpha3 := "USA".toList, zone := abbr,
          ianaName := ianaLoc, location := loc, nation := nation, offset := off,
          status := status }
      let us := mapPut reg.unitedStatesAbbreviationMap abbr
        (mapGet reg.unitedStatesAbbreviationMap abbr ++ [tzloc])
      let all := mapPut reg.timeZoneDataByAbbreviation abbr (mapGet us abbr ++ [tzloc])
      some { timeZoneDataByAbbreviation := all,
             TimeZoneLocations := reg.TimeZoneLocations ++ [tzloc],
             unitedStatesAbbreviationMap := us }
  else
    match OffsetStringToSeconds offset with
    | none => none
    | some off =>
      let tzloc : TimeZoneLocation :=
        { countryCodeAlpha2 := [], countryCodeAlpha3 := [], zone := abbr, ianaName := ianaLoc,
          location := loc, nation := nation, offset := off, status := [] }
      some { reg with TimeZoneLocations := reg.TimeZoneLocations ++ [tzloc] }

/-- The seed table of `init` in `tzinfo.go`: abbreviation, offset, zone name, nation. -/
def seeds : List (List Char × List Char × List Char × List Char) :=
  [("AKDT".toList, "-0900".toList, "US/Alaska".toList, "America".toList),
   ("AKST".toList, "-1000".toList, "US/Alaska".toList, "America".toList),
   ("CDT".toList, "-0500".toList, "US/Central".toList, "America".toList),
   ("CST".toList, "-0600".toList, "US/Central".toList, "America".toList),
   ("EDT".toList, "-0400".toList, "US/Eastern".toList, "America".toList),
   ("EST".toList, "-0500".toList, "US/Eastern".toList, "America".toList),
   ("HDT".toList, "-1000".toList, "US/Aleutian".toList, "America".toList),
   ("HST".toList, "-1100".toList, "US/Aleutian".toList, "America".toList),
   ("HST".toList, "-1100".toList, "US/Hawaii".toList, "America".toList),
   ("MDT".toList, "-0600".toList, "US/Mountain".toList, "America".toList),
   ("MST".toList, "-0700".toList, "US/Mountain".toList, "America".toList),
   ("PDT".toList, "-0700".toList, "US/Pacific".toList, "America".toList),
   ("PST".toList, "-0800".toList, "US/Pacific".toList, "America".toList),
   ("SST".toList, "-1200".toList, "US/Samoa".toList, "America".toList)]

/-- The calls of `setTimeZoneLocation` for a list of seeds, in order. -/
def seedAll (P : Platform) : Registry → List (List Char × List Char × List Char × List Char) →
    Option Registry
  | reg, [] => some reg
  | reg, (abbr, offset, ianaLoc, nation) :: rest =>
    match setTimeZoneLocation P reg abbr offset ianaLoc nation with
    | none => none
    | some reg1 => seedAll P reg1 rest

/-- The function `init` of `tzinfo.go`: the two maps are made empty and the seeds are
registered. -/
def init (P : Platform) : Option Registry :=
  seedAll P ⟨[], [], []⟩ seeds

/-- The method `(*TimeZoneLocation).Location`: the stored location, or, when it is nil,
the result of `time.LoadLocation` on the zone name (nil again when that fails). -/
def TimeZoneLocation.Location (P : Platform) (tzloc : TimeZoneLocation) : Option Location :=
  match tzloc.location with
  | some loc => some loc
  | none => P.LoadLocation tzloc.ianaName

/-- The method `(*TimeZoneLocation).String` on a non-nil receiver. -/
def TimeZoneLocation.String (tzloc : TimeZoneLocation) : List Char :=
  let jsonStr := "\x7b\n".toList
  let jsonStr := jsonStr ++ "\t\"countryCodeAlpha2\": \"".toList ++ tzloc.countryCodeAlpha2
    ++ "\"".toList ++ ",\n".toList
  let jsonStr := jsonStr ++ "\t\"countryCodeAlpha3\": \"".toList ++ tzloc.countryCodeAlpha3
    ++ "\"".toList ++ ",\n".toList
  let jsonStr := jsonStr ++ "\t\"ianaName\": \"".toList ++ tzloc.ianaName
    ++ "\"".toList ++ ",\n".toList
  let jsonStr := jsonStr ++ "\t\"location\": \"".toList ++ locationString tzloc.location
    ++ "\"".toList ++ ",\n".toList
  let jsonStr := jsonStr ++ "\t\"nation\": \"".toList ++ tzloc.nation
    ++ "\"".toList ++ ",\n".toList
  let jsonStr := jsonStr ++ "\t\"offset\": ".toList ++ Itoa tzloc.offset ++ ",\n".toList
  let jsonStr := jsonStr ++ "\t\"status\": \"".toList ++ tzloc.status
    ++ "\"".toList ++ ",\n".toList
  let jsonStr := jsonStr ++ "\t\"zone\": \"".toList ++ tzloc.zone
    ++ "\"".toList ++ ",\n".toList
  jsonStr.take (jsonStr.length - 2) ++ "\n\x7d\n".toList

end tzinfo

namespace chronus

open gostd regexp

/-- The layout constant `RFC5322A`. -/
def RFC5322A : List Char := "Mon, 2 Jan 2006 15:04:05 -0700".toList
/-- The layout constant `RFC5322B`. -/
def RFC5322B : List Char := "Mon, 2 Jan 2006 15:04:05 MST".toList
/-- The layout constant `UKCommon`. -/
def UKCommon : List Char := "2 Jan 2006 15:04".toList

/-- A value of `time.Time`, as far as `Parse` determines it: the Unix second and the
nanosecond within it. -/
structure Time where
  sec : Int
  nsec : Int
deriving DecidableEq, Repr

/-- The zero value of `time.Time`, January 1 of year 1, 00:00:00 UTC. -/
def zeroTime : Time := ⟨-62135596800, 0⟩

/-- The function `time.Unix`: the nanoseconds are brought into the range of one second. -/
def Unix (sec nsec : Int) : Time :=
  ⟨wrap64 (sec + nsec / 1000000000), nsec % 1000000000⟩

/-- A non-nil `error`, by its message. -/
abbrev Err := List Char

/-- What `Parse` calls in the packages `time` and `strconv`: `time.Parse`;
`time.ParseInLocation`, whose location may be nil and which then may panic (`none`);
and `strconv.ParseFloat` at bit size 64 followed by the conversion
`int64(f * 1000000000)` (`none` for a conversion error). -/
structure TimeLib where
  Parse : List Char → List Char → Time × Option Err
  ParseInLocation : List Char → List Char → Option tzinfo.Location → Option (Time × Option Err)
  floatNanos : List Char → Option Int

/-- The function `Parse` of `chronus.go`; `none` is a run-time panic. The argument
`tzloc.String()` of the third `DebugPrintf` is evaluated before the call, whatever the
debug flag is, and dereferences `tzloc`. In the two Unix cases `err` is declared anew
with `:=`, so the `err` that is returned stays nil. -/
def Parse (L : TimeLib) (P : tzinfo.Platform) (reg : tzinfo.Registry) (CountryCode : List Char)
    (dtz : List Char) : Option (Time × Option Err) :=
  let r := GetFormat P reg CountryCode dtz
  match r.tzloc.map tzinfo.TimeZoneLocation.String with
  | none => none
  | some _ =>
    if r.format = UnixTimeStamp then
      match ParseInt dtz with
      | some i => some (Unix i 0, none)
      | none => some (zeroTime, none)
    else if r.format = UnixTimeStampFloat then
      match L.floatNanos dtz with
      | some i => some (Unix 0 i, none)
      | none => some (zeroTime, none)
    else
      match r.tzloc with
      | some tzloc =>
        L.ParseInLocation r.format dtz (tzinfo.TimeZoneLocation.Location P tzloc)
      | none => some (L.Parse r.format dtz)

/-- The layout that the last stage of `GetFormat` reconstructs for an input. -/
def stage6Layout (dtz : List Char) : List Char :=
  ukLayout ((FindStringSubmatch regExRFCUnitedKingdom RFC5322C).getD []) 0
    ((FindStringSubmatch regExRFCUnitedKingdom dtz).getD []) []

/-- The eight fragments of the reference string `RFC5322C`: weekday, day, month, year,
hour and minute, seconds, zone, comment. -/
def referenceFragments : List (List Char) :=
  ["Mon, ".toList, "2".toList, " Jan".toList, " 2006".toList, " 15:04".toList, ":05".toList,
   " -0700".toList, " (MST)".toList]

/-- A blank followed by one or more letters of `A` to `Z` and nothing else. -/
def isBlankUpperWord (s : List Char) : Bool :=
  match s with
  | [] => false
  | x :: t => x == ' ' && !t.isEmpty && t.all isAZ

/-- The positional reconstruction in the words of the specification: over the groups of
the input and the fragments of the reference, in order, the fragment of every group that
is not blank, with " MST" in place of the fragment " -0700" when the group is a blank
followed only by uppercase letters. -/
def specReconstruction : List (List Char) → List (List Char) → List Char
  | g :: gs, f :: fs =>
    (if (TrimSpace g).isEmpty then []
     else if f = " -0700".toList ∧ isBlankUpperWord g = true then " MST".toList
     else f) ++ specReconstruction gs fs
  | _, _ => []

end chronus

namespace gostd

/-- The lower-case form of an ASCII code point: `A` to `Z` go to `a` to `z`, every other
code point stays. -/
def lowerASCII (c : Char) : Char :=
  if 65 ≤ c.toNat ∧ c.toNat ≤ 90 then Char.ofNat (c.toNat + 32) else c

end gostd

namespace tzinfo

open gostd

/-- The constant `ErrorUnknownLocationStatus`. -/
def ErrorUnknownLocationStatus : List Char := "Unknown Location Status".toList

/-- The method `(*TimeZoneLocation).Status`. -/
def TimeZoneLocation.Status (tzloc : TimeZoneLocation) : List Char :=
  tzloc.status

/-- The method `(*TimeZoneLocation).StatusUpdate`: the receiver after the call and the
error that is returned (`none` for nil). `ToLower` is `strings.ToLower` of the platform.
The field is set to `s` itself, not to the lower-cased `status`. -/
def TimeZoneLocation.StatusUpdate (ToLower : List Char → List Char) (tzloc : TimeZoneLocation)
    (s : List Char) : TimeZoneLocation × Option (List Char) :=
  let status := ToLower s
  if status = [] ∨ status = "alias".toList ∨ status = "canonical".toList ∨
      status = "deprecated".toList then
    ({ tzloc with status := s }, none)
  else
    (tzloc, some ErrorUnknownLocationStatus)

/-- The function `GetTimeZoneLocationsByTZAbbreviation` of `tzinfo.go`: the list of the
global map for `abbr`; `none` is the pair of a nil slice and the error "zone ... not found
in timezone data". -/
def GetTimeZoneLocationsByTZAbbreviation (reg : Registry) (abbr : List Char) :
    Option (List TimeZoneLocation) :=
  match reg.timeZoneDataByAbbreviation.lookup abbr with
  | some tzlocs => some tzlocs
  | none => none

/-- The function `GetUSTimeZoneLocationsByTZAbbreviation` of `tzinfo.go`: the list of the
United States map for `abbr`; `none` is the pair of a nil slice and the error "zone ... not
found in United States timezone data". -/
def GetUSTimeZoneLocationsByTZAbbreviation (reg : Registry) (abbr : List Char) :
    Option (List TimeZoneLocation) :=
  match reg.unitedStatesAbbreviationMap.lookup abbr with
  | some tzlocs => some tzlocs
  | none => none

/-- The Zone Location that the case "AMERICA", "US", "USA" of `setTimeZoneLocation`
builds, for the offset `off` that `OffsetStringToSeconds` returned. -/
def usTimeZoneLocation (P : Platform) (abbr ianaLoc nation : List Char) (off : Int) :
    TimeZoneLocation :=
  { countryCodeAlpha2 := "US".toList, countryCodeAlpha3 := "USA".toList, zone := abbr,
    ianaName := ianaLoc, location := P.LoadLocation ianaLoc, nation := nation, offset := off,
    status := if locationString (P.LoadLocation ianaLoc) ∈ deprecatedNames
      then "deprecated".toList else "canonical".toList }

/-- The Zone Locations that the United States case builds for the seeds of a list that
have the abbreviation `a`, in the order of the list. -/
def usEntries (P : Platform) (l : List (List Char × List Char × List Char × List Char))
    (a : List Char) : List TimeZoneLocation :=
  (l.filter (fun s => s.1 == a)).map
    (fun s => usTimeZoneLocation P s.1 s.2.2.1 s.2.2.2 ((OffsetStringToSeconds s.2.1).getD 0))

/-- The nation labels of the first case of `setTimeZoneLocation`. -/
@[reducible] def isUnitedStates (P : Platform) (nation : List Char) : Prop :=
  P.ToUpper nation = "AMERICA".toList ∨ P.ToUpper nation = "US".toList ∨
    P.ToUpper nation = "USA".toList

end tzinfo

namespace chronus

open gostd regexp

/-- The `switch format` statement of `Parse` and the `return t, err` after it, for the
format and zone that `GetFormat` returned; `none` is a run-time panic. In the two Unix
cases `err` is declared anew with `:=`, so the `err` that is returned stays nil and `t`
stays the zero value when the conversion fails. -/
def parseSwitch (L : TimeLib) (P : tzinfo.Platform) (format dtz : List Char)
    (tzloc : Option tzinfo.TimeZoneLocation) : Option (Time × Option Err) :=
  if format = UnixTimeStamp then
    match ParseInt dtz with
    | some i => some (Unix i 0, none)
    | none => some (zeroTime, none)
  else if format = UnixTimeStampFloat then
    match L.floatNanos dtz with
    | some i => some (Unix 0 i, none)
    | none => some (zeroTime, none)
  else
    match tzloc with
    | some tzloc =>
      L.ParseInLocation format dtz (tzinfo.TimeZoneLocation.Location P tzloc)
    | none => some (L.Parse format dtz)

/-- The method `(time.Time).UnixNano`: the nanoseconds since the epoch as an `int64`. -/
def Time.UnixNano (t : Time) : Int :=
  wrap64 (t.sec * 1000000000 + t.nsec)

/-- The text `fString` that `UnixFloat` assembles and hands to `strconv.ParseFloat`:
the decimal text of `t.Unix()`, a point, and the decimal text of `t.UnixNano()` without
its first `len(ts)` bytes. `none` is the run-time panic of the slice expression
`tsn[len(ts):]` when `tsn` is shorter than `ts`. -/
def UnixFloatText (t : Time) : Option (List Char) :=
  let ts := Itoa t.sec
  let tsn := Itoa (Time.UnixNano t)
  if ts.length ≤ tsn.length then
    some (ts ++ ".".toList ++ tsn.drop ts.length)
  else none

end chronus
namespace gostd

theorem wrap64_of_range (x : Int) (h1 : -(2 ^ 63) ≤ x) (h2 : x < 2 ^ 63) : wrap64 x = x := by
  unfold wrap64
  rw [Int.emod_eq_of_lt (by omega) (by omega)]
  omega

theorem isDigit_bounds {c : Char} (h : isDigit c = true) : 48 ≤ c.toNat ∧ c.toNat ≤ 57 := by
  simpa [isDigit] using h

theorem not_isSpace_of_isDigit {c : Char} (h : isDigit c = true) : isSpace c = false := by
  have hb := isDigit_bounds h
  simp only [isSpace, Bool.or_eq_false_iff, Bool.and_eq_false_iff, beq_eq_false_iff_ne, ne_eq,
    decide_eq_false_iff_not]
  omega

theorem digitVal_le {c : Char} (h : isDigit c = true) : digitVal c ≤ 9 := by
  have hb := isDigit_bounds h
  unfold digitVal
  omega

theorem dropWhile_isSpace_append (ws rest : List Char) (a : Char) (hws : ∀ c ∈ ws, isSpace c = true)
    (ha : isSpace a = false) :
    (ws ++ a :: rest).dropWhile isSpace = a :: rest := by
  induction ws with
  | nil => simp [List.dropWhile, ha]
  | cons w ws ih =>
    have hw : isSpace w = true := hws w (List.mem_cons_self _ _)
    simp only [List.cons_append, List.dropWhile, hw]
    exact ih (fun c hc => hws c (List.mem_cons_of_mem _ hc))

theorem TrimSpace_core (ws1 ws2 mid : List Char) (a b : Char)
    (h1 : ∀ c ∈ ws1, isSpace c = true) (h2 : ∀ c ∈ ws2, isSpace c = true)
    (ha : isSpace a = false) (hb : isSpace b = false) :
    TrimSpace (ws1 ++ (a :: (mid ++ [b])) ++ ws2) = a :: (mid ++ [b]) := by
  unfold TrimSpace
  have e1 : ws1 ++ (a :: (mid ++ [b])) ++ ws2 = ws1 ++ a :: (mid ++ [b] ++ ws2) := by simp
  rw [e1, dropWhile_isSpace_append ws1 _ a h1 ha]
  have e2 : (a :: (mid ++ [b] ++ ws2)).reverse = ws2.reverse ++ b :: (a :: mid).reverse := by simp
  rw [e2, dropWhile_isSpace_append ws2.reverse _ b (fun c hc => h2 c (List.mem_reverse.mp hc)) hb]
  simp

theorem Atoi_two_digits {a b : Char} (ha : isDigit a = true) (hb : isDigit b = true) :
    Atoi [a, b] = some ((digitVal a * 10 + digitVal b : Nat) : Int) := by
  have la := digitVal_le ha
  have lb := digitVal_le hb
  have hne1 : a ≠ '-' := by rintro rfl; simp [isDigit] at ha
  have hne2 : a ≠ '+' := by rintro rfl; simp [isDigit] at ha
  have e1 : (some a == some '-') = false := by simpa using hne1
  have e2 : (some a == some '+') = false := by simpa using hne2
  simp only [Atoi, List.head?, e1, e2, Bool.or_self, Bool.false_eq_true, if_false,
    List.isEmpty, List.all, ha, hb, Bool.and_self, Bool.not_true, decimalVal, List.foldl,
    Nat.zero_mul, Nat.zero_add]
  rw [if_pos]
  constructor <;> omega

end gostd

namespace tzinfo

open gostd

theorem digit_ne_marks {c : Char} (h : isDigit c = true) :
    c ≠ '+' ∧ c ≠ '-' ∧ c ≠ ':' ∧ c ≠ 'X' := by
  refine ⟨?_, ?_, ?_, ?_⟩ <;> (rintro rfl; simp [isDigit] at h)

/-- The arithmetic that follows the two conversions in `OffsetStringToSeconds`, for an
hour count and a minute count below one hundred. -/
theorem offset_arith (H M : Nat) (hH : H ≤ 99) (hM : M ≤ 99) (neg : Prop) [Decidable neg] :
    (if neg then wrap64 (-(if (M : Int) > 0 then
          wrap64 ((if (H : Int) > 0 then wrap64 (wrap64 ((H : Int) * 60) * 60) else 0)
            + wrap64 ((M : Int) * 60))
        else (if (H : Int) > 0 then wrap64 (wrap64 ((H : Int) * 60) * 60) else 0)))
      else (if (M : Int) > 0 then
          wrap64 ((if (H : Int) > 0 then wrap64 (wrap64 ((H : Int) * 60) * 60) else 0)
            + wrap64 ((M : Int) * 60))
        else (if (H : Int) > 0 then wrap64 (wrap64 ((H : Int) * 60) * 60) else 0)))
      = (if neg then -1 else 1) * (((H * 3600 + M * 60 : Nat) : Int)) := by
  have w1 : wrap64 ((H : Int) * 60) = (H : Int) * 60 := wrap64_of_range _ (by omega) (by omega)
  have w2 : wrap64 ((H : Int) * 60 * 60) = (H : Int) * 3600 := by
    rw [wrap64_of_range _ (by omega) (by omega)]; ring
  have w3 : wrap64 ((M : Int) * 60) = (M : Int) * 60 := wrap64_of_range _ (by omega) (by omega)
  have eH : (if (H : Int) > 0 then wrap64 (wrap64 ((H : Int) * 60) * 60) else 0)
      = (H : Int) * 3600 := by
    rw [w1, w2]; split_ifs <;> omega
  rw [eH, w3]
  have eM : (if (M : Int) > 0 then wrap64 ((H : Int) * 3600 + (M : Int) * 60)
      else (H : Int) * 3600) = (H : Int) * 3600 + (M : Int) * 60 := by
    rw [wrap64_of_range _ (by omega) (by omega)]; split_ifs <;> omega
  rw [eM]
  have eN : wrap64 (-((H : Int) * 3600 + (M : Int) * 60))
      = -((H : Int) * 3600 + (M : Int) * 60) := wrap64_of_range _ (by omega) (by omega)
  rw [eN]
  push_cast
  split_ifs <;> ring

theorem OffsetStringToSeconds_of_runes (s : List Char) (sg h1 h2 m1 m2 : Char)
    (hr : offsetRunes ⟨'+', 'X', 'X', 'X', 'X'⟩ (TrimSpace s) = some ⟨sg, h1, h2, m1, m2⟩)
    (d1 : isDigit h1 = true) (d2 : isDigit h2 = true)
    (d3 : isDigit m1 = true) (d4 : isDigit m2 = true) :
    OffsetStringToSeconds s = some ((if sg = '-' then -1 else 1) *
      (((digitVal h1 * 10 + digitVal h2) * 3600 + (digitVal m1 * 10 + digitVal m2) * 60 : Nat)
        : Int)) := by
  have b1 := digitVal_le d1
  have b2 := digitVal_le d2
  have b3 := digitVal_le d3
  have b4 := digitVal_le d4
  simp only [OffsetStringToSeconds, hr, Atoi_two_digits d1 d2, Atoi_two_digits d3 d4]
  rw [offset_arith _ _ (by omega) (by omega)]

end tzinfo

namespace tzinfo

open gostd

theorem offsetRunes_four (sg : Char) (pre col : List Char) (h1 h2 m1 m2 : Char)
    (hpre : (pre = [] ∧ sg = '+') ∨ (pre = [sg] ∧ (sg = '+' ∨ sg = '-')))
    (hcol : col = [] ∨ col = [':'])
    (d1 : isDigit h1 = true) (d2 : isDigit h2 = true)
    (d3 : isDigit m1 = true) (d4 : isDigit m2 = true) :
    offsetRunes ⟨'+', 'X', 'X', 'X', 'X'⟩ (pre ++ h1 :: h2 :: (col ++ [m1, m2]))
      = some ⟨sg, h1, h2, m1, m2⟩ := by
  obtain ⟨a1, a2, a3, a4⟩ := digit_ne_marks d1
  obtain ⟨b1, b2, b3, b4⟩ := digit_ne_marks d2
  obtain ⟨c1, c2, c3, c4⟩ := digit_ne_marks d3
  obtain ⟨e1, e2, e3, e4⟩ := digit_ne_marks d4
  rcases hpre with ⟨rfl, rfl⟩ | ⟨rfl, rfl | rfl⟩ <;> rcases hcol with rfl | rfl <;>
    simp [offsetRunes, offsetRune, a1, a2, a3, a4, b1, b2, b3, b4, c1, c2, c3, c4,
      e1, e2, e3, e4]

theorem decode_signed_hhmm (ws1 ws2 sgn col : List Char) (h1 h2 m1 m2 : Char)
    (hws1 : ∀ c ∈ ws1, isSpace c = true) (hws2 : ∀ c ∈ ws2, isSpace c = true)
    (hsgn : sgn = [] ∨ sgn = ['+'] ∨ sgn = ['-']) (hcol : col = [] ∨ col = [':'])
    (d1 : isDigit h1 = true) (d2 : isDigit h2 = true)
    (d3 : isDigit m1 = true) (d4 : isDigit m2 = true) :
    OffsetStringToSeconds (ws1 ++ (sgn ++ h1 :: h2 :: (col ++ [m1, m2])) ++ ws2)
      = some ((if sgn = ['-'] then -1 else 1) *
          (((digitVal h1 * 10 + digitVal h2) * 3600 + (digitVal m1 * 10 + digitVal m2) * 60 : Nat)
            : Int)) := by
  have n1 := not_isSpace_of_isDigit d1
  have n4 := not_isSpace_of_isDigit d4
  have trim : TrimSpace (ws1 ++ (sgn ++ h1 :: h2 :: (col ++ [m1, m2])) ++ ws2)
      = sgn ++ h1 :: h2 :: (col ++ [m1, m2]) := by
    rcases hsgn with rfl | rfl | rfl
    · have := TrimSpace_core ws1 ws2 (h2 :: (col ++ [m1])) h1 m2 hws1 hws2 n1 n4
      simpa using this
    · have := TrimSpace_core ws1 ws2 (h1 :: h2 :: (col ++ [m1])) '+' m2 hws1 hws2 (by decide) n4
      simpa using this
    · have := TrimSpace_core ws1 ws2 (h1 :: h2 :: (col ++ [m1])) '-' m2 hws1 hws2 (by decide) n4
      simpa using this
  rcases hsgn with rfl | rfl | rfl
  · have hr := offsetRunes_four '+' [] col h1 h2 m1 m2 (Or.inl ⟨rfl, rfl⟩) hcol d1 d2 d3 d4
    rw [← trim] at hr
    rw [OffsetStringToSeconds_of_runes _ '+' h1 h2 m1 m2 hr d1 d2 d3 d4]
    simp
  · have hr := offsetRunes_four '+' ['+'] col h1 h2 m1 m2 (Or.inr ⟨rfl, Or.inl rfl⟩) hcol
      d1 d2 d3 d4
    rw [← trim] at hr
    rw [OffsetStringToSeconds_of_runes _ '+' h1 h2 m1 m2 hr d1 d2 d3 d4]
    simp
  · have hr := offsetRunes_four '-' ['-'] col h1 h2 m1 m2 (Or.inr ⟨rfl, Or.inr rfl⟩) hcol
      d1 d2 d3 d4
    rw [← trim] at hr
    rw [OffsetStringToSeconds_of_runes _ '-' h1 h2 m1 m2 hr d1 d2 d3 d4]
    simp

end tzinfo

namespace gostd

theorem fmt02d_lt_100 : ∀ n < 100, fmt02d (n : Nat) = [digitChar (n / 10), digitChar (n % 10)] := by
  decide

theorem digitChar_spec : ∀ n < 10, isDigit (digitChar n) = true ∧ digitVal (digitChar n) = n := by
  decide

theorem tdiv_natCast (a b : Nat) : Int.tdiv (a : Int) (b : Int) = ((a / b : Nat) : Int) := by
  rfl

end gostd

namespace tzinfo

open gostd

/-- The tail of `OffsetSecondsToString` for a non-zero offset, as a function of the
absolute value `positiveOffset`. -/
theorem offset_digits (k : Nat) (hk : k ≤ 1439) :
    fmt02d (Int.tdiv ((60 * k : Nat) : Int) 3600) ++ [] ++
      fmt02d (Int.tdiv (wrap64 (((60 * k : Nat) : Int)
        - wrap64 (Int.tdiv ((60 * k : Nat) : Int) 3600 * 3600))) 60)
      = [digitChar (k / 60 / 10), digitChar (k / 60 % 10),
          digitChar (k % 60 / 10), digitChar (k % 60 % 10)] := by
  have e1 : Int.tdiv ((60 * k : Nat) : Int) 3600 = ((k / 60 : Nat) : Int) := by
    have h := tdiv_natCast (60 * k) 3600
    have h2 : 60 * k / 3600 = k / 60 := by omega
    rw [h2] at h
    exact h
  have e2 : wrap64 (((k / 60 : Nat) : Int) * 3600) = ((k / 60 : Nat) : Int) * 3600 :=
    wrap64_of_range _ (by omega) (by omega)
  have e3 : ((60 * k : Nat) : Int) - ((k / 60 : Nat) : Int) * 3600 = ((60 * (k % 60) : Nat) : Int) := by
    omega
  have e4 : wrap64 ((60 * (k % 60) : Nat) : Int) = ((60 * (k % 60) : Nat) : Int) :=
    wrap64_of_range _ (by omega) (by omega)
  have e5 : Int.tdiv ((60 * (k % 60) : Nat) : Int) 60 = ((k % 60 : Nat) : Int) := by
    have h := tdiv_natCast (60 * (k % 60)) 60
    have h2 : 60 * (k % 60) / 60 = k % 60 := by omega
    rw [h2] at h
    exact h
  rw [e1, e2, e3, e4, e5, fmt02d_lt_100 _ (by omega), fmt02d_lt_100 _ (by omega)]
  rfl

theorem encode_positive (k : Nat) (hk0 : 0 < k) (hk : k ≤ 1439) (zulu : List Char) :
    OffsetSecondsToString ((60 * k : Nat) : Int) zulu
      = '+' :: [digitChar (k / 60 / 10), digitChar (k / 60 % 10),
          digitChar (k % 60 / 10), digitChar (k % 60 % 10)] := by
  have h0 : ¬ (((60 * k : Nat) : Int) = 0) := by omega
  have h1 : ¬ (((60 * k : Nat) : Int) < 0) := by omega
  have h2 : ((60 * k : Nat) : Int) > 0 := by omega
  simp only [OffsetSecondsToString, h0, h1, h2, if_false, if_true]
  rw [offset_digits k hk]
  rfl

theorem encode_negative (k : Nat) (hk0 : 0 < k) (hk : k ≤ 1439) (zulu : List Char) :
    OffsetSecondsToString (-((60 * k : Nat) : Int)) zulu
      = '-' :: [digitChar (k / 60 / 10), digitChar (k / 60 % 10),
          digitChar (k % 60 / 10), digitChar (k % 60 % 10)] := by
  have h0 : ¬ (-((60 * k : Nat) : Int) = 0) := by omega
  have h1 : (-((60 * k : Nat) : Int) < 0) := by omega
  have h2 : ¬ (-((60 * k : Nat) : Int) > 0) := by omega
  have w : wrap64 (- -((60 * k : Nat) : Int)) = ((60 * k : Nat) : Int) := by
    rw [neg_neg]; exact wrap64_of_range _ (by omega) (by omega)
  simp only [OffsetSecondsToString, h0, h1, h2, if_false, if_true, w]
  rw [offset_digits k hk]
  rfl

theorem decode_encoded (k : Nat) (hk : k ≤ 1439) (sgn : List Char)
    (hsgn : sgn = [] ∨ sgn = ['+'] ∨ sgn = ['-']) :
    OffsetStringToSeconds (sgn ++ [digitChar (k / 60 / 10), digitChar (k / 60 % 10),
          digitChar (k % 60 / 10), digitChar (k % 60 % 10)])
      = some ((if sgn = ['-'] then -1 else 1) * ((60 * k : Nat) : Int)) := by
  obtain ⟨d1, v1⟩ := digitChar_spec (k / 60 / 10) (by omega)
  obtain ⟨d2, v2⟩ := digitChar_spec (k / 60 % 10) (by omega)
  obtain ⟨d3, v3⟩ := digitChar_spec (k % 60 / 10) (by omega)
  obtain ⟨d4, v4⟩ := digitChar_spec (k % 60 % 10) (by omega)
  have := decode_signed_hhmm [] [] sgn [] _ _ _ _ (by simp) (by simp) hsgn (Or.inl rfl)
    d1 d2 d3 d4
  simp only [List.nil_append, List.append_nil] at this
  rw [this, v1, v2, v3, v4]
  congr 3
  omega

end tzinfo

namespace gostd

theorem Contains_singleton (s : List Char) (ch : Char) : Contains s [ch] = true ↔ ch ∈ s := by
  induction s with
  | nil => simp [Contains]
  | cons x t ih =>
    simp only [Contains, List.isPrefixOf, Bool.or_eq_true, ih, List.mem_cons, Bool.and_eq_true,
      beq_iff_eq]
    constructor
    · rintro (⟨h, _⟩ | h)
      · exact Or.inl h
      · exact Or.inr h
    · rintro (h | h)
      · exact Or.inl ⟨h, trivial⟩
      · exact Or.inr h

theorem ContainsAny_Zz (s : List Char) :
    ContainsAny s "Zz".toList = true ↔ ('Z' ∈ s ∨ 'z' ∈ s) := by
  induction s with
  | nil => simp [ContainsAny]
  | cons x t ih =>
    simp only [ContainsAny, List.any_cons, Bool.or_eq_true, List.mem_cons] at ih ⊢
    rw [ih]
    have hx : (String.toList "Zz").contains x = true ↔ (x = 'Z' ∨ x = 'z') := by
      simp [String.toList]
    rw [hx]
    constructor
    · rintro ((h | h) | (h | h))
      · exact Or.inl (Or.inl h.symm)
      · exact Or.inr (Or.inl h.symm)
      · exact Or.inl (Or.inr h)
      · exact Or.inr (Or.inr h)
    · rintro ((h | h) | (h | h))
      · exact Or.inl (Or.inl h.symm)
      · exact Or.inr (Or.inl h)
      · exact Or.inl (Or.inr h.symm)
      · exact Or.inr (Or.inr h)

end gostd

namespace tzinfo

open gostd

/-- C1: decoding the default rendering of a whole-minute offset within 23h59m of zero
succeeds and gives the offset back, the zero offset included. -/
theorem offset_codec_round_trip (k : Int) (h1 : -1439 ≤ k) (h2 : k ≤ 1439) :
    OffsetStringToSeconds (OffsetSecondsToString (60 * k) []) = some (60 * k) := by
  rcases lt_trichotomy k 0 with hk | hk | hk
  · obtain ⟨n, rfl⟩ : ∃ n : Nat, k = -(n : Int) := ⟨k.natAbs, by omega⟩
    have e : (60 : Int) * -(n : Int) = -((60 * n : Nat) : Int) := by push_cast; ring
    rw [e, encode_negative n (by omega) (by omega)]
    have := decode_encoded n (by omega) ['-'] (Or.inr (Or.inr rfl))
    simp only [List.singleton_append] at this
    rw [this]
    simp
  · subst hk
    decide
  · obtain ⟨n, rfl⟩ : ∃ n : Nat, k = (n : Int) := ⟨k.toNat, by omega⟩
    have e : (60 : Int) * (n : Int) = ((60 * n : Nat) : Int) := by push_cast; ring
    rw [e, encode_positive n (by omega) (by omega)]
    have := decode_encoded n (by omega) ['+'] (Or.inr (Or.inl rfl))
    simp only [List.singleton_append] at this
    rw [this]
    simp

/-- Witness of C1 at the offset of seven hours west. -/
theorem offset_codec_round_trip_witness :
    OffsetStringToSeconds (OffsetSecondsToString (60 * (-420)) []) = some (60 * (-420)) :=
  offset_codec_round_trip (-420) (by decide) (by decide)

/-- C2: an optional sign, two hour digits, an optional colon and two minute digits, with
white space around them, decode to sign * (HH * 3600 + MM * 60). -/
theorem decode_sign_hh_mm (ws1 ws2 sgn col : List Char) (h1 h2 m1 m2 : Char)
    (hws1 : ∀ c ∈ ws1, isSpace c = true) (hws2 : ∀ c ∈ ws2, isSpace c = true)
    (hsgn : sgn = [] ∨ sgn = ['+'] ∨ sgn = ['-']) (hcol : col = [] ∨ col = [':'])
    (d1 : isDigit h1 = true) (d2 : isDigit h2 = true)
    (d3 : isDigit m1 = true) (d4 : isDigit m2 = true) :
    OffsetStringToSeconds (ws1 ++ (sgn ++ h1 :: h2 :: (col ++ [m1, m2])) ++ ws2)
      = some ((if sgn = ['-'] then -1 else 1) *
          (((digitVal h1 * 10 + digitVal h2) * 3600 + (digitVal m1 * 10 + digitVal m2) * 60 : Nat)
            : Int)) :=
  decode_signed_hhmm ws1 ws2 sgn col h1 h2 m1 m2 hws1 hws2 hsgn hcol d1 d2 d3 d4

/-- Witness of C2: the text " +05:30 " decodes to 19800. -/
theorem decode_sign_hh_mm_witness :
    OffsetStringToSeconds " +05:30 ".toList = some 19800 :=
  decode_sign_hh_mm [' '] [' '] ['+'] [':'] '0' '5' '3' '0' (by decide) (by decide)
    (by decide) (by decide) (by decide) (by decide) (by decide) (by decide)

/-- C3, as stated, fails: the two-digit offset "-07" does not decode to -25200, the
function exits at the conversion of the minute text "XX". -/
theorem two_digit_offset_aborts :
    OffsetStringToSeconds "-07".toList = none ∧
      OffsetStringToSeconds "-07".toList ≠ some (-25200) := by
  decide

/-- C3, amended: an optional sign followed by exactly two digits is not decoded; the
function takes the fatal exit. -/
theorem decode_sign_hh_fatal (sgn : List Char) (h1 h2 : Char)
    (hsgn : sgn = [] ∨ sgn = ['+'] ∨ sgn = ['-'])
    (d1 : isDigit h1 = true) (d2 : isDigit h2 = true) :
    OffsetStringToSeconds (sgn ++ [h1, h2]) = none := by
  have n1 := not_isSpace_of_isDigit d1
  have n2 := not_isSpace_of_isDigit d2
  obtain ⟨a1, a2, a3, a4⟩ := digit_ne_marks d1
  obtain ⟨b1, b2, b3, b4⟩ := digit_ne_marks d2
  have hXX : Atoi ['X', 'X'] = none := by decide
  rcases hsgn with rfl | rfl | rfl
  · have t := TrimSpace_core [] [] [] h1 h2 (by simp) (by simp) n1 n2
    simp only [List.nil_append, List.append_nil] at t
    simp [OffsetStringToSeconds, t, offsetRunes, offsetRune, a1, a2, a3, a4, b1, b2, b3, b4,
      Atoi_two_digits d1 d2, hXX]
  · have t := TrimSpace_core [] [] [h1] '+' h2 (by simp) (by simp) (by decide) n2
    simp only [List.nil_append, List.append_nil, List.singleton_append] at t
    simp [OffsetStringToSeconds, t, offsetRunes, offsetRune, a1, a2, a3, a4, b1, b2, b3, b4,
      Atoi_two_digits d1 d2, hXX]
  · have t := TrimSpace_core [] [] [h1] '-' h2 (by simp) (by simp) (by decide) n2
    simp only [List.nil_append, List.append_nil, List.singleton_append] at t
    simp [OffsetStringToSeconds, t, offsetRunes, offsetRune, a1, a2, a3, a4, b1, b2, b3, b4,
      Atoi_two_digits d1 d2, hXX]

/-- Witness of the amended C3 at "+05". -/
theorem decode_sign_hh_fatal_witness : OffsetStringToSeconds "+05".toList = none :=
  decode_sign_hh_fatal ['+'] '0' '5' (by decide) (by decide) (by decide)

/-- C4: the colon switch is not applied to a non-zero offset: seven hours west with the
option ":" is rendered without a colon. -/
theorem colon_switch_ignored :
    OffsetSecondsToString (-25200) ":".toList = "-0700".toList ∧
      OffsetSecondsToString (-25200) ":".toList ≠ "-07:00".toList := by
  decide

/-- C5: the zero offset is "Z" when the options hold 'Z' or 'z', and otherwise "+00" or
"-00" (by '+') followed by ":00" or "00" (by ':'). -/
theorem encode_zero (z : List Char) :
    OffsetSecondsToString 0 z =
      if 'Z' ∈ z ∨ 'z' ∈ z then "Z".toList
      else (if '+' ∈ z then "+00".toList else "-00".toList)
        ++ (if ':' ∈ z then ":00".toList else "00".toList) := by
  have hp : (Contains z "+".toList = true) ↔ '+' ∈ z := Contains_singleton z '+'
  have hc : (Contains z ":".toList = true) ↔ ':' ∈ z := Contains_singleton z ':'
  have hz := ContainsAny_Zz z
  cases z with
  | nil => decide
  | cons x t =>
    simp only [OffsetSecondsToString, if_true, List.length_cons, gt_iff_lt,
      Nat.zero_lt_succ, hz, hp, hc]
    by_cases h1 : 'Z' ∈ x :: t ∨ 'z' ∈ x :: t
    · simp only [h1, if_true]
    · simp only [h1, if_false]
      by_cases h2 : '+' ∈ x :: t <;> by_cases h3 : ':' ∈ x :: t <;> simp only [h2, h3, if_true, if_false]

end tzinfo

namespace regexp

theorem orElse_isSome {α : Type} (a : Option α) (b : Unit → Option α) :
    (a.orElse b).isSome = true ↔ (a.isSome = true ∨ (b ()).isSome = true) := by
  cases a <;> simp [Option.orElse]

theorem plusRun_isSome_iff (p : Char → Bool) (k : Cont) (s : List Char) (i : Nat) (c : Caps) :
    (plusRun p i s c k).isSome = true ↔
      ∃ u v, s = u ++ v ∧ (u ≠ [] ∧ ∀ x ∈ u, p x = true) ∧ (k (i + u.length) v c).isSome = true := by
  induction s generalizing i with
  | nil =>
    simp only [plusRun, Option.isSome_none, Bool.false_eq_true, false_iff]
    rintro ⟨u, v, h, ⟨hne, _⟩, _⟩
    cases u with
    | nil => exact hne rfl
    | cons a t => simp at h
  | cons x t ih =>
    simp only [plusRun]
    by_cases hx : p x = true
    · simp only [hx, if_true, orElse_isSome, ih]
      constructor
      · rintro (⟨u, v, rfl, ⟨_, hall⟩, hk⟩ | hk)
        · refine ⟨x :: u, v, rfl, ⟨by simp, ?_⟩, ?_⟩
          · intro y hy
            rcases List.mem_cons.mp hy with rfl | hy
            · exact hx
            · exact hall y hy
          · simpa [Nat.add_assoc, Nat.add_comm 1] using hk
        · exact ⟨[x], t, rfl, ⟨by simp, by simpa using hx⟩, by simpa using hk⟩
      · rintro ⟨u, v, h, ⟨hne, hall⟩, hk⟩
        cases u with
        | nil => exact absurd rfl hne
        | cons a u =>
          simp only [List.cons_append, List.cons.injEq] at h
          obtain ⟨rfl, rfl⟩ := h
          cases u with
          | nil => right; simpa using hk
          | cons b u =>
            left
            refine ⟨b :: u, v, rfl, ⟨by simp, fun y hy => hall y (List.mem_cons_of_mem _ hy)⟩, ?_⟩
            simpa [Nat.add_assoc, Nat.add_comm 1] using hk
    · simp only [hx, Bool.false_eq_true, if_false, Option.isSome_none, false_iff]
      rintro ⟨u, v, h, ⟨hne, hall⟩, _⟩
      cases u with
      | nil => exact hne rfl
      | cons a u =>
        simp only [List.cons_append, List.cons.injEq] at h
        obtain ⟨rfl, rfl⟩ := h
        exact hx (hall _ (List.mem_cons_self _ _))

theorem run_isSome_iff (r : Re) : ∀ (k : Cont), CapsBlind k → ∀ (i : Nat) (s : List Char) (c : Caps),
    ((r.run i s c k).isSome = true ↔
      ∃ u v, s = u ++ v ∧ r.Matches i u v ∧ (k (i + u.length) v c).isSome = true) := by
  induction r with
  | eps =>
    intro k _ i s c
    simp only [Re.run, Re.Matches]
    constructor
    · intro h; exact ⟨[], s, rfl, rfl, by simpa using h⟩
    · rintro ⟨u, v, rfl, rfl, h⟩; simpa using h
  | cls p =>
    intro k _ i s c
    cases s with
    | nil =>
      simp only [Re.run, Re.Matches, Option.isSome_none, Bool.false_eq_true, false_iff]
      rintro ⟨u, v, h, ⟨x, rfl, _⟩, _⟩
      simp at h
    | cons x t =>
      simp only [Re.run, Re.Matches]
      constructor
      · intro h
        by_cases hx : p x = true
        · simp only [hx, if_true] at h
          exact ⟨[x], t, rfl, ⟨x, rfl, hx⟩, by simpa using h⟩
        · simp [hx] at h
      · rintro ⟨u, v, h, ⟨y, rfl, hy⟩, hk⟩
        simp only [List.singleton_append, List.cons.injEq] at h
        obtain ⟨rfl, rfl⟩ := h
        simpa [hy] using hk
  | seq a b iha ihb =>
    intro k hk i s c
    have hk1 : CapsBlind (fun i1 s1 c1 => b.run i1 s1 c1 k) := by
      intro i1 s1 c1 c2
      have h1 := ihb k hk i1 s1 c1
      have h2 := ihb k hk i1 s1 c2
      have h3 : (∃ u v, s1 = u ++ v ∧ b.Matches i1 u v ∧ (k (i1 + u.length) v c1).isSome = true) ↔
          (∃ u v, s1 = u ++ v ∧ b.Matches i1 u v ∧ (k (i1 + u.length) v c2).isSome = true) := by
        constructor
        · rintro ⟨u, v, e, m, h⟩; exact ⟨u, v, e, m, by rw [hk _ _ c2 c1]; exact h⟩
        · rintro ⟨u, v, e, m, h⟩; exact ⟨u, v, e, m, by rw [hk _ _ c1 c2]; exact h⟩
      exact Bool.eq_iff_iff.mpr (h1.trans (h3.trans h2.symm))
    simp only [Re.run, Re.Matches]
    rw [iha _ hk1 i s c]
    constructor
    · rintro ⟨u1, v1, rfl, m1, h⟩
      obtain ⟨u2, v2, rfl, m2, h2⟩ := (ihb k hk _ _ _).mp h
      exact ⟨u1 ++ u2, v2, by simp, ⟨u1, u2, rfl, m1, m2⟩, by simpa [Nat.add_assoc] using h2⟩
    · rintro ⟨u, v, rfl, ⟨u1, u2, rfl, m1, m2⟩, h⟩
      refine ⟨u1, u2 ++ v, by simp, m1, ?_⟩
      exact (ihb k hk _ _ _).mpr ⟨u2, v, rfl, m2, by simpa [Nat.add_assoc] using h⟩
  | alt a b iha ihb =>
    intro k hk i s c
    simp only [Re.run, Re.Matches, orElse_isSome, iha k hk, ihb k hk]
    constructor
    · rintro (⟨u, v, e, m, h⟩ | ⟨u, v, e, m, h⟩)
      · exact ⟨u, v, e, Or.inl m, h⟩
      · exact ⟨u, v, e, Or.inr m, h⟩
    · rintro ⟨u, v, e, m | m, h⟩
      · exact Or.inl ⟨u, v, e, m, h⟩
      · exact Or.inr ⟨u, v, e, m, h⟩
  | opt a iha =>
    intro k hk i s c
    simp only [Re.run, Re.Matches, orElse_isSome, iha k hk]
    constructor
    · rintro (⟨u, v, e, m, h⟩ | h)
      · exact ⟨u, v, e, Or.inl m, h⟩
      · exact ⟨[], s, rfl, Or.inr rfl, by simpa using h⟩
    · rintro ⟨u, v, e, m | rfl, h⟩
      · exact Or.inl ⟨u, v, e, m, h⟩
      · right
        simp only [List.nil_append] at e
        subst e
        simpa using h
  | plus p =>
    intro k _ i s c
    simp only [Re.run, Re.Matches]
    exact plusRun_isSome_iff p k s i c
  | group n a iha =>
    intro k hk i s c
    have hk1 : CapsBlind (fun i1 s1 c1 => k i1 s1 (c1.set n (s.take (i1 - i)))) := by
      intro i1 s1 c1 c2
      exact hk _ _ _ _
    simp only [Re.run, Re.Matches]
    rw [iha _ hk1 i s c]
    constructor
    · rintro ⟨u, v, e, m, h⟩
      exact ⟨u, v, e, m, by rw [hk _ _ c _]; exact h⟩
    · rintro ⟨u, v, e, m, h⟩
      exact ⟨u, v, e, m, by rw [hk _ _ _ c]; exact h⟩
  | bol =>
    intro k _ i s c
    simp only [Re.run, Re.Matches]
    constructor
    · intro h
      by_cases hi : i = 0
      · simp only [hi, if_true] at h
        exact ⟨[], s, rfl, ⟨rfl, hi⟩, by simpa [hi] using h⟩
      · simp [hi] at h
    · rintro ⟨u, v, rfl, ⟨rfl, hi⟩, h⟩
      simpa [hi] using h
  | eol =>
    intro k _ i s c
    simp only [Re.run, Re.Matches]
    constructor
    · intro h
      cases s with
      | nil => exact ⟨[], [], rfl, ⟨rfl, rfl⟩, by simpa using h⟩
      | cons x t => simp at h
    · rintro ⟨u, v, rfl, ⟨rfl, rfl⟩, h⟩
      simpa using h

theorem matchAt_isSome_iff (r : Re) (i : Nat) (s : List Char) :
    (matchAt r i s).isSome = true ↔ ∃ u v, s = u ++ v ∧ r.Matches i u v := by
  have hk : CapsBlind (fun i1 _ c1 => some (c1.set 0 (s.take (i1 - i)))) := by
    intro _ _ _ _; rfl
  unfold matchAt
  rw [run_isSome_iff r _ hk i s]
  constructor
  · rintro ⟨u, v, e, m, _⟩; exact ⟨u, v, e, m⟩
  · rintro ⟨u, v, e, m⟩; exact ⟨u, v, e, m, rfl⟩

theorem searchFrom_isSome_iff (r : Re) (s : List Char) (i : Nat) :
    (searchFrom r i s).isSome = true ↔
      ∃ pre u v, s = pre ++ (u ++ v) ∧ r.Matches (i + pre.length) u v := by
  induction s generalizing i with
  | nil =>
    simp only [searchFrom, matchAt_isSome_iff]
    constructor
    · rintro ⟨u, v, e, m⟩
      exact ⟨[], u, v, by simpa using e, by simpa using m⟩
    · rintro ⟨pre, u, v, e, m⟩
      have hpre : pre = [] := by
        cases pre with
        | nil => rfl
        | cons a t => simp at e
      subst hpre
      exact ⟨u, v, by simpa using e, by simpa using m⟩
  | cons x t ih =>
    simp only [searchFrom, orElse_isSome, matchAt_isSome_iff, ih]
    constructor
    · rintro (⟨u, v, e, m⟩ | ⟨pre, u, v, e, m⟩)
      · exact ⟨[], u, v, by simpa using e, by simpa using m⟩
      · exact ⟨x :: pre, u, v, by simp [e], by simpa [Nat.add_assoc, Nat.add_comm 1] using m⟩
    · rintro ⟨pre, u, v, e, m⟩
      cases pre with
      | nil => exact Or.inl ⟨u, v, by simpa using e, by simpa using m⟩
      | cons a pre =>
        simp only [List.cons_append, List.cons.injEq] at e
        obtain ⟨rfl, rfl⟩ := e
        exact Or.inr ⟨pre, u, v, rfl, by simpa [Nat.add_assoc, Nat.add_comm 1] using m⟩

/-- The matcher decides the words of the pattern: `MatchString` holds exactly when some
block of the text is a word of the pattern at its position. -/
theorem MatchString_iff (r : Re) (s : List Char) :
    MatchString r s = true ↔ ∃ pre u v, s = pre ++ (u ++ v) ∧ r.Matches pre.length u v := by
  unfold MatchString FindStringSubmatch
  rw [searchFrom_isSome_iff]
  simp

end regexp

namespace regexp

theorem plusRun_none_of_head (p : Char → Bool) (i : Nat) (s : List Char) (c : Caps) (k : Cont)
    (hs : ∀ y ys, s = y :: ys → p y = false) : plusRun p i s c k = none := by
  cases s with
  | nil => rfl
  | cons y ys => simp [plusRun, hs y ys rfl]

theorem some_orElse {α : Type} (a : α) (f : Unit → Option α) : (some a).orElse f = some a := rfl

theorem none_orElse {α : Type} (f : Unit → Option α) : (none : Option α).orElse f = f () := rfl

theorem plusRun_cons (p : Char → Bool) (i : Nat) (x : Char) (t : List Char) (c : Caps) (k : Cont)
    (hx : p x = true) :
    plusRun p i (x :: t) c k = (plusRun p (i + 1) t c k).orElse (fun _ => k (i + 1) t c) := by
  simp [plusRun, hx]

theorem commits_plus (p : Char → Bool) (ds s : List Char) (i : Nat) (c : Caps)
    (hne : ds ≠ []) (hall : ∀ x ∈ ds, p x = true) (hs : ∀ y ys, s = y :: ys → p y = false) :
    Commits (.plus p) i ds s c c := by
  intro k v hk
  simp only [Re.run]
  induction ds generalizing i with
  | nil => exact absurd rfl hne
  | cons x t ih =>
    have hx : p x = true := hall x (List.mem_cons_self _ _)
    rw [List.cons_append, plusRun_cons p i x (t ++ s) c k hx]
    cases t with
    | nil =>
      rw [List.nil_append, plusRun_none_of_head p (i + 1) s c k hs, none_orElse]
      simpa using hk
    | cons y t =>
      rw [ih (i + 1) (by simp) (fun z hz => hall z (List.mem_cons_of_mem _ hz))
        (by simpa [Nat.add_assoc, Nat.add_comm 1] using hk), some_orElse]

theorem commits_cls (p : Char → Bool) (x : Char) (s : List Char) (i : Nat) (c : Caps)
    (hx : p x = true) : Commits (.cls p) i [x] s c c := by
  intro k v hk
  simpa [Re.run, hx] using hk

theorem commits_lit (x : Char) (s : List Char) (i : Nat) (c : Caps) :
    Commits (lit x) i [x] s c c :=
  commits_cls _ x s i c (by simp)

theorem commits_eps (s : List Char) (i : Nat) (c : Caps) : Commits .eps i [] s c c := by
  intro k v hk
  simpa [Re.run] using hk

theorem commits_seq {a b : Re} {i : Nat} (u1 u2 : List Char) {s : List Char} {c c1 c2 : Caps}
    (ha : Commits a i u1 (u2 ++ s) c c1) (hb : Commits b (i + u1.length) u2 s c1 c2) :
    Commits (.seq a b) i (u1 ++ u2) s c c2 := by
  intro k v hk
  simp only [Re.run, List.append_assoc]
  apply ha
  apply hb
  simpa [Nat.add_assoc] using hk

theorem commits_group {a : Re} {i : Nat} {u s : List Char} {c c1 : Caps} (n : Nat)
    (ha : Commits a i u s c c1) : Commits (.group n a) i u s c (c1.set n u) := by
  intro k v hk
  simp only [Re.run]
  apply ha
  simpa [List.take_left'] using hk

theorem commits_alt_left {a : Re} (b : Re) {i : Nat} {u s : List Char} {c c1 : Caps}
    (ha : Commits a i u s c c1) : Commits (.alt a b) i u s c c1 := by
  intro k v hk
  simp [Re.run, ha k v hk, Option.orElse]

theorem commits_alt_right {a b : Re} {i : Nat} {u s : List Char} {c c1 : Caps}
    (ha : Fails a i (u ++ s) c) (hb : Commits b i u s c c1) : Commits (.alt a b) i u s c c1 := by
  intro k v hk
  simp [Re.run, ha k, hb k v hk, Option.orElse]

theorem commits_opt_some {a : Re} {i : Nat} {u s : List Char} {c c1 : Caps}
    (ha : Commits a i u s c c1) : Commits (.opt a) i u s c c1 := by
  intro k v hk
  simp [Re.run, ha k v hk, Option.orElse]

theorem commits_opt_none {a : Re} {i : Nat} {s : List Char} {c : Caps}
    (ha : Fails a i s c) : Commits (.opt a) i [] s c c := by
  intro k v hk
  have : k i s c = some v := by simpa using hk
  simp [Re.run, ha k, this, Option.orElse]

theorem commits_bol (s : List Char) (c : Caps) : Commits .bol 0 [] s c c := by
  intro k v hk
  simpa [Re.run] using hk

theorem commits_eol (i : Nat) (c : Caps) : Commits .eol i [] [] c c := by
  intro k v hk
  simpa [Re.run] using hk

theorem fails_cls_nil (p : Char → Bool) (i : Nat) (c : Caps) : Fails (.cls p) i [] c := by
  intro k; rfl

theorem fails_cls_cons (p : Char → Bool) (i : Nat) (x : Char) (t : List Char) (c : Caps)
    (hx : p x = false) : Fails (.cls p) i (x :: t) c := by
  intro k; simp [Re.run, hx]

theorem fails_cls_head (p : Char → Bool) (i : Nat) (s : List Char) (c : Caps)
    (hs : ∀ y ys, s = y :: ys → p y = false) : Fails (.cls p) i s c := by
  cases s with
  | nil => exact fails_cls_nil p i c
  | cons y ys => exact fails_cls_cons p i y ys c (hs y ys rfl)

theorem fails_plus_head (p : Char → Bool) (i : Nat) (s : List Char) (c : Caps)
    (hs : ∀ y ys, s = y :: ys → p y = false) : Fails (.plus p) i s c := by
  intro k
  simpa [Re.run] using plusRun_none_of_head p i s c k hs

theorem fails_seq_left {a : Re} (b : Re) {i : Nat} {s : List Char} {c : Caps}
    (ha : Fails a i s c) : Fails (.seq a b) i s c := by
  intro k; simp [Re.run, ha _]

theorem fails_group {a : Re} (n : Nat) {i : Nat} {s : List Char} {c : Caps}
    (ha : Fails a i s c) : Fails (.group n a) i s c := by
  intro k; simp [Re.run, ha _]

theorem fails_alt {a b : Re} {i : Nat} {s : List Char} {c : Caps}
    (ha : Fails a i s c) (hb : Fails b i s c) : Fails (.alt a b) i s c := by
  intro k; simp [Re.run, ha _, hb _, Option.orElse]

theorem matchAt_of_commits {r : Re} {i : Nat} {u s : List Char} {c1 : Caps}
    (h : Commits r i u s (List.replicate (r.numGroups + 1) []) c1) :
    matchAt r i (u ++ s) = some (c1.set 0 u) := by
  unfold matchAt
  apply h
  simp [List.take_left']

theorem searchFrom_of_matchAt {r : Re} {i : Nat} {s : List Char} {v : Caps}
    (h : matchAt r i s = some v) : searchFrom r i s = some v := by
  cases s with
  | nil => simpa [searchFrom] using h
  | cons x t => simp [searchFrom, h, Option.orElse]

theorem FindStringSubmatch_of_commits {r : Re} {u s : List Char} {c1 : Caps}
    (h : Commits r 0 u s (List.replicate (r.numGroups + 1) []) c1) :
    FindStringSubmatch r (u ++ s) = some (c1.set 0 u) :=
  searchFrom_of_matchAt (matchAt_of_commits h)

end regexp

namespace chronus

open gostd regexp

theorem GetUnixTimeStampFormat_eq (dtz : List Char) :
    GetUnixTimeStampFormat dtz
      = if MatchString regExUnixTimeStamp dtz = true then UnixTimeStamp else [] := by
  unfold GetUnixTimeStampFormat
  split_ifs <;> rfl

/-- The texts that `regExUnixTimeStamp` accepts. -/
theorem unix_match_iff (dtz : List Char) :
    MatchString regExUnixTimeStamp dtz = true ↔
      ∃ sgn ds dot fs, dtz = sgn ++ (ds ++ (dot ++ fs)) ∧
        (sgn = [] ∨ ∃ x, sgn = [x] ∧ isSign x = true) ∧
        (ds ≠ [] ∧ ∀ x ∈ ds, isD x = true) ∧ (dot = [] ∨ dot = ['.']) ∧
        (∀ x ∈ fs, isD x = true) := by
  rw [MatchString_iff]
  simp only [regExUnixTimeStamp, Re.cat, Re.Matches, lit]
  constructor
  · rintro ⟨pre, u, v, e, u1, u2, rfl, ⟨rfl, hpre⟩, u3, u4, rfl, hsg, u5, u6, rfl, hds, u7, u8, rfl,
      hdot, u9, u10, rfl, hfs, rfl, rfl⟩
    have hp : pre = [] := List.length_eq_zero.mp hpre
    subst hp
    refine ⟨u3, u5, u7, u9, by simpa using e, ?_, hds, ?_, ?_⟩
    · rcases hsg with ⟨x, rfl, hx⟩ | rfl
      · exact Or.inr ⟨x, rfl, hx⟩
      · exact Or.inl rfl
    · rcases hdot with ⟨x, rfl, hx⟩ | rfl
      · right; simpa using hx
      · left; rfl
    · rcases hfs with ⟨_, h⟩ | rfl
      · exact h
      · simp
  · rintro ⟨sgn, ds, dot, fs, rfl, hsg, hds, hdot, hfs⟩
    refine ⟨[], sgn ++ (ds ++ (dot ++ fs)), [], by simp, [], _, rfl, ⟨rfl, rfl⟩, sgn, _, rfl, ?_,
      ds, _, rfl, hds, dot, _, rfl, ?_, fs, [], by simp, ?_, rfl, rfl⟩
    · rcases hsg with rfl | ⟨x, rfl, hx⟩
      · exact Or.inr rfl
      · exact Or.inl ⟨x, rfl, hx⟩
    · rcases hdot with rfl | rfl
      · exact Or.inr rfl
      · exact Or.inl ⟨'.', rfl, by simp⟩
    · cases fs with
      | nil => exact Or.inr rfl
      | cons a t => exact Or.inl ⟨by simp, hfs⟩

end chronus

namespace chronus

open gostd regexp

theorem reZoneName_iff (tz : List Char) :
    MatchString reZoneName tz = true ↔ HasUpperPair tz := by
  rw [MatchString_iff]
  simp only [reZoneName, Re.cat, Re.Matches, HasUpperPair]
  constructor
  · rintro ⟨pre, u, v, rfl, u1, u2, rfl, ⟨a, rfl, ha⟩, hne, hall⟩
    cases u2 with
    | nil => exact absurd rfl hne
    | cons b t =>
      exact ⟨pre, a, b, t ++ v, by simp, ha, hall b (List.mem_cons_self _ _)⟩
  · rintro ⟨pre, a, b, post, rfl, ha, hb⟩
    exact ⟨pre, [a, b], post, by simp, [a], [b], rfl, ⟨a, rfl, ha⟩, by simp, by simpa using hb⟩

theorem reZoneColonOffset_iff (tz : List Char) :
    MatchString reZoneColonOffset tz = true ↔ HasSignedColonOffset tz := by
  rw [MatchString_iff]
  simp only [reZoneColonOffset, Re.cat, Re.Matches, HasSignedColonOffset, lit]
  constructor
  · rintro ⟨pre, u, v, rfl, u1, u2, rfl, ⟨sg, rfl, hsg⟩, u3, u4, rfl, ⟨hne, hds⟩, u5, u6, rfl,
      ⟨x, rfl, hx⟩, hne2, hfs⟩
    cases u6 with
    | nil => exact absurd rfl hne2
    | cons y t =>
      have hx2 : x = ':' := by simpa using hx
      subst hx2
      exact ⟨pre, sg, u3, y, t ++ v, by simp, hsg, hne, hds, hfs y (List.mem_cons_self _ _)⟩
  · rintro ⟨pre, sg, ds, x, post, rfl, hsg, hne, hds, hx⟩
    exact ⟨pre, sg :: (ds ++ ':' :: [x]), post, by simp, [sg], ds ++ ':' :: [x], rfl,
      ⟨sg, rfl, hsg⟩, ds, ':' :: [x], rfl, ⟨hne, hds⟩, [':'], [x], rfl, ⟨':', rfl, by simp⟩,
      by simp, by simpa using hx⟩

theorem GetTimeZoneFormat_cases (tz : List Char) :
    (HasUpperPair tz → GetTimeZoneFormat tz = "MST".toList) ∧
    (¬ HasUpperPair tz → HasSignedColonOffset tz → GetTimeZoneFormat tz = "Z07:00".toList) ∧
    (¬ HasUpperPair tz → ¬ HasSignedColonOffset tz → GetTimeZoneFormat tz = "Z0700".toList) := by
  have hn : ¬ HasUpperPair tz → MatchString reZoneName tz = false := fun h => by
    cases hh : MatchString reZoneName tz
    · rfl
    · exact absurd ((reZoneName_iff tz).mp hh) h
  have hc : ¬ HasSignedColonOffset tz → MatchString reZoneColonOffset tz = false := fun h => by
    cases hh : MatchString reZoneColonOffset tz
    · rfl
    · exact absurd ((reZoneColonOffset_iff tz).mp hh) h
  refine ⟨fun h => ?_, fun h1 h2 => ?_, fun h1 h2 => ?_⟩
  · simp [GetTimeZoneFormat, (reZoneName_iff tz).mpr h]
  · simp [GetTimeZoneFormat, hn h1, (reZoneColonOffset_iff tz).mpr h2]
  · simp [GetTimeZoneFormat, hn h1, hc h2]

/-- C9, as stated, fails: the zone text "07:00" holds a colon and no two adjacent
uppercase letters, and the token returned for it is the bare-offset one. -/
theorem zone_token_unsigned_colon :
    ':' ∈ "07:00".toList ∧ ¬ HasUpperPair "07:00".toList ∧
      GetTimeZoneFormat "07:00".toList = "Z0700".toList ∧
      GetTimeZoneFormat "07:00".toList ≠ "Z07:00".toList := by
  refine ⟨by decide, ?_, by decide, by decide⟩
  rw [← reZoneName_iff]
  decide

/-- C9, amended: the token is "MST" when the zone text holds two adjacent letters of `A`
to `Z`; otherwise "Z07:00" when it holds a sign, digits, a colon and a digit in a row;
otherwise "Z0700". -/
theorem zone_token_selection (tz : List Char) :
    (HasUpperPair tz → GetTimeZoneFormat tz = "MST".toList) ∧
    (¬ HasUpperPair tz → HasSignedColonOffset tz → GetTimeZoneFormat tz = "Z07:00".toList) ∧
    (¬ HasUpperPair tz → ¬ HasSignedColonOffset tz → GetTimeZoneFormat tz = "Z0700".toList) := by
  exact GetTimeZoneFormat_cases tz

/-- Witness of the amended C9 at the zone texts "PST", "-07:00" and "Z". -/
theorem zone_token_selection_witness :
    GetTimeZoneFormat "PST".toList = "MST".toList ∧
    GetTimeZoneFormat "-07:00".toList = "Z07:00".toList ∧
    GetTimeZoneFormat "Z".toList = "Z0700".toList :=
  ⟨(zone_token_selection "PST".toList).1 ((reZoneName_iff _).mp (by decide)),
   (zone_token_selection "-07:00".toList).2.1
     (fun h => absurd ((reZoneName_iff _).mpr h) (by decide))
     ((reZoneColonOffset_iff _).mp (by decide)),
   (zone_token_selection "Z".toList).2.2
     (fun h => absurd ((reZoneName_iff _).mpr h) (by decide))
     (fun h => absurd ((reZoneColonOffset_iff _).mpr h) (by decide))⟩

end chronus

namespace chronus

open gostd regexp

theorem unix_match_chars (dtz : List Char) (h : MatchString regExUnixTimeStamp dtz = true) :
    ∀ x ∈ dtz, isSign x = true ∨ isD x = true ∨ x = '.' := by
  obtain ⟨sgn, ds, dot, fs, rfl, hsg, ⟨_, hds⟩, hdot, hfs⟩ := (unix_match_iff dtz).mp h
  intro x hx
  simp only [List.mem_append] at hx
  rcases hx with hx | hx | hx | hx
  · rcases hsg with rfl | ⟨y, rfl, hy⟩
    · simp at hx
    · left
      have : x = y := by simpa using hx
      rw [this]; exact hy
  · exact Or.inr (Or.inl (hds x hx))
  · rcases hdot with rfl | rfl
    · simp at hx
    · right; right; simpa using hx
  · exact Or.inr (Or.inl (hfs x hx))

theorem GetUnixTimeStampFormat_of_mem (dtz : List Char) (x : Char) (hx : x ∈ dtz)
    (h1 : isSign x = false) (h2 : isD x = false) (h3 : x ≠ '.') :
    GetUnixTimeStampFormat dtz = [] := by
  rw [GetUnixTimeStampFormat_eq]
  have : ¬ MatchString regExUnixTimeStamp dtz = true := by
    intro h
    rcases unix_match_chars dtz h x hx with h | h | h
    · rw [h1] at h; exact Bool.noConfusion h
    · rw [h2] at h; exact Bool.noConfusion h
    · exact h3 h
  rw [if_neg this]

/-- C6: an optional sign followed by one or more digits is classified as the integer
Unix-epoch sentinel, with no zone. -/
theorem classify_unix_integer (P : tzinfo.Platform) (reg : tzinfo.Registry) (cc : List Char)
    (sgn ds : List Char) (hsgn : sgn = [] ∨ sgn = ['+'] ∨ sgn = ['-'])
    (hne : ds ≠ []) (hds : ∀ x ∈ ds, isDigit x = true) :
    GetFormat P reg cc (sgn ++ ds) = ⟨UnixTimeStamp, none, cc⟩ := by
  have hm : MatchString regExUnixTimeStamp (sgn ++ ds) = true := by
    refine (unix_match_iff _).mpr ⟨sgn, ds, [], [], by simp, ?_, ⟨hne, hds⟩, Or.inl rfl, by simp⟩
    rcases hsgn with rfl | rfl | rfl
    · exact Or.inl rfl
    · exact Or.inr ⟨'+', rfl, by decide⟩
    · exact Or.inr ⟨'-', rfl, by decide⟩
  have hf : GetUnixTimeStampFormat (sgn ++ ds) = UnixTimeStamp := by
    rw [GetUnixTimeStampFormat_eq, if_pos hm]
  have hl : UnixTimeStamp.length > 0 := by decide
  simp only [GetFormat, hf, hl, if_true]

/-- Witness of C6 at "1136239445". -/
theorem classify_unix_integer_witness :
    GetFormat ⟨([], 0), fun _ => none, id⟩ ⟨[], [], []⟩ [] "1136239445".toList
      = ⟨UnixTimeStamp, none, []⟩ :=
  classify_unix_integer ⟨([], 0), fun _ => none, id⟩ ⟨[], [], []⟩ [] [] "1136239445".toList
    (Or.inl rfl) (by decide) (by decide)

/-- C7: a Unix timestamp with a fractional part is given the integer sentinel, not the
sentinel for a sub-second value; no input at all is given the latter. -/
theorem unix_fraction_gets_integer_sentinel :
    GetUnixTimeStampFormat "1136239445.123456".toList = UnixTimeStamp ∧
      GetUnixTimeStampFormat "1136239445.123456".toList ≠ UnixTimeStampFloat ∧
      ∀ dtz, GetUnixTimeStampFormat dtz ≠ UnixTimeStampFloat := by
  refine ⟨by decide, by decide, fun dtz => ?_⟩
  rw [GetUnixTimeStampFormat_eq]
  split_ifs <;> decide

end chronus

namespace regexp

theorem head_false {p : Char → Bool} {x : Char} {t : List Char} (hx : p x = false) :
    ∀ y ys, x :: t = y :: ys → p y = false := by
  intro y ys h
  obtain ⟨rfl, _⟩ := List.cons.inj h
  exact hx

theorem isD_sign_false {x : Char} (h : x = '+' ∨ x = '-') : isD x = false := by
  rcases h with rfl | rfl <;> decide

end regexp

namespace chronus

open gostd regexp

theorem commits_dd {a b : Char} (n i : Nat) (s : List Char) (c : Caps)
    (ha : isD a = true) (hb : isD b = true) :
    Commits (.group n (.seq d d)) i [a, b] s c (c.set n [a, b]) :=
  commits_group n (commits_seq [a] [b] (commits_cls isD a _ i c ha)
    (commits_cls isD b s _ c hb))

/-- The zone group `([+-]\d\d:?\d\d|Z)` on a zone text at the end of the input. -/
theorem zone_group_commits (i : Nat) (c : Caps) (zone : List Char)
    (hzone : zone = ['Z'] ∨ ∃ sg a b x y, zone = [sg, a, b, ':', x, y] ∧ (sg = '+' ∨ sg = '-') ∧
      isD a = true ∧ isD b = true ∧ isD x = true ∧ isD y = true) :
    Commits (.group 8 (.alt (.seq (.cls isSign) (.seq d (.seq d (.seq (.opt (lit ':')) (.seq d d)))))
      (lit 'Z'))) i zone [] c (c.set 8 zone) := by
  apply commits_group
  rcases hzone with rfl | ⟨sg, a, b, x, y, rfl, hsg, ha, hb, hx, hy⟩
  · exact commits_alt_right (fails_seq_left _ (fails_cls_cons _ _ _ _ _ (by decide)))
      (commits_lit 'Z' [] i c)
  · have hs : isSign sg = true := by rcases hsg with rfl | rfl <;> decide
    exact commits_alt_left _
      (commits_seq [sg] _ (commits_cls _ sg _ _ _ hs)
        (commits_seq [a] _ (commits_cls _ a _ _ _ ha)
          (commits_seq [b] _ (commits_cls _ b _ _ _ hb)
            (commits_seq [':'] _ (commits_opt_some (commits_lit ':' _ _ _))
              (commits_seq [x] [y] (commits_cls _ x _ _ _ hx)
                (commits_cls _ y _ _ _ hy))))))

end chronus

namespace chronus

open gostd regexp

/-- The slots that `regExRFC3339` fills on a text of the RFC 3339 shape. -/
theorem rfc3339_submatch (ys frac zone : List Char) (M1 M2 D1 D2 h1 h2 m1 m2 s1 s2 : Char)
    (hys : ys ≠ [] ∧ ∀ x ∈ ys, isD x = true)
    (hM1 : isD M1 = true) (hM2 : isD M2 = true) (hD1 : isD D1 = true) (hD2 : isD D2 = true)
    (hh1 : isD h1 = true) (hh2 : isD h2 = true) (hm1 : isD m1 = true) (hm2 : isD m2 = true)
    (hs1 : isD s1 = true) (hs2 : isD s2 = true)
    (hfrac : frac = [] ∨ ∃ fs, frac = '.' :: fs ∧ fs ≠ [] ∧ ∀ x ∈ fs, isD x = true)
    (hzone : zone = ['Z'] ∨ ∃ sg a b x y, zone = [sg, a, b, ':', x, y] ∧ (sg = '+' ∨ sg = '-') ∧
      isD a = true ∧ isD b = true ∧ isD x = true ∧ isD y = true) :
    ∃ m, FindStringSubmatch regExRFC3339
        (ys ++ '-' :: M1 :: M2 :: '-' :: D1 :: D2 :: 'T' :: h1 :: h2 :: ':' :: m1 :: m2 :: ':'
          :: s1 :: s2 :: (frac ++ zone)) = some m ∧ m.getD 8 [] = zone := by
  have hzh : ∀ (p : Char → Bool), p 'Z' = false → p '+' = false → p '-' = false →
      ∀ y t, zone ++ [] = y :: t → p y = false := by
    intro p pZ pp pm y t h
    rcases hzone with rfl | ⟨sg, a, b, x, y', rfl, hsg, _⟩
    · obtain ⟨rfl, _⟩ := List.cons.inj h; exact pZ
    · obtain ⟨rfl, _⟩ := List.cons.inj h
      rcases hsg with rfl | rfl
      · exact pp
      · exact pm
  have hg7 : ∀ (i : Nat) (c : Caps), Commits (.opt (.group 7 (.seq (lit '.') (.plus isD)))) i frac
      (zone ++ []) c (if frac = [] then c else c.set 7 frac) := by
    intro i c
    rcases hfrac with rfl | ⟨fs, rfl, hne, hfs⟩
    · rw [if_pos rfl]
      exact commits_opt_none (fails_group 7 (fails_seq_left _ (fails_cls_head _ _ _ _
        (hzh _ (by decide) (by decide) (by decide)))))
    · rw [if_neg (by simp)]
      exact commits_opt_some (commits_group 7 (commits_seq ['.'] fs (commits_lit '.' _ _ _)
        (commits_plus isD fs _ _ _ hne hfs (hzh _ (by decide) (by decide) (by decide)))))
  have hng : regExRFC3339.numGroups + 1 = 9 := by decide
  have key : Commits regExRFC3339 0
      (ys ++ (['-'] ++ ([M1, M2] ++ (['-'] ++ ([D1, D2] ++ (['T'] ++ ([h1, h2] ++ ([':'] ++
        ([m1, m2] ++ ([':'] ++ ([s1, s2] ++ (frac ++ zone)))))))))))) []
      (List.replicate (regExRFC3339.numGroups + 1) [])
      ((if frac = [] then
          (((((((List.replicate 9 ([] : List Char)).set 1 ys).set 2 [M1, M2]).set 3 [D1, D2]).set 4 [h1, h2]).set 5 [m1, m2]).set 6 [s1, s2])
        else
          (((((((List.replicate 9 ([] : List Char)).set 1 ys).set 2 [M1, M2]).set 3 [D1, D2]).set 4 [h1, h2]).set 5 [m1, m2]).set 6 [s1, s2]).set 7 frac).set 8 zone) := by
    rw [hng]
    simp only [regExRFC3339, Re.cat]
    refine commits_seq ys _ (commits_group 1 (commits_plus isD ys _ 0 _ hys.1 hys.2
        (head_false (by decide)))) ?_
    refine commits_seq ['-'] _ (commits_lit '-' _ _ _) ?_
    refine commits_seq [M1, M2] _ (commits_dd 2 _ _ _ hM1 hM2) ?_
    refine commits_seq ['-'] _ (commits_lit '-' _ _ _) ?_
    refine commits_seq [D1, D2] _ (commits_dd 3 _ _ _ hD1 hD2) ?_
    refine commits_seq ['T'] _ (commits_lit 'T' _ _ _) ?_
    refine commits_seq [h1, h2] _ (commits_dd 4 _ _ _ hh1 hh2) ?_
    refine commits_seq [':'] _ (commits_lit ':' _ _ _) ?_
    refine commits_seq [m1, m2] _ (commits_dd 5 _ _ _ hm1 hm2) ?_
    refine commits_seq [':'] _ (commits_lit ':' _ _ _) ?_
    refine commits_seq [s1, s2] _ (commits_dd 6 _ _ _ hs1 hs2) ?_
    exact commits_seq frac zone (hg7 _ _) (zone_group_commits _ _ zone hzone)
  have hfind := FindStringSubmatch_of_commits key
  have e : ys ++ '-' :: M1 :: M2 :: '-' :: D1 :: D2 :: 'T' :: h1 :: h2 :: ':' :: m1 :: m2 :: ':'
      :: s1 :: s2 :: (frac ++ zone)
      = (ys ++ (['-'] ++ ([M1, M2] ++ (['-'] ++ ([D1, D2] ++ (['T'] ++ ([h1, h2] ++ ([':'] ++
        ([m1, m2] ++ ([':'] ++ ([s1, s2] ++ (frac ++ zone)))))))))))) ++ [] := by simp
  rw [e]
  exact ⟨_, hfind, by split_ifs <;> simp [List.getD]⟩

end chronus

namespace chronus

open gostd regexp

theorem isAZ_false_of_isD {x : Char} (h : isD x = true) : isAZ x = false := by
  have hb := isDigit_bounds h
  simp only [isAZ, Bool.and_eq_false_iff, decide_eq_false_iff_not]
  omega

theorem hasUpperPair_exists_mem {tz : List Char} (h : HasUpperPair tz) :
    ∃ p ∈ tz, isAZ p = true := by
  obtain ⟨pre, a, b, post, rfl, ha, _⟩ := h
  exact ⟨a, by simp, ha⟩

theorem GetTimeZoneFormat_colon_offset (sg a b x y : Char) (hsg : sg = '+' ∨ sg = '-')
    (ha : isD a = true) (hb : isD b = true) (hx : isD x = true) (hy : isD y = true) :
    GetTimeZoneFormat [sg, a, b, ':', x, y] = "Z07:00".toList := by
  refine (GetTimeZoneFormat_cases _).2.1 ?_ ?_
  · intro h
    obtain ⟨p, hp, hAZ⟩ := hasUpperPair_exists_mem h
    have hsgAZ : isAZ sg = false := by rcases hsg with rfl | rfl <;> decide
    simp only [List.mem_cons, List.mem_singleton, List.not_mem_nil, or_false] at hp
    rcases hp with rfl | rfl | rfl | rfl | rfl | rfl
    · rw [hsgAZ] at hAZ; exact Bool.noConfusion hAZ
    · rw [isAZ_false_of_isD ha] at hAZ; exact Bool.noConfusion hAZ
    · rw [isAZ_false_of_isD hb] at hAZ; exact Bool.noConfusion hAZ
    · exact absurd hAZ (by decide)
    · rw [isAZ_false_of_isD hx] at hAZ; exact Bool.noConfusion hAZ
    · rw [isAZ_false_of_isD hy] at hAZ; exact Bool.noConfusion hAZ
  · refine ⟨[], sg, [a, b], x, [y], rfl, ?_, by simp, ?_, hx⟩
    · rcases hsg with rfl | rfl <;> decide
    · intro z hz
      simp only [List.mem_cons, List.mem_singleton, List.not_mem_nil, or_false] at hz
      rcases hz with rfl | rfl
      · exact ha
      · exact hb

theorem GetRFC3339Format_of_submatch (m : List (List Char)) (text : List Char)
    (hm : FindStringSubmatch regExRFC3339 text = some m) :
    GetRFC3339Format text = "2006-01-02T15:04:05".toList ++ GetTimeZoneFormat (m.getD 8 []) := by
  simp [GetRFC3339Format, MatchString, hm]

/-- C8: a text of the shape of an RFC 3339 rendering (date, `T`, time, an optional
fractional group, then `Z` or a signed offset with a colon) is classified at the RFC 3339
stage with no zone; the layout is the non-fractional one followed by the zone token,
whether or not a fractional group is present. -/
theorem classify_rfc3339 (P : tzinfo.Platform) (reg : tzinfo.Registry) (cc : List Char)
    (ys frac zone : List Char) (M1 M2 D1 D2 h1 h2 m1 m2 s1 s2 : Char)
    (hys : ys ≠ [] ∧ ∀ x ∈ ys, isDigit x = true)
    (hM1 : isDigit M1 = true) (hM2 : isDigit M2 = true)
    (hD1 : isDigit D1 = true) (hD2 : isDigit D2 = true)
    (hh1 : isDigit h1 = true) (hh2 : isDigit h2 = true)
    (hm1 : isDigit m1 = true) (hm2 : isDigit m2 = true)
    (hs1 : isDigit s1 = true) (hs2 : isDigit s2 = true)
    (hfrac : frac = [] ∨ ∃ fs, frac = '.' :: fs ∧ fs ≠ [] ∧ ∀ x ∈ fs, isDigit x = true)
    (hzone : zone = ['Z'] ∨ ∃ sg a b x y, zone = [sg, a, b, ':', x, y] ∧ (sg = '+' ∨ sg = '-') ∧
      isDigit a = true ∧ isDigit b = true ∧ isDigit x = true ∧ isDigit y = true) :
    GetFormat P reg cc (ys ++ '-' :: M1 :: M2 :: '-' :: D1 :: D2 :: 'T' :: h1 :: h2 :: ':' :: m1
        :: m2 :: ':' :: s1 :: s2 :: (frac ++ zone))
      = ⟨"2006-01-02T15:04:05".toList
          ++ (if zone = ['Z'] then "Z0700".toList else "Z07:00".toList), none, cc⟩ := by
  have hU : GetUnixTimeStampFormat (ys ++ '-' :: M1 :: M2 :: '-' :: D1 :: D2 :: 'T' :: h1 :: h2
      :: ':' :: m1 :: m2 :: ':' :: s1 :: s2 :: (frac ++ zone)) = [] :=
    GetUnixTimeStampFormat_of_mem _ 'T' (by simp) (by decide) (by decide) (by decide)
  obtain ⟨m, hm, h8⟩ := rfc3339_submatch ys frac zone M1 M2 D1 D2 h1 h2 m1 m2 s1 s2 hys
    hM1 hM2 hD1 hD2 hh1 hh2 hm1 hm2 hs1 hs2 hfrac hzone
  have hR := GetRFC3339Format_of_submatch m _ hm
  rw [h8] at hR
  have hT : GetTimeZoneFormat zone = (if zone = ['Z'] then "Z0700".toList else "Z07:00".toList) := by
    rcases hzone with rfl | ⟨sg, a, b, x, y, rfl, hsg, ha, hb, hx, hy⟩
    · decide
    · rw [if_neg (by simp), GetTimeZoneFormat_colon_offset sg a b x y hsg ha hb hx hy]
  rw [hT] at hR
  have hl : ("2006-01-02T15:04:05".toList
      ++ (if zone = ['Z'] then "Z0700".toList else "Z07:00".toList)).length > 0 := by
    simp [List.length_append]
  simp only [GetFormat, hU, hR, hl, List.length_nil, gt_iff_lt, lt_self_iff_false, if_false,
    if_true]

/-- Witness of C8 at "2021-04-13T17:58:42-07:00". -/
theorem classify_rfc3339_witness :
    GetFormat ⟨([], 0), fun _ => none, id⟩ ⟨[], [], []⟩ [] "2021-04-13T17:58:42-07:00".toList
      = ⟨"2006-01-02T15:04:05Z07:00".toList, none, []⟩ :=
  classify_rfc3339 ⟨([], 0), fun _ => none, id⟩ ⟨[], [], []⟩ [] "2021".toList [] "-07:00".toList
    '0' '4' '1' '3' '1' '7' '5' '8' '4' '2' (by decide) (by decide) (by decide) (by decide)
    (by decide) (by decide) (by decide) (by decide) (by decide) (by decide) (by decide)
    (Or.inl rfl)
    (Or.inr ⟨'-', '0', '7', '0', '0', rfl, Or.inr rfl, by decide, by decide, by decide,
      by decide⟩)

end chronus

namespace chronus

open gostd regexp

/-- C10: the date-only text "2021-04-13" is given the year-to-second layout
`SQLDateTime`, which has time fields, and not the date-only layout `SQLDateYearToDay`. -/
theorem sql_date_only_gets_time_layout (P : tzinfo.Platform) (reg : tzinfo.Registry)
    (cc : List Char) :
    (GetSQLFormat P reg cc "2021-04-13".toList).format = "2006-01-02 15:04:05".toList ∧
      (GetSQLFormat P reg cc "2021-04-13".toList).format = SQLDateTime ∧
      (GetSQLFormat P reg cc "2021-04-13".toList).format ≠ SQLDateYearToDay := by
  have hm : FindStringSubmatch regExSQLDateTime "2021-04-13".toList
      = some ["2021-04-13".toList, "2021-04-13".toList, [], [], []] := by decide
  have h : (GetSQLFormat P reg cc "2021-04-13".toList).format = SQLDateTime := by
    simp only [GetSQLFormat, MatchString, hm]
    simp
  refine ⟨h, h, ?_⟩
  rw [h]
  decide

end chronus

namespace chronus

open gostd regexp

/-- C11: the year-to-minute text "2021-04-13 17:58 -0700" is given the layout
"2006-01-02 15:04:05 -0700", which has a seconds field, and not "2006-01-02 15:04 -0700". -/
theorem sql_minute_offset_gets_seconds_layout (P : tzinfo.Platform) (reg : tzinfo.Registry)
    (cc : List Char) :
    (GetSQLFormat P reg cc "2021-04-13 17:58 -0700".toList).format
        = "2006-01-02 15:04:05 -0700".toList ∧
      (GetSQLFormat P reg cc "2021-04-13 17:58 -0700".toList).format
        ≠ "2006-01-02 15:04 -0700".toList := by
  have hm : FindStringSubmatch regExSQLDateTime "2021-04-13 17:58 -0700".toList
      = some ["2021-04-13 17:58 -0700".toList, "2021-04-13".toList, "17:58".toList, [],
          "-0700".toList] := by decide
  have ht : TimezoneIsOffset "-0700".toList = 1 := by decide
  have h : (GetSQLFormat P reg cc "2021-04-13 17:58 -0700".toList).format
      = "2006-01-02 15:04:05 -0700".toList := by
    simp only [GetSQLFormat, MatchString, hm, Option.isSome_some, Option.getD_some, if_true,
      List.getD_cons_succ, List.getD_cons_zero, ht]
    simp [SQLDateTimeYearToMinuteWithOffset]
  refine ⟨h, ?_⟩
  rw [h]
  decide

end chronus

namespace regexp

theorem fails_seq_opt {a b : Re} {i : Nat} {s : List Char} {c : Caps}
    (ha : Fails a i s c) (hb : Fails b i s c) : Fails (.seq (.opt a) b) i s c := by
  intro k
  simp [Re.run, ha _, hb _, Option.orElse]

theorem head_nil {p : Char → Bool} : ∀ y ys, ([] : List Char) = y :: ys → p y = false := by
  intro y ys h
  exact absurd h (by simp)

theorem isD_false_of_isLetter {x : Char} (h : gostd.isLetter x = true) : isD x = false := by
  simp only [gostd.isLetter, Bool.or_eq_true, Bool.and_eq_true, decide_eq_true_eq] at h
  simp only [isD, gostd.isDigit, Bool.and_eq_false_iff, decide_eq_false_iff_not]
  omega

theorem isW_of_isLetter {x : Char} (h : gostd.isLetter x = true) : isW x = true := by
  simp only [gostd.isLetter, Bool.or_eq_true, Bool.and_eq_true, decide_eq_true_eq] at h
  simp only [isW, isAZ, Bool.or_eq_true, Bool.and_eq_true, decide_eq_true_eq]
  rcases h with h | h
  · exact Or.inl (Or.inl (Or.inr h))
  · exact Or.inl (Or.inr h)

theorem ne_of_isLetter {x : Char} (h : gostd.isLetter x = true) :
    (x == ' ') = false ∧ (x == ':') = false ∧ (x == '-') = false := by
  refine ⟨?_, ?_, ?_⟩ <;>
  · rw [beq_eq_false_iff_ne]
    rintro rfl
    exact absurd h (by decide)

end regexp

namespace chronus

open gostd regexp

/-- The date group `(\d+-\d+-\d+)`. -/
theorem commits_sql_date (i : Nat) (c : Caps) (ys ms ds rest : List Char)
    (hys : ys ≠ [] ∧ ∀ x ∈ ys, isD x = true) (hms : ms ≠ [] ∧ ∀ x ∈ ms, isD x = true)
    (hds : ds ≠ [] ∧ ∀ x ∈ ds, isD x = true)
    (hrest : ∀ y t, rest = y :: t → isD y = false) :
    Commits (.group 1 (.seq (.plus isD) (.seq (lit '-') (.seq (.plus isD)
        (.seq (lit '-') (.plus isD))))))
      i (ys ++ (['-'] ++ (ms ++ (['-'] ++ ds)))) rest c
      (c.set 1 (ys ++ (['-'] ++ (ms ++ (['-'] ++ ds))))) := by
  apply commits_group
  refine commits_seq ys _ (commits_plus isD ys _ _ _ hys.1 hys.2 (head_false (by decide))) ?_
  refine commits_seq ['-'] _ (commits_lit '-' _ _ _) ?_
  refine commits_seq ms _ (commits_plus isD ms _ _ _ hms.1 hms.2 (head_false (by decide))) ?_
  refine commits_seq ['-'] _ (commits_lit '-' _ _ _) ?_
  exact commits_plus isD ds _ _ _ hds.1 hds.2 hrest

/-- The time group `(\d+:\d+(:\d+)?)?` on a time of day, with or without seconds. -/
theorem commits_sql_time (i : Nat) (c : Caps) (hs mins seconds rest : List Char)
    (hhs : hs ≠ [] ∧ ∀ x ∈ hs, isD x = true) (hmins : mins ≠ [] ∧ ∀ x ∈ mins, isD x = true)
    (hsec : seconds = [] ∨ ∃ secs, seconds = ':' :: secs ∧ secs ≠ [] ∧ ∀ x ∈ secs, isD x = true)
    (hrd : ∀ y t, rest = y :: t → isD y = false)
    (hrc : ∀ y t, rest = y :: t → (y == ':') = false) :
    Commits (.opt (.group 2 (.seq (.plus isD) (.seq (lit ':') (.seq (.plus isD)
        (.opt (.group 3 (.seq (lit ':') (.plus isD)))))))))
      i (hs ++ ([':'] ++ (mins ++ seconds))) rest c
      ((if seconds = [] then c else c.set 3 seconds).set 2 (hs ++ ([':'] ++ (mins ++ seconds)))) := by
  apply commits_opt_some
  apply commits_group
  refine commits_seq hs _ (commits_plus isD hs _ _ _ hhs.1 hhs.2 (head_false (by decide))) ?_
  refine commits_seq [':'] _ (commits_lit ':' _ _ _) ?_
  rcases hsec with rfl | ⟨secs, rfl, hne, hall⟩
  · rw [if_pos rfl]
    refine commits_seq mins [] (commits_plus isD mins _ _ _ hmins.1 hmins.2 ?_) ?_
    · simpa using hrd
    · exact commits_opt_none (fails_group 3 (fails_seq_left _ (fails_cls_head _ _ _ _ hrc)))
  · rw [if_neg (by simp)]
    refine commits_seq mins _ (commits_plus isD mins _ _ _ hmins.1 hmins.2
      (head_false (by decide))) ?_
    exact commits_opt_some (commits_group 3 (commits_seq [':'] secs (commits_lit ':' _ _ _)
      (commits_plus isD secs _ _ _ hne hall hrd)))

/-- The time group is skipped where no digit follows. -/
theorem commits_sql_no_time (i : Nat) (c : Caps) (rest : List Char)
    (hrd : ∀ y t, rest = y :: t → isD y = false) :
    Commits (.opt (.group 2 (.seq (.plus isD) (.seq (lit ':') (.seq (.plus isD)
        (.opt (.group 3 (.seq (lit ':') (.plus isD)))))))))
      i [] rest c c :=
  commits_opt_none (fails_group 2 (fails_seq_left _ (fails_plus_head _ _ _ _ hrd)))

/-- The zone group `(\w+|[+-]?\d+:?\d+)?` on a zone name at the end of the input. -/
theorem commits_sql_zone_name (i : Nat) (c : Caps) (name : List Char)
    (hne : name ≠ []) (hname : ∀ x ∈ name, isLetter x = true) :
    Commits (.opt (.group 4 (.alt (.plus isW)
        (.seq (.opt (.cls isSign)) (.seq (.plus isD) (.seq (.opt (lit ':')) (.plus isD)))))))
      i name [] c (c.set 4 name) :=
  commits_opt_some (commits_group 4 (commits_alt_left _
    (commits_plus isW name [] _ _ hne (fun x hx => isW_of_isLetter (hname x hx)) head_nil)))

/-- The zone group is skipped at the end of the input. -/
theorem commits_sql_no_zone (i : Nat) (c : Caps) :
    Commits (.opt (.group 4 (.alt (.plus isW)
        (.seq (.opt (.cls isSign)) (.seq (.plus isD) (.seq (.opt (lit ':')) (.plus isD)))))))
      i [] [] c c :=
  commits_opt_none (fails_group 4 (fails_alt (fails_plus_head _ _ _ _ head_nil)
    (fails_seq_opt (fails_cls_nil _ _ _) (fails_seq_left _ (fails_plus_head _ _ _ _ head_nil)))))

end chronus

namespace chronus

open gostd regexp

/-- The slots that `regExSQLDateTime` fills on a date, an optional time of day with
optional seconds, and an optional zone name, separated by single blanks. -/
theorem sql_submatch (ys ms ds timeStr seconds name tsep zsep : List Char)
    (hys : ys ≠ [] ∧ ∀ x ∈ ys, isD x = true) (hms : ms ≠ [] ∧ ∀ x ∈ ms, isD x = true)
    (hds : ds ≠ [] ∧ ∀ x ∈ ds, isD x = true)
    (hT : (timeStr = [] ∧ seconds = [] ∧ tsep = []) ∨
      (∃ hs mins, timeStr = hs ++ ([':'] ++ (mins ++ seconds)) ∧ tsep = ' ' :: timeStr ∧
        (hs ≠ [] ∧ ∀ x ∈ hs, isD x = true) ∧ (mins ≠ [] ∧ ∀ x ∈ mins, isD x = true) ∧
        (seconds = [] ∨ ∃ secs, seconds = ':' :: secs ∧ secs ≠ [] ∧ ∀ x ∈ secs, isD x = true)))
    (hZ : (name = [] ∧ zsep = []) ∨
      (zsep = ' ' :: name ∧ name ≠ [] ∧ ∀ x ∈ name, isLetter x = true)) :
    ∃ m, FindStringSubmatch regExSQLDateTime
        (ys ++ '-' :: (ms ++ '-' :: (ds ++ (tsep ++ zsep)))) = some m ∧
      m.getD 2 [] = timeStr ∧ m.getD 3 [] = seconds ∧ m.getD 4 [] = name := by
  have hng : regExSQLDateTime.numGroups + 1 = 5 := by decide
  rcases hT with ⟨rfl, rfl, rfl⟩ | ⟨hs, mins, hts, rfl, hhs, hmins, hsec⟩
  · rcases hZ with ⟨rfl, rfl⟩ | ⟨rfl, hne, hname⟩
    · -- a date alone
      have key : Commits regExSQLDateTime 0
          ((ys ++ (['-'] ++ (ms ++ (['-'] ++ ds)))) ++ ([] ++ ([] ++ ([] ++ [])))) []
          (List.replicate (regExSQLDateTime.numGroups + 1) [])
          ((List.replicate 5 ([] : List Char)).set 1 (ys ++ (['-'] ++ (ms ++ (['-'] ++ ds))))) := by
        rw [hng]
        simp only [regExSQLDateTime, Re.cat, sp]
        refine commits_seq _ _ (commits_sql_date _ _ ys ms ds _ hys hms hds head_nil) ?_
        refine commits_seq [] _ (commits_opt_none (fails_cls_nil _ _ _)) ?_
        refine commits_seq [] _ (commits_sql_no_time _ _ _ head_nil) ?_
        exact commits_seq [] [] (commits_opt_none (fails_cls_nil _ _ _))
          (commits_sql_no_zone _ _)
      have hfind := FindStringSubmatch_of_commits key
      have e : ys ++ '-' :: (ms ++ '-' :: (ds ++ (([] : List Char) ++ [])))
          = ((ys ++ (['-'] ++ (ms ++ (['-'] ++ ds)))) ++ ([] ++ ([] ++ ([] ++ [])))) ++ [] := by
        simp
      rw [e]
      exact ⟨_, hfind, by simp [List.getD], by simp [List.getD], by simp [List.getD]⟩
    · -- a date and a zone name
      obtain ⟨l1, l2, l3⟩ : (∀ y t, name = y :: t → isD y = false) ∧
          (∀ y t, name = y :: t → (y == ' ') = false) ∧ True := by
        refine ⟨?_, ?_, trivial⟩
        · intro y t h
          exact isD_false_of_isLetter (hname y (by rw [h]; exact List.mem_cons_self _ _))
        · intro y t h
          exact (ne_of_isLetter (hname y (by rw [h]; exact List.mem_cons_self _ _))).1
      have key : Commits regExSQLDateTime 0
          ((ys ++ (['-'] ++ (ms ++ (['-'] ++ ds)))) ++ ([' '] ++ ([] ++ ([] ++ name)))) []
          (List.replicate (regExSQLDateTime.numGroups + 1) [])
          (((List.replicate 5 ([] : List Char)).set 1
            (ys ++ (['-'] ++ (ms ++ (['-'] ++ ds))))).set 4 name) := by
        rw [hng]
        simp only [regExSQLDateTime, Re.cat, sp]
        refine commits_seq _ _ (commits_sql_date _ _ ys ms ds _ hys hms hds
          (head_false (by decide))) ?_
        refine commits_seq [' '] _ (commits_opt_some (commits_lit ' ' _ _ _)) ?_
        refine commits_seq [] _ (commits_sql_no_time _ _ _ (by simpa using l1)) ?_
        exact commits_seq [] name (commits_opt_none (fails_cls_head _ _ _ _ (by simpa using l2)))
          (commits_sql_zone_name _ _ name hne hname)
      have hfind := FindStringSubmatch_of_commits key
      have e : ys ++ '-' :: (ms ++ '-' :: (ds ++ (([] : List Char) ++ ' ' :: name)))
          = ((ys ++ (['-'] ++ (ms ++ (['-'] ++ ds)))) ++ ([' '] ++ ([] ++ ([] ++ name)))) ++ [] := by
        simp
      rw [e]
      exact ⟨_, hfind, by simp [List.getD], by simp [List.getD], by simp [List.getD]⟩
  · subst hts
    rcases hZ with ⟨rfl, rfl⟩ | ⟨rfl, hne, hname⟩
    · -- a date and a time of day
      have key : Commits regExSQLDateTime 0
          ((ys ++ (['-'] ++ (ms ++ (['-'] ++ ds)))) ++ ([' '] ++
            ((hs ++ ([':'] ++ (mins ++ seconds))) ++ ([] ++ [])))) []
          (List.replicate (regExSQLDateTime.numGroups + 1) [])
          ((if seconds = [] then
              (List.replicate 5 ([] : List Char)).set 1 (ys ++ (['-'] ++ (ms ++ (['-'] ++ ds))))
            else
              ((List.replicate 5 ([] : List Char)).set 1
                (ys ++ (['-'] ++ (ms ++ (['-'] ++ ds))))).set 3 seconds).set 2
            (hs ++ ([':'] ++ (mins ++ seconds)))) := by
        rw [hng]
        simp only [regExSQLDateTime, Re.cat, sp]
        refine commits_seq _ _ (commits_sql_date _ _ ys ms ds _ hys hms hds
          (head_false (by decide))) ?_
        refine commits_seq [' '] _ (commits_opt_some (commits_lit ' ' _ _ _)) ?_
        refine commits_seq _ _ (commits_sql_time _ _ hs mins seconds _ hhs hmins hsec
          head_nil head_nil) ?_
        exact commits_seq [] [] (commits_opt_none (fails_cls_nil _ _ _))
          (commits_sql_no_zone _ _)
      have hfind := FindStringSubmatch_of_commits key
      have e : ys ++ '-' :: (ms ++ '-' :: (ds ++ (' ' :: (hs ++ ([':'] ++ (mins ++ seconds)))
            ++ ([] : List Char))))
          = ((ys ++ (['-'] ++ (ms ++ (['-'] ++ ds)))) ++ ([' '] ++
            ((hs ++ ([':'] ++ (mins ++ seconds))) ++ ([] ++ [])))) ++ [] := by
        simp
      rw [e]
      refine ⟨_, hfind, ?_, ?_, ?_⟩
      · split_ifs <;> simp [List.getD]
      · split_ifs with h
        · simp [List.getD, h]
        · simp [List.getD]
      · split_ifs <;> simp [List.getD]
    · -- a date, a time of day and a zone name
      have l2 : ∀ y t, name = y :: t → (y == ' ') = false := by
        intro y t h
        exact (ne_of_isLetter (hname y (by rw [h]; exact List.mem_cons_self _ _))).1
      have key : Commits regExSQLDateTime 0
          ((ys ++ (['-'] ++ (ms ++ (['-'] ++ ds)))) ++ ([' '] ++
            ((hs ++ ([':'] ++ (mins ++ seconds))) ++ ([' '] ++ name)))) []
          (List.replicate (regExSQLDateTime.numGroups + 1) [])
          (((if seconds = [] then
              (List.replicate 5 ([] : List Char)).set 1 (ys ++ (['-'] ++ (ms ++ (['-'] ++ ds))))
            else
              ((List.replicate 5 ([] : List Char)).set 1
                (ys ++ (['-'] ++ (ms ++ (['-'] ++ ds))))).set 3 seconds).set 2
            (hs ++ ([':'] ++ (mins ++ seconds)))).set 4 name) := by
        rw [hng]
        simp only [regExSQLDateTime, Re.cat, sp]
        refine commits_seq _ _ (commits_sql_date _ _ ys ms ds _ hys hms hds
          (head_false (by decide))) ?_
        refine commits_seq [' '] _ (commits_opt_some (commits_lit ' ' _ _ _)) ?_
        refine commits_seq _ _ (commits_sql_time _ _ hs mins seconds _ hhs hmins hsec
          (head_false (by decide)) (head_false (by decide))) ?_
        exact commits_seq [' '] name (commits_opt_some (commits_lit ' ' _ _ _))
          (commits_sql_zone_name _ _ name hne hname)
      have hfind := FindStringSubmatch_of_commits key
      have e : ys ++ '-' :: (ms ++ '-' :: (ds ++ (' ' :: (hs ++ ([':'] ++ (mins ++ seconds)))
            ++ ' ' :: name)))
          = ((ys ++ (['-'] ++ (ms ++ (['-'] ++ ds)))) ++ ([' '] ++
            ((hs ++ ([':'] ++ (mins ++ seconds))) ++ ([' '] ++ name)))) ++ [] := by
        simp
      rw [e]
      refine ⟨_, hfind, ?_, ?_, ?_⟩
      · split_ifs <;> simp [List.getD]
      · split_ifs with h
        · simp [List.getD, h]
        · simp [List.getD]
      · split_ifs <;> simp [List.getD]

end chronus

namespace chronus

open gostd regexp

theorem MatchString_eq_false {r : Re} {s : List Char}
    (h : ¬ ∃ pre u v, s = pre ++ (u ++ v) ∧ r.Matches pre.length u v) :
    MatchString r s = false := by
  cases hh : MatchString r s
  · rfl
  · exact absurd ((MatchString_iff r s).mp hh) h

theorem TimezoneIsOffset_letters (name : List Char) (hname : ∀ x ∈ name, isLetter x = true) :
    TimezoneIsOffset name = 0 := by
  have key : ∀ x, x ∈ name → isD x = true → False := by
    intro x hx hd
    rw [isD_false_of_isLetter (hname x hx)] at hd
    exact Bool.noConfusion hd
  have h1 : MatchString reIsOffset name = false := by
    apply MatchString_eq_false
    simp only [reIsOffset, Re.cat, Re.Matches, d]
    rintro ⟨pre, u, v, rfl, u1, u2, rfl, _, u3, u4, rfl, ⟨x, rfl, hx⟩, _⟩
    exact key x (by simp) hx
  have h2 : MatchString reIsOffsetWithColon name = false := by
    apply MatchString_eq_false
    simp only [reIsOffsetWithColon, Re.cat, Re.Matches, d]
    rintro ⟨pre, u, v, rfl, u1, u2, rfl, _, u3, u4, rfl, ⟨x, rfl, hx⟩, _⟩
    exact key x (by simp) hx
  simp [TimezoneIsOffset, h1, h2]

theorem GetRFC3339Format_eq_nil (dtz : List Char) (h : MatchString regExRFC3339 dtz = false) :
    GetRFC3339Format dtz = [] := by
  simp [GetRFC3339Format, h]

theorem GetUnixTimeStampFormat_eq_nil (dtz : List Char)
    (h : MatchString regExUnixTimeStamp dtz = false) :
    GetUnixTimeStampFormat dtz = [] := by
  simp [GetUnixTimeStampFormat_eq, h]

/-- A match of `regExRFC3339` holds the letter `T`. -/
theorem rfc3339_match_T (dtz : List Char) (h : MatchString regExRFC3339 dtz = true) :
    'T' ∈ dtz := by
  rw [MatchString_iff] at h
  simp only [regExRFC3339, Re.cat, Re.Matches, lit] at h
  obtain ⟨pre, u, v, rfl, u1, u2, rfl, _, u3, u4, rfl, _, u5, u6, rfl, _, u7, u8, rfl, _,
    u9, u10, rfl, _, u11, u12, rfl, ⟨x, rfl, hx⟩, _⟩ := h
  have : x = 'T' := by simpa using hx
  subst this
  simp

/-- The result of `GetSQLFormat` on an input without a zone, from the slots. -/
theorem GetSQLFormat_no_zone (P : tzinfo.Platform) (reg : tzinfo.Registry) (cc dtz : List Char)
    (m : Caps) (hm : FindStringSubmatch regExSQLDateTime dtz = some m)
    (h4 : m.getD 4 [] = []) :
    GetSQLFormat P reg cc dtz =
      ⟨if (m.getD 2 []).length > 0 then
          (if (m.getD 3 []).length > 0 then SQLDateTimeYearToSecond else SQLDateTimeYearToMinute)
        else SQLDateTime, none, cc⟩ := by
  simp only [GetSQLFormat, MatchString, hm, Option.isSome_some, Option.getD_some, if_true, h4]
  simp

/-- The result of `GetSQLFormat` on an input with a zone name, from the slots. -/
theorem GetSQLFormat_zone_name (P : tzinfo.Platform) (reg : tzinfo.Registry)
    (cc dtz name : List Char) (m : Caps)
    (hm : FindStringSubmatch regExSQLDateTime dtz = some m)
    (h4 : m.getD 4 [] = name) (hne : name ≠ []) (hname : ∀ x ∈ name, isLetter x = true) :
    GetSQLFormat P reg cc dtz =
      ⟨if (m.getD 2 []).length > 0 then
          (if (m.getD 3 []).length > 0 then SQLDateTimeYearToSecondWithTZ
            else SQLDateTimeYearToMinuteWithTZ)
        else SQLDateTime,
       if cc.length > 0 then
          (if P.ToUpper cc = "US".toList ∨ P.ToUpper cc = "USA".toList
            then tzinfo.GetUSTimeZoneLocationByTZAbbreviation reg name
            else some (tzinfo.GetCurrentTimeZoneLocation P))
        else some (tzinfo.GetCurrentTimeZoneLocation P),
       if cc.length > 0 then P.ToUpper cc else cc⟩ := by
  have hlen : name.length > 0 := List.length_pos.mpr hne
  have ht := TimezoneIsOffset_letters name hname
  simp only [GetSQLFormat, MatchString, hm, Option.isSome_some, Option.getD_some, if_true, h4,
    ht, hlen, and_self]
  split_ifs <;> first | rfl | simp_all

end chronus

namespace chronus

open gostd regexp

theorem digits_not_T {l : List Char} (h : ∀ x ∈ l, isD x = true) : 'T' ∉ l := by
  intro hT
  exact absurd (h 'T' hT) (by decide)

theorem GetFormat_sql_stage (P : tzinfo.Platform) (reg : tzinfo.Registry) (cc dtz : List Char)
    (hU : GetUnixTimeStampFormat dtz = []) (hR : GetRFC3339Format dtz = [])
    (hS : (GetSQLFormat P reg cc dtz).format.length > 0) :
    GetFormat P reg cc dtz = GetSQLFormat P reg cc dtz := by
  simp only [GetFormat, hU, hR, hS, List.length_nil, gt_iff_lt, lt_self_iff_false, if_false,
    if_true]

theorem sql_second_rfc3339_nil (ys ms ds hs mins secs : List Char)
    (hys : ∀ x ∈ ys, isD x = true) (hms : ∀ x ∈ ms, isD x = true)
    (hds : ∀ x ∈ ds, isD x = true) (hhs : ∀ x ∈ hs, isD x = true)
    (hmins : ∀ x ∈ mins, isD x = true) (hsecs : ∀ x ∈ secs, isD x = true) :
    GetRFC3339Format
      (ys ++ '-' :: (ms ++ '-' :: (ds ++ ' ' :: (hs ++ ':' :: (mins ++ ':' :: secs))))) = [] := by
  apply GetRFC3339Format_eq_nil
  cases hh : MatchString regExRFC3339
    (ys ++ '-' :: (ms ++ '-' :: (ds ++ ' ' :: (hs ++ ':' :: (mins ++ ':' :: secs)))))
  · rfl
  · exfalso
    have hT := rfc3339_match_T _ hh
    simp only [List.mem_append, List.mem_cons] at hT
    rcases hT with h | h | h | h | h | h | h | h | h | h | h
    · exact digits_not_T hys h
    · exact absurd h (by decide)
    · exact digits_not_T hms h
    · exact absurd h (by decide)
    · exact digits_not_T hds h
    · exact absurd h (by decide)
    · exact digits_not_T hhs h
    · exact absurd h (by decide)
    · exact digits_not_T hmins h
    · exact absurd h (by decide)
    · exact digits_not_T hsecs h

theorem sql_second_unix_nil (ys ms ds hs mins secs : List Char) :
    GetUnixTimeStampFormat
      (ys ++ '-' :: (ms ++ '-' :: (ds ++ ' ' :: (hs ++ ':' :: (mins ++ ':' :: secs))))) = [] :=
  GetUnixTimeStampFormat_of_mem _ ' ' (by simp) (by decide) (by decide) (by decide)

/-- The classification of a date and a time of day with seconds, without a zone. -/
theorem GetFormat_sql_second_zoneless (P : tzinfo.Platform) (reg : tzinfo.Registry)
    (cc ys ms ds hs mins secs : List Char)
    (hys : ys ≠ [] ∧ ∀ x ∈ ys, isD x = true) (hms : ms ≠ [] ∧ ∀ x ∈ ms, isD x = true)
    (hds : ds ≠ [] ∧ ∀ x ∈ ds, isD x = true) (hhs : hs ≠ [] ∧ ∀ x ∈ hs, isD x = true)
    (hmins : mins ≠ [] ∧ ∀ x ∈ mins, isD x = true)
    (hsecs : secs ≠ [] ∧ ∀ x ∈ secs, isD x = true) :
    GetFormat P reg cc
        (ys ++ '-' :: (ms ++ '-' :: (ds ++ ' ' :: (hs ++ ':' :: (mins ++ ':' :: secs)))))
      = ⟨SQLDateTimeYearToSecond, none, cc⟩ := by
  have e : ys ++ '-' :: (ms ++ '-' :: (ds ++ ' ' :: (hs ++ ':' :: (mins ++ ':' :: secs))))
      = ys ++ '-' :: (ms ++ '-' :: (ds ++ ((' ' :: (hs ++ ([':'] ++ (mins ++ ':' :: secs))))
          ++ []))) := by simp
  obtain ⟨m, hm, h2, h3, h4⟩ := sql_submatch ys ms ds (hs ++ ([':'] ++ (mins ++ ':' :: secs)))
    (':' :: secs) [] (' ' :: (hs ++ ([':'] ++ (mins ++ ':' :: secs)))) [] hys hms hds
    (Or.inr ⟨hs, mins, rfl, rfl, hhs, hmins, Or.inr ⟨secs, rfl, hsecs.1, hsecs.2⟩⟩)
    (Or.inl ⟨rfl, rfl⟩)
  rw [← e] at hm
  have hS := GetSQLFormat_no_zone P reg cc _ m hm h4
  rw [h2, h3] at hS
  have hS2 : GetSQLFormat P reg cc
      (ys ++ '-' :: (ms ++ '-' :: (ds ++ ' ' :: (hs ++ ':' :: (mins ++ ':' :: secs)))))
      = ⟨SQLDateTimeYearToSecond, none, cc⟩ := by
    rw [hS]
    simp
  have hl : SQLDateTimeYearToSecond.length > 0 := by decide
  rw [GetFormat_sql_stage P reg cc _ (sql_second_unix_nil ys ms ds hs mins secs)
    (sql_second_rfc3339_nil ys ms ds hs mins secs hys.2 hms.2 hds.2 hhs.2 hmins.2 hsecs.2)
    (by rw [hS2]; exact hl), hS2]

/-- C12: a date and a time of day with seconds, without a zone, is passed over by the
Unix and RFC 3339 stages and classified at the SQL stage with the bare year-to-second
layout. -/
theorem classify_sql_year_to_second (P : tzinfo.Platform) (reg : tzinfo.Registry)
    (cc ys ms ds hs mins secs : List Char)
    (hys : ys ≠ [] ∧ ∀ x ∈ ys, isDigit x = true) (hms : ms ≠ [] ∧ ∀ x ∈ ms, isDigit x = true)
    (hds : ds ≠ [] ∧ ∀ x ∈ ds, isDigit x = true) (hhs : hs ≠ [] ∧ ∀ x ∈ hs, isDigit x = true)
    (hmins : mins ≠ [] ∧ ∀ x ∈ mins, isDigit x = true)
    (hsecs : secs ≠ [] ∧ ∀ x ∈ secs, isDigit x = true) :
    GetUnixTimeStampFormat
        (ys ++ '-' :: (ms ++ '-' :: (ds ++ ' ' :: (hs ++ ':' :: (mins ++ ':' :: secs))))) = [] ∧
    GetRFC3339Format
        (ys ++ '-' :: (ms ++ '-' :: (ds ++ ' ' :: (hs ++ ':' :: (mins ++ ':' :: secs))))) = [] ∧
    (GetFormat P reg cc
        (ys ++ '-' :: (ms ++ '-' :: (ds ++ ' ' :: (hs ++ ':' :: (mins ++ ':' :: secs)))))).format
      = "2006-01-02 15:04:05".toList :=
  ⟨sql_second_unix_nil ys ms ds hs mins secs,
   sql_second_rfc3339_nil ys ms ds hs mins secs hys.2 hms.2 hds.2 hhs.2 hmins.2 hsecs.2,
   by rw [GetFormat_sql_second_zoneless P reg cc ys ms ds hs mins secs hys hms hds hhs hmins hsecs]
      rfl⟩

/-- Witness of C12 at "2021-04-13 17:58:42". -/
theorem classify_sql_year_to_second_witness :
    GetUnixTimeStampFormat "2021-04-13 17:58:42".toList = [] ∧
    GetRFC3339Format "2021-04-13 17:58:42".toList = [] ∧
    (GetFormat ⟨([], 0), fun _ => none, id⟩ ⟨[], [], []⟩ [] "2021-04-13 17:58:42".toList).format
      = "2006-01-02 15:04:05".toList :=
  classify_sql_year_to_second ⟨([], 0), fun _ => none, id⟩ ⟨[], [], []⟩ [] "2021".toList
    "04".toList "13".toList "17".toList "58".toList "42".toList (by decide) (by decide)
    (by decide) (by decide) (by decide) (by decide)

/-- C13, as stated, fails: for "2021-04-13 17:58:42" the zone that `GetFormat` returns is
nil, not the current local Zone Location. -/
theorem zoneless_sql_gets_no_zone :
    (GetFormat ⟨("PDT".toList, -25200), fun _ => none, id⟩ ⟨[], [], []⟩ []
        "2021-04-13 17:58:42".toList).tzloc = none ∧
    (GetFormat ⟨("PDT".toList, -25200), fun _ => none, id⟩ ⟨[], [], []⟩ []
        "2021-04-13 17:58:42".toList).tzloc
      ≠ some (tzinfo.GetCurrentTimeZoneLocation ⟨("PDT".toList, -25200), fun _ => none, id⟩) := by
  have h := GetFormat_sql_second_zoneless ⟨("PDT".toList, -25200), fun _ => none, id⟩
    ⟨[], [], []⟩ [] "2021".toList "04".toList "13".toList "17".toList "58".toList "42".toList
    (by decide) (by decide) (by decide) (by decide) (by decide) (by decide)
  have e : "2021".toList ++ '-' :: ("04".toList ++ '-' :: ("13".toList ++ ' ' ::
      ("17".toList ++ ':' :: ("58".toList ++ ':' :: "42".toList))))
      = "2021-04-13 17:58:42".toList := by decide
  rw [e] at h
  rw [h]
  exact ⟨rfl, by simp⟩

/-- C13, amended: for a date and a time of day with seconds, without a zone, `GetFormat`
returns no Zone Location; the current local one is not produced. -/
theorem zoneless_sql_zone_is_nil (P : tzinfo.Platform) (reg : tzinfo.Registry)
    (cc ys ms ds hs mins secs : List Char)
    (hys : ys ≠ [] ∧ ∀ x ∈ ys, isDigit x = true) (hms : ms ≠ [] ∧ ∀ x ∈ ms, isDigit x = true)
    (hds : ds ≠ [] ∧ ∀ x ∈ ds, isDigit x = true) (hhs : hs ≠ [] ∧ ∀ x ∈ hs, isDigit x = true)
    (hmins : mins ≠ [] ∧ ∀ x ∈ mins, isDigit x = true)
    (hsecs : secs ≠ [] ∧ ∀ x ∈ secs, isDigit x = true) :
    (GetFormat P reg cc
        (ys ++ '-' :: (ms ++ '-' :: (ds ++ ' ' :: (hs ++ ':' :: (mins ++ ':' :: secs)))))).tzloc
      = none ∧
    (GetFormat P reg cc
        (ys ++ '-' :: (ms ++ '-' :: (ds ++ ' ' :: (hs ++ ':' :: (mins ++ ':' :: secs)))))).tzloc
      ≠ some (tzinfo.GetCurrentTimeZoneLocation P) := by
  rw [GetFormat_sql_second_zoneless P reg cc ys ms ds hs mins secs hys hms hds hhs hmins hsecs]
  exact ⟨rfl, by simp⟩

/-- Witness of the amended C13 at "2021-04-13 17:58:42". -/
theorem zoneless_sql_zone_is_nil_witness :
    (GetFormat ⟨("PDT".toList, -25200), fun _ => none, id⟩ ⟨[], [], []⟩ "US".toList
        "2021-04-13 17:58:42".toList).tzloc = none ∧
    (GetFormat ⟨("PDT".toList, -25200), fun _ => none, id⟩ ⟨[], [], []⟩ "US".toList
        "2021-04-13 17:58:42".toList).tzloc
      ≠ some (tzinfo.GetCurrentTimeZoneLocation ⟨("PDT".toList, -25200), fun _ => none, id⟩) :=
  zoneless_sql_zone_is_nil ⟨("PDT".toList, -25200), fun _ => none, id⟩ ⟨[], [], []⟩ "US".toList
    "2021".toList "04".toList "13".toList "17".toList "58".toList "42".toList (by decide)
    (by decide) (by decide) (by decide) (by decide) (by decide)

end chronus

namespace chronus

open gostd regexp

/-- The result of `GetSQLFormat` on a date, an optional time of day and a zone name. -/
theorem GetSQLFormat_named_zone (P : tzinfo.Platform) (reg : tzinfo.Registry)
    (cc ys ms ds timeStr seconds name tsep : List Char)
    (hys : ys ≠ [] ∧ ∀ x ∈ ys, isD x = true) (hms : ms ≠ [] ∧ ∀ x ∈ ms, isD x = true)
    (hds : ds ≠ [] ∧ ∀ x ∈ ds, isD x = true)
    (hT : (timeStr = [] ∧ seconds = [] ∧ tsep = []) ∨
      (∃ hs mins, timeStr = hs ++ ([':'] ++ (mins ++ seconds)) ∧ tsep = ' ' :: timeStr ∧
        (hs ≠ [] ∧ ∀ x ∈ hs, isD x = true) ∧ (mins ≠ [] ∧ ∀ x ∈ mins, isD x = true) ∧
        (seconds = [] ∨ ∃ secs, seconds = ':' :: secs ∧ secs ≠ [] ∧ ∀ x ∈ secs, isD x = true)))
    (hne : name ≠ []) (hname : ∀ x ∈ name, isLetter x = true) :
    GetSQLFormat P reg cc (ys ++ '-' :: (ms ++ '-' :: (ds ++ (tsep ++ ' ' :: name)))) =
      ⟨if timeStr.length > 0 then
          (if seconds.length > 0 then SQLDateTimeYearToSecondWithTZ
            else SQLDateTimeYearToMinuteWithTZ)
        else SQLDateTime,
       if cc.length > 0 then
          (if P.ToUpper cc = "US".toList ∨ P.ToUpper cc = "USA".toList
            then tzinfo.GetUSTimeZoneLocationByTZAbbreviation reg name
            else some (tzinfo.GetCurrentTimeZoneLocation P))
        else some (tzinfo.GetCurrentTimeZoneLocation P),
       if cc.length > 0 then P.ToUpper cc else cc⟩ := by
  obtain ⟨m, hm, h2, h3, h4⟩ := sql_submatch ys ms ds timeStr seconds name tsep (' ' :: name)
    hys hms hds hT (Or.inr ⟨rfl, hne, hname⟩)
  have h := GetSQLFormat_zone_name P reg cc _ name m hm h4 hne hname
  rw [h2, h3] at h
  exact h

/-- C14: with no country preference, a date and a time of day with seconds followed by
an alphabetic zone name gets the layout "2006-01-02 15:04:05 MST" and the synthesized
current-local Zone Location (zone and offset of the local time, empty geographic
reference and nation), whatever the name and the registry are. -/
theorem sql_zone_name_gets_local_zone (P : tzinfo.Platform) (reg : tzinfo.Registry)
    (ys ms ds hs mins secs name : List Char)
    (hys : ys ≠ [] ∧ ∀ x ∈ ys, isDigit x = true) (hms : ms ≠ [] ∧ ∀ x ∈ ms, isDigit x = true)
    (hds : ds ≠ [] ∧ ∀ x ∈ ds, isDigit x = true) (hhs : hs ≠ [] ∧ ∀ x ∈ hs, isDigit x = true)
    (hmins : mins ≠ [] ∧ ∀ x ∈ mins, isDigit x = true)
    (hsecs : secs ≠ [] ∧ ∀ x ∈ secs, isDigit x = true)
    (hne : name ≠ []) (hname : ∀ x ∈ name, isLetter x = true) :
    GetSQLFormat P reg []
        (ys ++ '-' :: (ms ++ '-' :: (ds ++ ' ' :: (hs ++ ':' :: (mins ++ ':' :: (secs ++ ' ' :: name))))))
      = ⟨"2006-01-02 15:04:05 MST".toList, some (tzinfo.GetCurrentTimeZoneLocation P), []⟩ ∧
    tzinfo.GetCurrentTimeZoneLocation P
      = ⟨[], [], [], some ⟨P.nowZone.1, some P.nowZone.2⟩, [], P.nowZone.2, [], P.nowZone.1⟩ := by
  have h := GetSQLFormat_named_zone P reg [] ys ms ds (hs ++ ([':'] ++ (mins ++ ':' :: secs)))
    (':' :: secs) name (' ' :: (hs ++ ([':'] ++ (mins ++ ':' :: secs)))) hys hms hds
    (Or.inr ⟨hs, mins, rfl, rfl, hhs, hmins, Or.inr ⟨secs, rfl, hsecs.1, hsecs.2⟩⟩) hne hname
  have e : ys ++ '-' :: (ms ++ '-' :: (ds ++ ' ' :: (hs ++ ':' :: (mins ++ ':' :: (secs ++ ' ' :: name)))))
      = ys ++ '-' :: (ms ++ '-' :: (ds ++ ((' ' :: (hs ++ ([':'] ++ (mins ++ ':' :: secs))))
          ++ ' ' :: name))) := by simp
  refine ⟨?_, rfl⟩
  rw [e, h]
  simp [SQLDateTimeYearToSecondWithTZ]

/-- Witness of C14 at "2021-04-13 17:58:42 PST" with the local zone PDT. -/
theorem sql_zone_name_gets_local_zone_witness :
    GetSQLFormat ⟨("PDT".toList, -25200), fun _ => none, id⟩ ⟨[], [], []⟩ []
        "2021-04-13 17:58:42 PST".toList
      = ⟨"2006-01-02 15:04:05 MST".toList,
          some (tzinfo.GetCurrentTimeZoneLocation ⟨("PDT".toList, -25200), fun _ => none, id⟩), []⟩ ∧
    tzinfo.GetCurrentTimeZoneLocation ⟨("PDT".toList, -25200), fun _ => none, id⟩
      = ⟨[], [], [], some ⟨"PDT".toList, some (-25200)⟩, [], -25200, [], "PDT".toList⟩ :=
  sql_zone_name_gets_local_zone ⟨("PDT".toList, -25200), fun _ => none, id⟩ ⟨[], [], []⟩
    "2021".toList "04".toList "13".toList "17".toList "58".toList "42".toList "PST".toList
    (by decide) (by decide) (by decide) (by decide) (by decide) (by decide) (by decide)
    (by decide)

end chronus

namespace chronus

open gostd regexp

theorem upperASCII_ascii (c : Char) (h : (upperASCII c).toNat < 128) : c.toNat < 128 := by
  unfold upperASCII at h
  split_ifs at h with hc
  · omega
  · exact h

theorem ToUpper_of_map (P : tzinfo.Platform) (hP : P.UpperOnASCII) (cc target : List Char)
    (hcc : cc.map upperASCII = target) (ht : ∀ c ∈ target, c.toNat < 128) :
    P.ToUpper cc = target := by
  rw [hP cc, hcc]
  intro c hc
  apply upperASCII_ascii
  apply ht
  rw [← hcc]
  exact List.mem_map_of_mem _ hc

/-- The zone that `GetSQLFormat` returns for a zone name under the country preference
US or USA: the result of the United States lookup. -/
theorem GetSQLFormat_us_zone (P : tzinfo.Platform) (reg : tzinfo.Registry)
    (hP : P.UpperOnASCII) (cc ys ms ds tpart name : List Char)
    (hcc : cc.map upperASCII = "US".toList ∨ cc.map upperASCII = "USA".toList)
    (hys : ys ≠ [] ∧ ∀ x ∈ ys, isD x = true) (hms : ms ≠ [] ∧ ∀ x ∈ ms, isD x = true)
    (hds : ds ≠ [] ∧ ∀ x ∈ ds, isD x = true)
    (htime : tpart = [] ∨
      (∃ hs mins, tpart = ' ' :: (hs ++ ':' :: mins) ∧
        (hs ≠ [] ∧ ∀ x ∈ hs, isD x = true) ∧ (mins ≠ [] ∧ ∀ x ∈ mins, isD x = true)) ∨
      (∃ hs mins secs, tpart = ' ' :: (hs ++ ':' :: (mins ++ ':' :: secs)) ∧
        (hs ≠ [] ∧ ∀ x ∈ hs, isD x = true) ∧ (mins ≠ [] ∧ ∀ x ∈ mins, isD x = true) ∧
        (secs ≠ [] ∧ ∀ x ∈ secs, isD x = true)))
    (hne : name ≠ []) (hname : ∀ x ∈ name, isLetter x = true) :
    (GetSQLFormat P reg cc (ys ++ '-' :: (ms ++ '-' :: (ds ++ (tpart ++ ' ' :: name))))).tzloc
      = tzinfo.GetUSTimeZoneLocationByTZAbbreviation reg name := by
  have hup : P.ToUpper cc = "US".toList ∨ P.ToUpper cc = "USA".toList := by
    rcases hcc with h | h
    · exact Or.inl (ToUpper_of_map P hP cc _ h (by decide))
    · exact Or.inr (ToUpper_of_map P hP cc _ h (by decide))
  have hlen : cc.length > 0 := by
    rcases hcc with h | h <;>
    · have := congrArg List.length h
      simp only [List.length_map] at this
      rw [this]
      decide
  rcases htime with rfl | ⟨hs, mins, rfl, hhs, hmins⟩ | ⟨hs, mins, secs, rfl, hhs, hmins, hsecs⟩
  · rw [GetSQLFormat_named_zone P reg cc ys ms ds [] [] name [] hys hms hds
      (Or.inl ⟨rfl, rfl, rfl⟩) hne hname]
    simp only [hlen, hup, if_true]
  · have e : ys ++ '-' :: (ms ++ '-' :: (ds ++ (' ' :: (hs ++ ':' :: mins) ++ ' ' :: name)))
        = ys ++ '-' :: (ms ++ '-' :: (ds ++ ((' ' :: (hs ++ ([':'] ++ (mins ++ []))))
            ++ ' ' :: name))) := by simp
    rw [e, GetSQLFormat_named_zone P reg cc ys ms ds (hs ++ ([':'] ++ (mins ++ []))) [] name
      (' ' :: (hs ++ ([':'] ++ (mins ++ [])))) hys hms hds
      (Or.inr ⟨hs, mins, rfl, rfl, hhs, hmins, Or.inl rfl⟩) hne hname]
    simp only [hlen, hup, if_true]
  · have e : ys ++ '-' :: (ms ++ '-' :: (ds ++ (' ' :: (hs ++ ':' :: (mins ++ ':' :: secs))
          ++ ' ' :: name)))
        = ys ++ '-' :: (ms ++ '-' :: (ds ++ ((' ' :: (hs ++ ([':'] ++ (mins ++ ':' :: secs))))
            ++ ' ' :: name))) := by simp
    rw [e, GetSQLFormat_named_zone P reg cc ys ms ds (hs ++ ([':'] ++ (mins ++ ':' :: secs)))
      (':' :: secs) name (' ' :: (hs ++ ([':'] ++ (mins ++ ':' :: secs)))) hys hms hds
      (Or.inr ⟨hs, mins, rfl, rfl, hhs, hmins, Or.inr ⟨secs, rfl, hsecs.1, hsecs.2⟩⟩) hne hname]
    simp only [hlen, hup, if_true]

/-- C15: with the country preference US or USA in any letter case, a date, an optional
time of day and a zone name that the United States registry holds gets the first entry
of the registry for that name as its zone. -/
theorem sql_zone_name_us_registry (P : tzinfo.Platform) (reg : tzinfo.Registry)
    (hP : P.UpperOnASCII) (cc ys ms ds tpart name : List Char)
    (hcc : cc.map upperASCII = "US".toList ∨ cc.map upperASCII = "USA".toList)
    (hys : ys ≠ [] ∧ ∀ x ∈ ys, isDigit x = true) (hms : ms ≠ [] ∧ ∀ x ∈ ms, isDigit x = true)
    (hds : ds ≠ [] ∧ ∀ x ∈ ds, isDigit x = true)
    (htime : tpart = [] ∨
      (∃ hs mins, tpart = ' ' :: (hs ++ ':' :: mins) ∧
        (hs ≠ [] ∧ ∀ x ∈ hs, isDigit x = true) ∧ (mins ≠ [] ∧ ∀ x ∈ mins, isDigit x = true)) ∨
      (∃ hs mins secs, tpart = ' ' :: (hs ++ ':' :: (mins ++ ':' :: secs)) ∧
        (hs ≠ [] ∧ ∀ x ∈ hs, isDigit x = true) ∧ (mins ≠ [] ∧ ∀ x ∈ mins, isDigit x = true) ∧
        (secs ≠ [] ∧ ∀ x ∈ secs, isDigit x = true)))
    (hne : name ≠ []) (hname : ∀ x ∈ name, isLetter x = true)
    (e : tzinfo.TimeZoneLocation) (rest : List tzinfo.TimeZoneLocation)
    (hreg : reg.unitedStatesAbbreviationMap.lookup name = some (e :: rest)) :
    (GetSQLFormat P reg cc (ys ++ '-' :: (ms ++ '-' :: (ds ++ (tpart ++ ' ' :: name))))).tzloc
      = some e := by
  rw [GetSQLFormat_us_zone P reg hP cc ys ms ds tpart name hcc hys hms hds htime hne hname]
  simp [tzinfo.GetUSTimeZoneLocationByTZAbbreviation, hreg]

/-- Witness of C15: with the preference "us" and the seeded registry, the input
"2021-04-13 17:58:42 PST" gets the registered entry for PST, country code US and offset
-28800, and not the local zone. -/
theorem sql_zone_name_us_registry_witness :
    (GetSQLFormat ⟨("CEST".toList, 7200), fun n => some ⟨n, none⟩, fun s => s.map upperASCII⟩
        ((tzinfo.init
          ⟨("CEST".toList, 7200), fun n => some ⟨n, none⟩, fun s => s.map upperASCII⟩).getD
            ⟨[], [], []⟩)
        "us".toList "2021-04-13 17:58:42 PST".toList).tzloc
      = some ⟨"US".toList, "USA".toList, "US/Pacific".toList,
          some ⟨"US/Pacific".toList, none⟩, "America".toList, -28800, "deprecated".toList,
          "PST".toList⟩ :=
  sql_zone_name_us_registry
    ⟨("CEST".toList, 7200), fun n => some ⟨n, none⟩, fun s => s.map upperASCII⟩
    ((tzinfo.init
      ⟨("CEST".toList, 7200), fun n => some ⟨n, none⟩, fun s => s.map upperASCII⟩).getD
        ⟨[], [], []⟩)
    (fun _ _ => rfl) "us".toList "2021".toList "04".toList "13".toList " 17:58:42".toList
    "PST".toList (Or.inl (by decide)) (by decide) (by decide) (by decide)
    (Or.inr (Or.inr ⟨"17".toList, "58".toList, "42".toList, by decide, by decide, by decide,
      by decide⟩))
    (by decide) (by decide) _ [] (by decide)

/-- C16: with the country preference "US" and the seeded registry, the zone name GMT,
which the United States registry does not hold, leaves the input
"2021-04-13 17:58:42 GMT" without a zone: the current local Zone Location is not kept. -/
theorem unregistered_zone_name_loses_fallback :
    tzinfo.GetUSTimeZoneLocationByTZAbbreviation
        ((tzinfo.init
          ⟨("CEST".toList, 7200), fun n => some ⟨n, none⟩, fun s => s.map upperASCII⟩).getD
            ⟨[], [], []⟩) "GMT".toList = none ∧
    (GetSQLFormat ⟨("CEST".toList, 7200), fun n => some ⟨n, none⟩, fun s => s.map upperASCII⟩
        ((tzinfo.init
          ⟨("CEST".toList, 7200), fun n => some ⟨n, none⟩, fun s => s.map upperASCII⟩).getD
            ⟨[], [], []⟩)
        "US".toList "2021-04-13 17:58:42 GMT".toList).tzloc = none ∧
    (GetSQLFormat ⟨("CEST".toList, 7200), fun n => some ⟨n, none⟩, fun s => s.map upperASCII⟩
        ((tzinfo.init
          ⟨("CEST".toList, 7200), fun n => some ⟨n, none⟩, fun s => s.map upperASCII⟩).getD
            ⟨[], [], []⟩)
        [] "2021-04-13 17:58:42 GMT".toList).tzloc
      = some (tzinfo.GetCurrentTimeZoneLocation
          ⟨("CEST".toList, 7200), fun n => some ⟨n, none⟩, fun s => s.map upperASCII⟩) := by
  decide

end chronus

namespace chronus

open gostd regexp

theorem digit_dash_of_plus (pre u1 rest : List Char) (hne : u1 ≠ [])
    (hall : ∀ x ∈ u1, isD x = true) :
    ∃ p x q, pre ++ (u1 ++ '-' :: rest) = p ++ x :: '-' :: q ∧ isD x = true := by
  refine ⟨pre ++ u1.dropLast, u1.getLast hne, rest, ?_, hall _ (List.getLast_mem hne)⟩
  conv_lhs => rw [← List.dropLast_append_getLast hne]
  simp

/-- A match of `regExRFC3339` holds a digit followed by a hyphen. -/
theorem rfc3339_digit_dash (dtz : List Char) (h : MatchString regExRFC3339 dtz = true) :
    ∃ p x q, dtz = p ++ x :: '-' :: q ∧ isD x = true := by
  rw [MatchString_iff] at h
  simp only [regExRFC3339, Re.cat, Re.Matches, lit] at h
  obtain ⟨pre, u, v, rfl, u1, u2, rfl, ⟨hne, hall⟩, u3, u4, rfl, ⟨x, rfl, hx⟩, _⟩ := h
  have hx2 : x = '-' := by simpa using hx
  subst hx2
  have := digit_dash_of_plus pre u1 (u4 ++ v) hne hall
  simpa using this

/-- A match of `regExSQLDateTime` holds a digit followed by a hyphen. -/
theorem sql_digit_dash (dtz : List Char) (h : MatchString regExSQLDateTime dtz = true) :
    ∃ p x q, dtz = p ++ x :: '-' :: q ∧ isD x = true := by
  rw [MatchString_iff] at h
  simp only [regExSQLDateTime, Re.cat, Re.Matches, lit] at h
  obtain ⟨pre, u, v, rfl, u1, u2, rfl, ⟨a, b, rfl, ⟨hne, hall⟩, c, e, rfl, ⟨x, rfl, hx⟩, _⟩, _⟩ := h
  have hx2 : x = '-' := by simpa using hx
  subst hx2
  have := digit_dash_of_plus pre a (e ++ (u2 ++ v)) hne hall
  simpa using this

/-- A text whose only hyphen follows a blank holds no digit followed by a hyphen. -/
theorem no_digit_dash (B O : List Char) (hB : '-' ∉ B) (hO : '-' ∉ O) :
    ¬ ∃ p x q, B ++ ' ' :: '-' :: O = p ++ x :: '-' :: q ∧ isD x = true := by
  rintro ⟨p, x, q, e, hx⟩
  rcases List.append_eq_append_iff.mp e with ⟨a, rfl, h⟩ | ⟨c, rfl, h⟩
  · cases a with
    | nil =>
      simp only [List.nil_append, List.cons.injEq] at h
      obtain ⟨rfl, _⟩ := h
      exact absurd hx (by decide)
    | cons y a =>
      simp only [List.cons_append, List.cons.injEq] at h
      obtain ⟨_, h⟩ := h
      cases a with
      | nil =>
        simp only [List.nil_append, List.cons.injEq] at h
        obtain ⟨rfl, _⟩ := h
        exact absurd hx (by decide)
      | cons z a =>
        simp only [List.cons_append, List.cons.injEq] at h
        obtain ⟨_, rfl⟩ := h
        exact hO (by simp)
  · cases c with
    | nil =>
      simp only [List.nil_append, List.cons.injEq] at h
      obtain ⟨rfl, _⟩ := h
      exact absurd hx (by decide)
    | cons y c =>
      simp only [List.cons_append, List.cons.injEq] at h
      obtain ⟨rfl, h⟩ := h
      cases c with
      | nil =>
        simp only [List.nil_append, List.cons.injEq] at h
        exact absurd h.1 (by decide)
      | cons z c =>
        simp only [List.cons_append, List.cons.injEq] at h
        obtain ⟨rfl, _⟩ := h
        exact hB (by simp)

theorem GetSQLFormat_no_match (P : tzinfo.Platform) (reg : tzinfo.Registry) (cc dtz : List Char)
    (h : MatchString regExSQLDateTime dtz = false) :
    GetSQLFormat P reg cc dtz = ⟨[], none, cc⟩ := by
  simp [GetSQLFormat, h]

theorem not_dash_of_isD {l : List Char} (h : ∀ x ∈ l, isD x = true) : '-' ∉ l := by
  intro hm
  exact absurd (h '-' hm) (by decide)

theorem not_dash_of_isLetter {l : List Char} (h : ∀ x ∈ l, isLetter x = true) : '-' ∉ l := by
  intro hm
  exact absurd (h '-' hm) (by decide)

theorem isAZ09Dash_of_isD {x : Char} (h : isD x = true) : isAZ09Dash x = true := by
  simp [isAZ09Dash, h]

end chronus

namespace chronus

open gostd regexp

/-- The two patterns of the Git stage match a text of the shape weekday, month, day,
time of day, year and an offset with a minus sign. -/
theorem git_patterns_match (W Mo Day Y O : List Char) (h1 h2 m1 m2 s1 s2 : Char)
    (hW : W ≠ [] ∧ ∀ x ∈ W, isLetter x = true) (hMo : Mo ≠ [] ∧ ∀ x ∈ Mo, isLetter x = true)
    (hDay : Day ≠ [] ∧ ∀ x ∈ Day, isD x = true)
    (hh1 : isD h1 = true) (hh2 : isD h2 = true) (hm1 : isD m1 = true) (hm2 : isD m2 = true)
    (hs1 : isD s1 = true) (hs2 : isD s2 = true)
    (hY : Y ≠ [] ∧ ∀ x ∈ Y, isD x = true) (hO : O ≠ [] ∧ ∀ x ∈ O, isD x = true) :
    MatchString regExAnsiGitRubyUnix
        (W ++ ' ' :: (Mo ++ ' ' :: (Day ++ ' ' :: h1 :: h2 :: ':' :: m1 :: m2 :: ':' :: s1 :: s2
          :: ' ' :: (Y ++ ' ' :: '-' :: O)))) = true ∧
    MatchString regExGitDateTime
        (W ++ ' ' :: (Mo ++ ' ' :: (Day ++ ' ' :: h1 :: h2 :: ':' :: m1 :: m2 :: ':' :: s1 :: s2
          :: ' ' :: (Y ++ ' ' :: '-' :: O)))) = true := by
  have wW : ∀ x ∈ W, isW x = true := fun x hx => isW_of_isLetter (hW.2 x hx)
  have wMo : ∀ x ∈ Mo, isW x = true := fun x hx => isW_of_isLetter (hMo.2 x hx)
  constructor
  · rw [MatchString_iff]
    simp only [regExAnsiGitRubyUnix, Re.cat, Re.Matches, sp, d, lit]
    refine ⟨[], W ++ ([' '] ++ (Mo ++ ([' '] ++ (([] ++ Day) ++ ([' '] ++ (([h1] ++ [h2]) ++
      ([':'] ++ (([m1] ++ [m2]) ++ (([':'] ++ ([s1] ++ [s2])) ++ ([' '] ++ (Y ++ ([' '] ++
      ('-' :: O))))))))))))), [], by simp, ?_⟩
    refine ⟨W, _, rfl, ⟨hW.1, wW⟩, [' '], _, rfl, ⟨' ', rfl, by simp⟩, Mo, _, rfl, ⟨hMo.1, wMo⟩,
      [' '], _, rfl, ⟨' ', rfl, by simp⟩, [] ++ Day, _, rfl, ⟨[], Day, rfl, Or.inr rfl, hDay⟩,
      [' '], _, rfl, ⟨' ', rfl, by simp⟩, [h1] ++ [h2], _, rfl,
      ⟨[h1], [h2], rfl, ⟨h1, rfl, hh1⟩, ⟨h2, rfl, hh2⟩⟩, [':'], _, rfl, ⟨':', rfl, by simp⟩,
      [m1] ++ [m2], _, rfl, ⟨[m1], [m2], rfl, ⟨m1, rfl, hm1⟩, ⟨m2, rfl, hm2⟩⟩,
      [':'] ++ ([s1] ++ [s2]), _, rfl,
      Or.inl ⟨[':'], [s1] ++ [s2], rfl, ⟨':', rfl, by simp⟩, [s1], [s2], rfl, ⟨s1, rfl, hs1⟩,
        ⟨s2, rfl, hs2⟩⟩,
      [' '], _, rfl, ⟨' ', rfl, by simp⟩, Y, _, rfl,
      ⟨hY.1, fun x hx => isAZ09Dash_of_isD (hY.2 x hx)⟩, [' '], _, rfl, ⟨' ', rfl, by simp⟩,
      by simp, ?_⟩
    intro x hx
    rcases List.mem_cons.mp hx with rfl | hx
    · decide
    · exact isAZ09Dash_of_isD (hO.2 x hx)
  · rw [MatchString_iff]
    simp only [regExGitDateTime, Re.cat, Re.Matches, sp, d, lit]
    refine ⟨[], W ++ ([' '] ++ (Mo ++ ([' '] ++ (Day ++ ([' '] ++ (([h1] ++ ([h2] ++ ([':'] ++
      ([m1] ++ ([m2] ++ ([':'] ++ ([s1] ++ [s2]))))))) ++ ([' '] ++ (Y ++ ([' '] ++
      (['-'] ++ O)))))))))), [], by simp, ?_⟩
    exact ⟨W, _, rfl, ⟨hW.1, wW⟩, [' '], _, rfl, ⟨' ', rfl, by simp⟩, Mo, _, rfl, ⟨hMo.1, wMo⟩,
      [' '], _, rfl, ⟨' ', rfl, by simp⟩, Day, _, rfl, hDay,
      [' '], _, rfl, ⟨' ', rfl, by simp⟩, _, _, rfl,
      ⟨[h1], _, rfl, ⟨h1, rfl, hh1⟩, [h2], _, rfl, ⟨h2, rfl, hh2⟩, [':'], _, rfl,
        ⟨':', rfl, by simp⟩, [m1], _, rfl, ⟨m1, rfl, hm1⟩, [m2], _, rfl, ⟨m2, rfl, hm2⟩,
        [':'], _, rfl, ⟨':', rfl, by simp⟩, [s1], [s2], rfl, ⟨s1, rfl, hs1⟩, ⟨s2, rfl, hs2⟩⟩,
      [' '], _, rfl, ⟨' ', rfl, by simp⟩, Y, _, rfl, hY, [' '], _, rfl, ⟨' ', rfl, by simp⟩,
      ['-'], O, rfl, ⟨'-', rfl, by simp⟩, hO⟩

/-- The classification of a text of the Git shape with a minus offset. -/
theorem GetFormat_git (P : tzinfo.Platform) (reg : tzinfo.Registry) (cc : List Char)
    (W Mo Day Y O : List Char) (h1 h2 m1 m2 s1 s2 : Char)
    (hW : W ≠ [] ∧ ∀ x ∈ W, isLetter x = true) (hMo : Mo ≠ [] ∧ ∀ x ∈ Mo, isLetter x = true)
    (hDay : Day ≠ [] ∧ ∀ x ∈ Day, isD x = true)
    (hh1 : isD h1 = true) (hh2 : isD h2 = true) (hm1 : isD m1 = true) (hm2 : isD m2 = true)
    (hs1 : isD s1 = true) (hs2 : isD s2 = true)
    (hY : Y ≠ [] ∧ ∀ x ∈ Y, isD x = true) (hO : O ≠ [] ∧ ∀ x ∈ O, isD x = true) :
    GetFormat P reg cc
        (W ++ ' ' :: (Mo ++ ' ' :: (Day ++ ' ' :: h1 :: h2 :: ':' :: m1 :: m2 :: ':' :: s1 :: s2
          :: ' ' :: (Y ++ ' ' :: '-' :: O))))
      = ⟨GitDateTime, none, cc⟩ := by
  obtain ⟨hA, hG⟩ := git_patterns_match W Mo Day Y O h1 h2 m1 m2 s1 s2 hW hMo hDay hh1 hh2 hm1
    hm2 hs1 hs2 hY hO
  have hU : GetUnixTimeStampFormat
      (W ++ ' ' :: (Mo ++ ' ' :: (Day ++ ' ' :: h1 :: h2 :: ':' :: m1 :: m2 :: ':' :: s1 :: s2
        :: ' ' :: (Y ++ ' ' :: '-' :: O)))) = [] :=
    GetUnixTimeStampFormat_of_mem _ ' ' (by simp) (by decide) (by decide) (by decide)
  have e : W ++ ' ' :: (Mo ++ ' ' :: (Day ++ ' ' :: h1 :: h2 :: ':' :: m1 :: m2 :: ':' :: s1
      :: s2 :: ' ' :: (Y ++ ' ' :: '-' :: O)))
      = (W ++ ' ' :: (Mo ++ ' ' :: (Day ++ ' ' :: h1 :: h2 :: ':' :: m1 :: m2 :: ':' :: s1 :: s2
        :: ' ' :: Y))) ++ ' ' :: '-' :: O := by simp
  have hB : '-' ∉ W ++ ' ' :: (Mo ++ ' ' :: (Day ++ ' ' :: h1 :: h2 :: ':' :: m1 :: m2 :: ':'
      :: s1 :: s2 :: ' ' :: Y)) := by
    have n1 := not_dash_of_isLetter hW.2
    have n2 := not_dash_of_isLetter hMo.2
    have n3 := not_dash_of_isD hDay.2
    have n4 := not_dash_of_isD hY.2
    have c1 : '-' ≠ h1 := by rintro rfl; exact absurd hh1 (by decide)
    have c2 : '-' ≠ h2 := by rintro rfl; exact absurd hh2 (by decide)
    have c3 : '-' ≠ m1 := by rintro rfl; exact absurd hm1 (by decide)
    have c4 : '-' ≠ m2 := by rintro rfl; exact absurd hm2 (by decide)
    have c5 : '-' ≠ s1 := by rintro rfl; exact absurd hs1 (by decide)
    have c6 : '-' ≠ s2 := by rintro rfl; exact absurd hs2 (by decide)
    simp [n1, n2, n3, n4, c1, c2, c3, c4, c5, c6]
  have hnd := no_digit_dash _ O hB (not_dash_of_isD hO.2)
  rw [← e] at hnd
  have hR : GetRFC3339Format
      (W ++ ' ' :: (Mo ++ ' ' :: (Day ++ ' ' :: h1 :: h2 :: ':' :: m1 :: m2 :: ':' :: s1 :: s2
        :: ' ' :: (Y ++ ' ' :: '-' :: O)))) = [] := by
    apply GetRFC3339Format_eq_nil
    cases hh : MatchString regExRFC3339
      (W ++ ' ' :: (Mo ++ ' ' :: (Day ++ ' ' :: h1 :: h2 :: ':' :: m1 :: m2 :: ':' :: s1 :: s2
        :: ' ' :: (Y ++ ' ' :: '-' :: O))))
    · rfl
    · exact absurd (rfc3339_digit_dash _ hh) hnd
  have hS : GetSQLFormat P reg cc
      (W ++ ' ' :: (Mo ++ ' ' :: (Day ++ ' ' :: h1 :: h2 :: ':' :: m1 :: m2 :: ':' :: s1 :: s2
        :: ' ' :: (Y ++ ' ' :: '-' :: O)))) = ⟨[], none, cc⟩ := by
    apply GetSQLFormat_no_match
    cases hh : MatchString regExSQLDateTime
      (W ++ ' ' :: (Mo ++ ' ' :: (Day ++ ' ' :: h1 :: h2 :: ':' :: m1 :: m2 :: ':' :: s1 :: s2
        :: ' ' :: (Y ++ ' ' :: '-' :: O))))
    · rfl
    · exact absurd (sql_digit_dash _ hh) hnd
  simp only [GetFormat, hU, hR, hS, hA, hG, List.length_nil, gt_iff_lt, lt_self_iff_false,
    if_false, and_self, if_true]

/-- C17, as stated, fails: with a plus offset the text is not classified at all. -/
theorem git_plus_offset_unclassified :
    GetFormat ⟨([], 0), fun _ => none, id⟩ ⟨[], [], []⟩ []
        "Tue Apr 13 17:58:42 2021 +0530".toList = ⟨[], none, []⟩ ∧
    (GetFormat ⟨([], 0), fun _ => none, id⟩ ⟨[], [], []⟩ []
        "Tue Apr 13 17:58:42 2021 +0530".toList).format ≠ GitDateTime := by
  decide

/-- C17, amended: a text of the shape weekday, month, day, time of day, year and an
offset with a minus sign, with alphabetic weekday and month names, is classified with
the Git layout and no zone. -/
theorem classify_git_minus_offset (P : tzinfo.Platform) (reg : tzinfo.Registry) (cc : List Char)
    (W Mo Day Y O : List Char) (h1 h2 m1 m2 s1 s2 : Char)
    (hW : W ≠ [] ∧ ∀ x ∈ W, isLetter x = true) (hMo : Mo ≠ [] ∧ ∀ x ∈ Mo, isLetter x = true)
    (hDay : Day ≠ [] ∧ ∀ x ∈ Day, isDigit x = true)
    (hh1 : isDigit h1 = true) (hh2 : isDigit h2 = true)
    (hm1 : isDigit m1 = true) (hm2 : isDigit m2 = true)
    (hs1 : isDigit s1 = true) (hs2 : isDigit s2 = true)
    (hY : Y ≠ [] ∧ ∀ x ∈ Y, isDigit x = true) (hO : O ≠ [] ∧ ∀ x ∈ O, isDigit x = true) :
    GetFormat P reg cc
        (W ++ ' ' :: (Mo ++ ' ' :: (Day ++ ' ' :: h1 :: h2 :: ':' :: m1 :: m2 :: ':' :: s1 :: s2
          :: ' ' :: (Y ++ ' ' :: '-' :: O))))
      = ⟨"Mon Jan 2 15:04:05 2006 -0700".toList, none, cc⟩ :=
  GetFormat_git P reg cc W Mo Day Y O h1 h2 m1 m2 s1 s2 hW hMo hDay hh1 hh2 hm1 hm2 hs1 hs2 hY hO

/-- Witness of the amended C17 at "Tue Apr 13 17:58:42 2021 -0700". -/
theorem classify_git_minus_offset_witness :
    GetFormat ⟨([], 0), fun _ => none, id⟩ ⟨[], [], []⟩ []
        "Tue Apr 13 17:58:42 2021 -0700".toList
      = ⟨"Mon Jan 2 15:04:05 2006 -0700".toList, none, []⟩ :=
  classify_git_minus_offset ⟨([], 0), fun _ => none, id⟩ ⟨[], [], []⟩ [] "Tue".toList
    "Apr".toList "13".toList "2021".toList "0700".toList '1' '7' '5' '8' '4' '2' (by decide)
    (by decide) (by decide) (by decide) (by decide) (by decide) (by decide) (by decide)
    (by decide) (by decide) (by decide)

end chronus

namespace chronus

open gostd regexp

/-- The result of `GetFormat` for an input that the first four stages pass over. -/
theorem GetFormat_late_stages (P : tzinfo.Platform) (reg : tzinfo.Registry) (cc dtz : List Char)
    (hU : GetUnixTimeStampFormat dtz = []) (hR : GetRFC3339Format dtz = [])
    (hS : (GetSQLFormat P reg cc dtz).format = [])
    (hG : ¬ (MatchString regExAnsiGitRubyUnix dtz = true ∧ MatchString regExGitDateTime dtz = true)) :
    (GetFormat P reg cc dtz).format
      = if MatchString regExUSCommonDateTime dtz = true then [] else stage6Layout dtz := by
  simp only [GetFormat, hU, hR, hS, hG, List.length_nil, gt_iff_lt, lt_self_iff_false, if_false]
  split_ifs
  · rfl
  · rfl

/-- C18, as stated, fails: "13 10 2021 17:58" is passed over by the first four stages and
matches the loose and the strict US-common pattern and the pattern of the last stage,
whose reconstruction would be "2 Jan 2006 15:04"; `GetFormat` returns the empty layout. -/
theorem us_common_skips_last_stage :
    GetUnixTimeStampFormat "13 10 2021 17:58".toList = [] ∧
    GetRFC3339Format "13 10 2021 17:58".toList = [] ∧
    (GetSQLFormat ⟨([], 0), fun _ => none, id⟩ ⟨[], [], []⟩ [] "13 10 2021 17:58".toList).format
      = [] ∧
    MatchString regExAnsiGitRubyUnix "13 10 2021 17:58".toList = false ∧
    MatchString regExUSCommonDateTime "13 10 2021 17:58".toList = true ∧
    MatchString regExUSCommonDateTimeStrict "13 10 2021 17:58".toList = true ∧
    MatchString regExRFCUnitedKingdom "13 10 2021 17:58".toList = true ∧
    stage6Layout "13 10 2021 17:58".toList = "2 Jan 2006 15:04".toList ∧
    (GetFormat ⟨([], 0), fun _ => none, id⟩ ⟨[], [], []⟩ [] "13 10 2021 17:58".toList).format
      = [] ∧
    (GetFormat ⟨([], 0), fun _ => none, id⟩ ⟨[], [], []⟩ [] "13 10 2021 17:58".toList).format
      ≠ stage6Layout "13 10 2021 17:58".toList := by
  decide

/-- C18, amended: for an input that the first four stages pass over, the layout is the
reconstruction of the last stage when the input holds no match of the loose US-common
pattern, and the empty layout when it holds one; the strict pattern plays no part. -/
theorem us_common_gates_last_stage (P : tzinfo.Platform) (reg : tzinfo.Registry)
    (cc dtz : List Char)
    (hU : GetUnixTimeStampFormat dtz = []) (hR : GetRFC3339Format dtz = [])
    (hS : (GetSQLFormat P reg cc dtz).format = [])
    (hG : ¬ (MatchString regExAnsiGitRubyUnix dtz = true ∧ MatchString regExGitDateTime dtz = true)) :
    (MatchString regExUSCommonDateTime dtz = false →
      (GetFormat P reg cc dtz).format = stage6Layout dtz) ∧
    (MatchString regExUSCommonDateTime dtz = true → (GetFormat P reg cc dtz).format = []) := by
  have h := GetFormat_late_stages P reg cc dtz hU hR hS hG
  constructor
  · intro hus
    rw [h, hus]
    rfl
  · intro hus
    rw [h, if_pos hus]

/-- Witness of the amended C18 at "6 May 2021 12:46", which reaches the last stage, and
at "13 10 2021 17:58", which the US-common stage stops. -/
theorem us_common_gates_last_stage_witness :
    (GetFormat ⟨([], 0), fun _ => none, id⟩ ⟨[], [], []⟩ [] "6 May 2021 12:46".toList).format
      = stage6Layout "6 May 2021 12:46".toList ∧
    (GetFormat ⟨([], 0), fun _ => none, id⟩ ⟨[], [], []⟩ [] "13 10 2021 17:58".toList).format
      = [] :=
  ⟨(us_common_gates_last_stage ⟨([], 0), fun _ => none, id⟩ ⟨[], [], []⟩ []
      "6 May 2021 12:46".toList (by decide) (by decide) (by decide) (by decide)).1 (by decide),
   (us_common_gates_last_stage ⟨([], 0), fun _ => none, id⟩ ⟨[], [], []⟩ []
      "13 10 2021 17:58".toList (by decide) (by decide) (by decide) (by decide)).2 (by decide)⟩

end chronus

namespace regexp

theorem orElse_eq_some {α : Type} {a : Option α} {b : Unit → Option α} {v : α}
    (h : a.orElse b = some v) : a = some v ∨ b () = some v := by
  cases a with
  | none => exact Or.inr h
  | some w => exact Or.inl h

theorem plusRun_length (p : Char → Bool) (n : Nat) (k : Cont)
    (hk : ∀ i s c v, c.length = n → k i s c = some v → v.length = n) :
    ∀ (s : List Char) (i : Nat) (c v : Caps), c.length = n → plusRun p i s c k = some v →
      v.length = n := by
  intro s
  induction s with
  | nil => intro i c v _ h; simp [plusRun] at h
  | cons x t ih =>
    intro i c v hc h
    simp only [plusRun] at h
    by_cases hx : p x = true
    · simp only [hx, if_true] at h
      rcases orElse_eq_some h with h | h
      · exact ih _ _ _ hc h
      · exact hk _ _ _ _ hc h
    · simp [hx] at h

/-- The matcher keeps the number of slots. -/
theorem run_length (r : Re) : ∀ (n : Nat) (k : Cont),
    (∀ i s c v, c.length = n → k i s c = some v → v.length = n) →
    ∀ (i : Nat) (s : List Char) (c v : Caps), c.length = n → r.run i s c k = some v →
      v.length = n := by
  induction r with
  | eps => intro n k hk i s c v hc h; exact hk _ _ _ _ hc h
  | cls p =>
    intro n k hk i s c v hc h
    cases s with
    | nil => simp [Re.run] at h
    | cons x t =>
      simp only [Re.run] at h
      by_cases hx : p x = true
      · simp only [hx, if_true] at h
        exact hk _ _ _ _ hc h
      · simp [hx] at h
  | seq a b iha ihb =>
    intro n k hk i s c v hc h
    simp only [Re.run] at h
    exact iha n _ (fun i1 s1 c1 v1 hc1 h1 => ihb n k hk i1 s1 c1 v1 hc1 h1) i s c v hc h
  | alt a b iha ihb =>
    intro n k hk i s c v hc h
    simp only [Re.run] at h
    rcases orElse_eq_some h with h | h
    · exact iha n k hk _ _ _ _ hc h
    · exact ihb n k hk _ _ _ _ hc h
  | opt a iha =>
    intro n k hk i s c v hc h
    simp only [Re.run] at h
    rcases orElse_eq_some h with h | h
    · exact iha n k hk _ _ _ _ hc h
    · exact hk _ _ _ _ hc h
  | plus p =>
    intro n k hk i s c v hc h
    simp only [Re.run] at h
    exact plusRun_length p n k hk s i c v hc h
  | group g a iha =>
    intro n k hk i s c v hc h
    simp only [Re.run] at h
    exact iha n _ (fun i1 s1 c1 v1 hc1 h1 => hk i1 s1 _ v1 (by simp [hc1]) h1) i s c v hc h
  | bol =>
    intro n k hk i s c v hc h
    simp only [Re.run] at h
    by_cases hi : i = 0
    · simp only [hi, if_true] at h
      exact hk _ _ _ _ hc h
    · simp [hi] at h
  | eol =>
    intro n k hk i s c v hc h
    simp only [Re.run] at h
    cases s with
    | nil => exact hk _ _ _ _ hc (by simpa using h)
    | cons x t => simp at h

theorem matchAt_length (r : Re) (i : Nat) (s : List Char) (v : Caps)
    (h : matchAt r i s = some v) : v.length = r.numGroups + 1 := by
  unfold matchAt at h
  refine run_length r (r.numGroups + 1) _ ?_ i s _ v (by simp) h
  intro i1 s1 c1 v1 hc1 h1
  simp only [Option.some.injEq] at h1
  rw [← h1]
  simp [hc1]

theorem searchFrom_length (r : Re) (s : List Char) (i : Nat) (v : Caps)
    (h : searchFrom r i s = some v) : v.length = r.numGroups + 1 := by
  induction s generalizing i with
  | nil => exact matchAt_length r i [] v (by simpa [searchFrom] using h)
  | cons x t ih =>
    simp only [searchFrom] at h
    rcases orElse_eq_some h with h | h
    · exact matchAt_length r i _ v h
    · exact ih _ h

/-- The slice that `FindStringSubmatch` returns has one slot for the match and one for
every group. -/
theorem FindStringSubmatch_length (r : Re) (s : List Char) (v : Caps)
    (h : FindStringSubmatch r s = some v) : v.length = r.numGroups + 1 :=
  searchFrom_length r s 0 v h

end regexp

namespace chronus

open gostd regexp

/-- The pattern `^ [A-Z]+$` accepts exactly a blank followed by uppercase letters. -/
theorem reBlankUpper_eq (g : List Char) : MatchString reBlankUpper g = isBlankUpperWord g := by
  apply Bool.eq_iff_iff.mpr
  rw [MatchString_iff]
  simp only [reBlankUpper, Re.cat, Re.Matches, sp, lit]
  constructor
  · rintro ⟨pre, u, v, rfl, u1, u2, rfl, ⟨rfl, hpre⟩, u3, u4, rfl, ⟨x, rfl, hx⟩, u5, u6, rfl,
      ⟨hne, hall⟩, rfl, rfl⟩
    have hp : pre = [] := List.length_eq_zero.mp hpre
    subst hp
    have hx2 : x = ' ' := by simpa using hx
    subst hx2
    cases u5 with
    | nil => exact absurd rfl hne
    | cons y t =>
      simp only [isBlankUpperWord, List.nil_append, List.append_nil, List.singleton_append,
        beq_self_eq_true, List.isEmpty_cons, Bool.not_false, Bool.and_self, Bool.true_and,
        List.all_eq_true]
      exact hall
  · intro h
    cases g with
    | nil => simp [isBlankUpperWord] at h
    | cons x t =>
      simp only [isBlankUpperWord, Bool.and_eq_true, beq_iff_eq, Bool.not_eq_true',
        List.isEmpty_eq_false, List.all_eq_true] at h
      obtain ⟨⟨rfl, hne⟩, hall⟩ := h
      exact ⟨[], ' ' :: t, [], by simp, [], _, rfl, ⟨rfl, rfl⟩, [' '], t, rfl,
        ⟨' ', rfl, by simp⟩, t, [], by simp, ⟨hne, hall⟩, rfl, rfl⟩

theorem ukLayout_beyond (fm : Caps) : ∀ (gs : Caps) (c : Nat) (acc : List Char),
    fm.length ≤ c → ukLayout fm c gs acc = acc := by
  intro gs
  induction gs with
  | nil => intro c acc _; rfl
  | cons g gs ih =>
    intro c acc hc
    have hget : fm.getD c [] = [] := by
      simp [List.getD, List.getElem?_eq_none hc]
    simp only [ukLayout, hget]
    rw [ih (c + 1) _ (by omega)]
    split_ifs with h1 h2
    · exact absurd h2.1 (by decide)
    · simp
    · rfl

/-- The loop of the last stage computes the reconstruction of the specification. -/
theorem ukLayout_spec : ∀ (gs fs pre : Caps) (acc : List Char), pre ≠ [] →
    ukLayout (pre ++ fs) pre.length gs acc = acc ++ specReconstruction gs fs := by
  intro gs
  induction gs with
  | nil => intro fs pre acc _; simp [ukLayout, specReconstruction]
  | cons g gs ih =>
    intro fs pre acc hpre
    have hpos : pre.length > 0 := List.length_pos.mpr hpre
    cases fs with
    | nil =>
      rw [ukLayout_beyond _ _ _ _ (by simp)]
      simp [specReconstruction]
    | cons f fs =>
      have hget : (pre ++ f :: fs).getD pre.length [] = f := by
        rw [List.getD_eq_getElem?_getD, List.getElem?_append_right (Nat.le_refl _)]
        simp
      have hnext := ih fs (pre ++ [f])
      simp only [List.append_assoc, List.singleton_append, List.length_append,
        List.length_singleton] at hnext
      simp only [ukLayout, hget, hpos, and_true, reBlankUpper_eq, specReconstruction]
      rw [hnext _ (by simp)]
      by_cases hb : (TrimSpace g).isEmpty = true
      · have hl : ¬ (TrimSpace g).length > 0 := by
          rw [List.isEmpty_iff] at hb
          simp [hb]
        simp [hl, hb]
      · have hl : (TrimSpace g).length > 0 := by
          apply List.length_pos.mpr
          intro he
          exact hb (by simp [he])
        simp only [hl, if_true, hb, Bool.false_eq_true, if_false]
        split_ifs <;> simp

theorem referenceSlots :
    FindStringSubmatch regExRFCUnitedKingdom RFC5322C = some (RFC5322C :: referenceFragments) := by
  decide

theorem stage6Layout_spec (dtz : List Char) (m : Caps)
    (hm : FindStringSubmatch regExRFCUnitedKingdom dtz = some m) :
    stage6Layout dtz = specReconstruction m.tail referenceFragments := by
  have hlen := FindStringSubmatch_length _ _ _ hm
  cases m with
  | nil => simp at hlen
  | cons m0 gs =>
    have h := ukLayout_spec gs referenceFragments [RFC5322C] [] (by simp)
    simp only [stage6Layout, referenceSlots, hm, Option.getD_some, List.tail_cons]
    simp only [List.singleton_append, List.length_singleton, List.nil_append] at h
    rw [← h]
    simp [ukLayout]

/-- C19: for an input that reaches the last stage and matches its pattern, the layout is
the concatenation, over the eight groups of the input in order, of the fragment of the
reference string for every group that is not blank, with " MST" for the zone fragment
when the zone group is a blank followed only by uppercase letters. -/
theorem stage6_positional_reconstruction (P : tzinfo.Platform) (reg : tzinfo.Registry)
    (cc dtz : List Char) (m : Caps)
    (hU : GetUnixTimeStampFormat dtz = []) (hR : GetRFC3339Format dtz = [])
    (hS : (GetSQLFormat P reg cc dtz).format = [])
    (hG : ¬ (MatchString regExAnsiGitRubyUnix dtz = true ∧ MatchString regExGitDateTime dtz = true))
    (hUS : MatchString regExUSCommonDateTime dtz = false)
    (hm : FindStringSubmatch regExRFCUnitedKingdom dtz = some m) :
    m.tail.length = 8 ∧
    (GetFormat P reg cc dtz).format = specReconstruction m.tail referenceFragments := by
  have hlen := FindStringSubmatch_length _ _ _ hm
  have hng : regExRFCUnitedKingdom.numGroups + 1 = 9 := by decide
  refine ⟨by rw [List.length_tail, hlen, hng], ?_⟩
  rw [GetFormat_late_stages P reg cc dtz hU hR hS hG, hUS, ← stage6Layout_spec dtz m hm]
  rfl

/-- Witness of C19 at the four example inputs. -/
theorem stage6_positional_reconstruction_witness :
    (GetFormat ⟨([], 0), fun _ => none, id⟩ ⟨[], [], []⟩ []
        "Thu, 6 May 2021 12:46:12 -0700 (PDT)".toList).format = RFC5322C ∧
    (GetFormat ⟨([], 0), fun _ => none, id⟩ ⟨[], [], []⟩ []
        "Thu, 6 May 2021 12:46:12 -0700".toList).format = RFC5322A ∧
    (GetFormat ⟨([], 0), fun _ => none, id⟩ ⟨[], [], []⟩ []
        "Thu, 6 May 2021 12:46:12 PDT".toList).format = RFC5322B ∧
    (GetFormat ⟨([], 0), fun _ => none, id⟩ ⟨[], [], []⟩ []
        "6 May 2021 12:46".toList).format = UKCommon :=
  ⟨((stage6_positional_reconstruction ⟨([], 0), fun _ => none, id⟩ ⟨[], [], []⟩ []
      "Thu, 6 May 2021 12:46:12 -0700 (PDT)".toList
      ["Thu, 6 May 2021 12:46:12 -0700 (PDT)".toList, "Thu, ".toList, "6".toList, " May".toList,
        " 2021".toList, " 12:46".toList, ":12".toList, " -0700".toList, " (PDT)".toList]
      (by decide) (by decide) (by decide) (by decide) (by decide) (by decide)).2).trans
      (by decide),
   ((stage6_positional_reconstruction ⟨([], 0), fun _ => none, id⟩ ⟨[], [], []⟩ []
      "Thu, 6 May 2021 12:46:12 -0700".toList
      ["Thu, 6 May 2021 12:46:12 -0700".toList, "Thu, ".toList, "6".toList, " May".toList,
        " 2021".toList, " 12:46".toList, ":12".toList, " -0700".toList, []]
      (by decide) (by decide) (by decide) (by decide) (by decide) (by decide)).2).trans
      (by decide),
   ((stage6_positional_reconstruction ⟨([], 0), fun _ => none, id⟩ ⟨[], [], []⟩ []
      "Thu, 6 May 2021 12:46:12 PDT".toList
      ["Thu, 6 May 2021 12:46:12 PDT".toList, "Thu, ".toList, "6".toList, " May".toList,
        " 2021".toList, " 12:46".toList, ":12".toList, " PDT".toList, []]
      (by decide) (by decide) (by decide) (by decide) (by decide) (by decide)).2).trans
      (by decide),
   ((stage6_positional_reconstruction ⟨([], 0), fun _ => none, id⟩ ⟨[], [], []⟩ []
      "6 May 2021 12:46".toList
      ["6 May 2021 12:46".toList, [], "6".toList, " May".toList,
        " 2021".toList, " 12:46".toList, [], [], []]
      (by decide) (by decide) (by decide) (by decide) (by decide) (by decide)).2).trans
      (by decide)⟩

end chronus

namespace chronus

open gostd regexp

/-- The result of `Parse` when `GetFormat` returns no zone: the run-time panic. -/
theorem Parse_nil_zone (L : TimeLib) (P : tzinfo.Platform) (reg : tzinfo.Registry)
    (cc dtz : List Char) (h : (GetFormat P reg cc dtz).tzloc = none) :
    Parse L P reg cc dtz = none := by
  simp [Parse, h]

/-- C20: for the input "1136239445", which is classified as a Unix timestamp with no
zone and whose text converts to the second 1136239445, `Parse` does not return: it stops
at the nil dereference in `tzloc.String()`. -/
theorem parse_unix_integer_panics (L : TimeLib) (P : tzinfo.Platform) (reg : tzinfo.Registry)
    (cc : List Char) :
    GetFormat P reg cc "1136239445".toList = ⟨UnixTimeStamp, none, cc⟩ ∧
    ParseInt "1136239445".toList = some 1136239445 ∧
    Parse L P reg cc "1136239445".toList = none ∧
    Parse L P reg cc "1136239445".toList ≠ some (Unix 1136239445 0, none) := by
  have hm : MatchString regExUnixTimeStamp "1136239445".toList = true := by decide
  have hf : GetUnixTimeStampFormat "1136239445".toList = UnixTimeStamp := by
    rw [GetUnixTimeStampFormat_eq, if_pos hm]
  have hl : UnixTimeStamp.length > 0 := by decide
  have hg : GetFormat P reg cc "1136239445".toList = ⟨UnixTimeStamp, none, cc⟩ := by
    simp only [GetFormat, hf, hl, if_true]
  have hp : Parse L P reg cc "1136239445".toList = none :=
    Parse_nil_zone L P reg cc _ (by rw [hg])
  refine ⟨hg, by decide, hp, ?_⟩
  rw [hp]
  exact fun h => Option.noConfusion h

end chronus

namespace chronus

open gostd regexp

/-- The function `Parse` is the evaluation of `tzloc.String()` followed by the switch
statement. -/
theorem Parse_eq_parseSwitch (L : TimeLib) (P : tzinfo.Platform) (reg : tzinfo.Registry)
    (cc dtz : List Char) :
    Parse L P reg cc dtz =
      match (GetFormat P reg cc dtz).tzloc.map tzinfo.TimeZoneLocation.String with
      | none => none
      | some _ => parseSwitch L P (GetFormat P reg cc dtz).format dtz
          (GetFormat P reg cc dtz).tzloc := by
  rfl

/-- C21: for every input for which `GetFormat` returns no zone, `Parse` does not run to
its return statement: the trace argument `tzloc.String()` is evaluated before
`DebugPrintf` is entered, with debugging disabled and enabled alike, and dereferences the
nil zone, which is a run-time panic. -/
theorem parse_trace_dereferences_nil_zone (L : TimeLib) (P : tzinfo.Platform)
    (reg : tzinfo.Registry) (cc dtz : List Char)
    (h : (GetFormat P reg cc dtz).tzloc = none) :
    Parse L P reg cc dtz = none := by
  rw [Parse_eq_parseSwitch, h]
  rfl

/-- The input "2021-04-13T17:58:42-07:00" is classified with no zone, and `Parse` panics
on it. -/
theorem parse_trace_dereferences_nil_zone_witness :
    (GetFormat ⟨([], 0), fun _ => none, id⟩ ⟨[], [], []⟩ []
        "2021-04-13T17:58:42-07:00".toList).tzloc = none ∧
    Parse ⟨fun _ _ => (zeroTime, none), fun _ _ _ => some (zeroTime, none), fun _ => none⟩
        ⟨([], 0), fun _ => none, id⟩ ⟨[], [], []⟩ [] "2021-04-13T17:58:42-07:00".toList
      = none :=
  ⟨by decide,
   parse_trace_dereferences_nil_zone
     ⟨fun _ _ => (zeroTime, none), fun _ _ _ => some (zeroTime, none), fun _ => none⟩
     ⟨([], 0), fun _ => none, id⟩ ⟨[], [], []⟩ [] "2021-04-13T17:58:42-07:00".toList
     (by decide)⟩

/-- The classification of a text that is digits, a point and digits, whatever the
platform and the registry are: the integer sentinel and no zone. -/
theorem GetFormat_unix_text (P : tzinfo.Platform) (reg : tzinfo.Registry) (cc dtz : List Char)
    (h : GetUnixTimeStampFormat dtz = UnixTimeStamp) :
    GetFormat P reg cc dtz = ⟨UnixTimeStamp, none, cc⟩ := by
  have hl : UnixTimeStamp.length > 0 := by decide
  simp only [GetFormat, h, if_pos hl]

/-- C22: the input "1136239445.5" is classified with the integer Unix sentinel and no
zone, and `strconv.ParseInt` fails on it. `Parse` returns no error for it: it stops in a
run-time panic at `tzloc.String()`, and the switch statement, whatever zone it is entered
with, returns the zero instant together with a nil error, because the `err` of the
conversion is a new variable of the case. The same holds for "123.". -/
theorem parse_unix_conversion_error_lost (L : TimeLib) (P : tzinfo.Platform)
    (reg : tzinfo.Registry) (cc : List Char) (tzloc : Option tzinfo.TimeZoneLocation) :
    GetFormat P reg cc "1136239445.5".toList = ⟨UnixTimeStamp, none, cc⟩ ∧
    ParseInt "1136239445.5".toList = none ∧
    Parse L P reg cc "1136239445.5".toList = none ∧
    parseSwitch L P UnixTimeStamp "1136239445.5".toList tzloc = some (zeroTime, none) ∧
    GetFormat P reg cc "123.".toList = ⟨UnixTimeStamp, none, cc⟩ ∧
    ParseInt "123.".toList = none ∧
    Parse L P reg cc "123.".toList = none ∧
    parseSwitch L P UnixTimeStamp "123.".toList tzloc = some (zeroTime, none) := by
  have h1 : GetFormat P reg cc "1136239445.5".toList = ⟨UnixTimeStamp, none, cc⟩ :=
    GetFormat_unix_text P reg cc _ (by decide)
  have h2 : GetFormat P reg cc "123.".toList = ⟨UnixTimeStamp, none, cc⟩ :=
    GetFormat_unix_text P reg cc _ (by decide)
  have p1 : ParseInt "1136239445.5".toList = none := by decide
  have p2 : ParseInt "123.".toList = none := by decide
  refine ⟨h1, p1, ?_, ?_, h2, p2, ?_, ?_⟩
  · rw [Parse_eq_parseSwitch, h1]; rfl
  · simp only [parseSwitch, if_true, p1]
  · rw [Parse_eq_parseSwitch, h2]; rfl
  · simp only [parseSwitch, if_true, p2]

end chronus

namespace chronus

open gostd regexp

/-- An input to which `GetSQLFormat` gives the empty layout does not match the SQL
pattern, so it is given no zone either and the country code is not changed. -/
theorem GetSQLFormat_format_nil (P : tzinfo.Platform) (reg : tzinfo.Registry) (cc dtz : List Char)
    (h : (GetSQLFormat P reg cc dtz).format = []) :
    GetSQLFormat P reg cc dtz = ⟨[], none, cc⟩ := by
  cases hm : MatchString regExSQLDateTime dtz with
  | false => exact GetSQLFormat_no_match P reg cc dtz hm
  | true =>
    exfalso
    simp only [GetSQLFormat, hm, if_true] at h
    generalize (FindStringSubmatch regExSQLDateTime dtz).getD [] = m at h
    generalize TimezoneIsOffset (m.getD 4 []) = k at h
    simp only [apply_ite Classified.format, ite_self] at h
    split_ifs at h <;> exact absurd h (by decide)

/-- C30: an input that the stages 1 to 4 of `GetFormat` pass over (no Unix layout, no
RFC 3339 layout, no SQL layout, not both Git patterns) and that contains a match of the
loose US-common pattern is given the empty layout and no zone. -/
theorem us_common_gets_no_layout (P : tzinfo.Platform) (reg : tzinfo.Registry)
    (cc dtz : List Char)
    (hU : GetUnixTimeStampFormat dtz = []) (hR : GetRFC3339Format dtz = [])
    (hS : (GetSQLFormat P reg cc dtz).format = [])
    (hG : ¬ (MatchString regExAnsiGitRubyUnix dtz = true ∧
      MatchString regExGitDateTime dtz = true))
    (hC : MatchString regExUSCommonDateTime dtz = true) :
    GetFormat P reg cc dtz = ⟨[], none, cc⟩ := by
  have hq := GetSQLFormat_format_nil P reg cc dtz hS
  simp only [GetFormat, hU, hR, hq, hG, hC, List.length_nil, gt_iff_lt, lt_self_iff_false,
    if_false, if_true]

/-- The inputs "Apr 13 2021 17:58" and "Apr 13 2021 17:58:42" are passed over by the
stages 1 to 4, match the loose US-common pattern, and get the empty layout and no zone. -/
theorem us_common_gets_no_layout_witness :
    GetFormat ⟨([], 0), fun _ => none, id⟩ ⟨[], [], []⟩ [] "Apr 13 2021 17:58".toList
      = ⟨[], none, []⟩ ∧
    GetFormat ⟨([], 0), fun _ => none, id⟩ ⟨[], [], []⟩ [] "Apr 13 2021 17:58:42".toList
      = ⟨[], none, []⟩ :=
  ⟨us_common_gets_no_layout ⟨([], 0), fun _ => none, id⟩ ⟨[], [], []⟩ []
      "Apr 13 2021 17:58".toList (by decide) (by decide) (by decide) (by decide) (by decide),
   us_common_gets_no_layout ⟨([], 0), fun _ => none, id⟩ ⟨[], [], []⟩ []
      "Apr 13 2021 17:58:42".toList (by decide) (by decide) (by decide) (by decide)
      (by decide)⟩

end chronus

namespace tzinfo

open gostd

/-- A digit is the digit character of its value. -/
theorem digitChar_digitVal {c : Char} (h : isDigit c = true) : digitChar (digitVal c) = c := by
  have hb := isDigit_bounds h
  unfold digitChar digitVal
  have e : 48 + (c.toNat - 48) = c.toNat := by omega
  rw [e]
  exact Char.ofNat_toNat c

/-- The tail of `OffsetSecondsToString` for a non-zero offset of up to 99 hours and 59
minutes, as a function of the absolute value in minutes. -/
theorem offset_digits_wide (k : Nat) (hk : k ≤ 5999) :
    fmt02d (Int.tdiv ((60 * k : Nat) : Int) 3600) ++ [] ++
      fmt02d (Int.tdiv (wrap64 (((60 * k : Nat) : Int)
        - wrap64 (Int.tdiv ((60 * k : Nat) : Int) 3600 * 3600))) 60)
      = [digitChar (k / 60 / 10), digitChar (k / 60 % 10),
          digitChar (k % 60 / 10), digitChar (k % 60 % 10)] := by
  have e1 : Int.tdiv ((60 * k : Nat) : Int) 3600 = ((k / 60 : Nat) : Int) := by
    have h := tdiv_natCast (60 * k) 3600
    have h2 : 60 * k / 3600 = k / 60 := by omega
    rw [h2] at h
    exact h
  have e2 : wrap64 (((k / 60 : Nat) : Int) * 3600) = ((k / 60 : Nat) : Int) * 3600 :=
    wrap64_of_range _ (by omega) (by omega)
  have e3 : ((60 * k : Nat) : Int) - ((k / 60 : Nat) : Int) * 3600
      = ((60 * (k % 60) : Nat) : Int) := by
    omega
  have e4 : wrap64 ((60 * (k % 60) : Nat) : Int) = ((60 * (k % 60) : Nat) : Int) :=
    wrap64_of_range _ (by omega) (by omega)
  have e5 : Int.tdiv ((60 * (k % 60) : Nat) : Int) 60 = ((k % 60 : Nat) : Int) := by
    have h := tdiv_natCast (60 * (k % 60)) 60
    have h2 : 60 * (k % 60) / 60 = k % 60 := by omega
    rw [h2] at h
    exact h
  rw [e1, e2, e3, e4, e5, fmt02d_lt_100 _ (by omega), fmt02d_lt_100 _ (by omega)]
  rfl

/-- The text of a non-zero offset of `sign` times `k` minutes, `k` up to 5999. -/
theorem encode_signed_wide (k : Nat) (hk0 : 0 < k) (hk : k ≤ 5999) (neg : Bool)
    (zulu : List Char) :
    OffsetSecondsToString ((if neg = true then -1 else 1) * ((60 * k : Nat) : Int)) zulu
      = (if neg = true then '-' else '+') :: [digitChar (k / 60 / 10), digitChar (k / 60 % 10),
          digitChar (k % 60 / 10), digitChar (k % 60 % 10)] := by
  cases neg with
  | false =>
    have e : (if false = true then (-1 : Int) else 1) * ((60 * k : Nat) : Int)
        = ((60 * k : Nat) : Int) := by simp
    rw [e]
    have h0 : ¬ (((60 * k : Nat) : Int) = 0) := by omega
    have h1 : ¬ (((60 * k : Nat) : Int) < 0) := by omega
    have h2 : ((60 * k : Nat) : Int) > 0 := by omega
    simp only [OffsetSecondsToString, h0, h1, h2, if_false, if_true]
    rw [offset_digits_wide k hk]
    rfl
  | true =>
    have e : (if true = true then (-1 : Int) else 1) * ((60 * k : Nat) : Int)
        = -((60 * k : Nat) : Int) := by simp
    rw [e]
    have h0 : ¬ (-((60 * k : Nat) : Int) = 0) := by omega
    have h1 : (-((60 * k : Nat) : Int) < 0) := by omega
    have h2 : ¬ (-((60 * k : Nat) : Int) > 0) := by omega
    have w : wrap64 (- -((60 * k : Nat) : Int)) = ((60 * k : Nat) : Int) := by
      rw [neg_neg]; exact wrap64_of_range _ (by omega) (by omega)
    simp only [OffsetSecondsToString, h0, h1, h2, if_false, if_true, w]
    rw [offset_digits_wide k hk]
    rfl

/-- C28: for a canonical offset text `sign HH MM` with the sign `+` or `-`, HH in 00..99
and MM in 00..59, `OffsetStringToSeconds` returns, and `OffsetSecondsToString` of its
result with the empty zulu text is the same text again when HHMM is not 0000, and
"-0000" when HHMM is 0000, for either sign. -/
theorem offset_codec_reverse_round_trip (sg h1 h2 m1 m2 : Char)
    (hsg : sg = '+' ∨ sg = '-')
    (d1 : isDigit h1 = true) (d2 : isDigit h2 = true)
    (d3 : isDigit m1 = true) (d4 : isDigit m2 = true)
    (hM : digitVal m1 * 10 + digitVal m2 ≤ 59) :
    (OffsetStringToSeconds [sg, h1, h2, m1, m2]).map (fun o => OffsetSecondsToString o [])
      = some (if [h1, h2, m1, m2] = "0000".toList then "-0000".toList
          else [sg, h1, h2, m1, m2]) := by
  have v1 := digitVal_le d1
  have v2 := digitVal_le d2
  have v3 := digitVal_le d3
  have v4 := digitVal_le d4
  have c1 := digitChar_digitVal d1
  have c2 := digitChar_digitVal d2
  have c3 := digitChar_digitVal d3
  have c4 := digitChar_digitVal d4
  have hd := decode_signed_hhmm [] [] [sg] [] h1 h2 m1 m2 (by simp) (by simp)
    (by rcases hsg with rfl | rfl <;> simp) (Or.inl rfl) d1 d2 d3 d4
  simp only [List.nil_append, List.append_nil, List.singleton_append] at hd
  rw [hd]
  simp only [Option.map_some']
  congr 1
  have hk : (digitVal h1 * 10 + digitVal h2) * 3600 + (digitVal m1 * 10 + digitVal m2) * 60
      = 60 * ((digitVal h1 * 10 + digitVal h2) * 60 + (digitVal m1 * 10 + digitVal m2)) := by
    ring
  rw [hk]
  by_cases hz : (digitVal h1 * 10 + digitVal h2) * 60 + (digitVal m1 * 10 + digitVal m2) = 0
  · have z1 : digitVal h1 = 0 := by omega
    have z2 : digitVal h2 = 0 := by omega
    have z3 : digitVal m1 = 0 := by omega
    have z4 : digitVal m2 = 0 := by omega
    rw [z1] at c1
    rw [z2] at c2
    rw [z3] at c3
    rw [z4] at c4
    subst c1 c2 c3 c4
    rw [hz]
    rcases hsg with rfl | rfl <;> decide
  · have hne : ¬ ([h1, h2, m1, m2] = "0000".toList) := by
      intro h
      have e : [h1, h2, m1, m2] = ['0', '0', '0', '0'] := h
      simp only [List.cons.injEq, and_true] at e
      obtain ⟨rfl, rfl, rfl, rfl⟩ := e
      exact hz (by decide)
    rw [if_neg hne]
    have hs : (if [sg] = ['-'] then (-1 : Int) else 1)
        = (if (sg == '-') = true then (-1 : Int) else 1) := by
      rcases hsg with rfl | rfl <;> decide
    rw [hs, encode_signed_wide _ (by omega) (by omega) (sg == '-') []]
    have q1 : ((digitVal h1 * 10 + digitVal h2) * 60 + (digitVal m1 * 10 + digitVal m2)) / 60
        = digitVal h1 * 10 + digitVal h2 := by omega
    have q2 : ((digitVal h1 * 10 + digitVal h2) * 60 + (digitVal m1 * 10 + digitVal m2)) % 60
        = digitVal m1 * 10 + digitVal m2 := by omega
    have q3 : (digitVal h1 * 10 + digitVal h2) / 10 = digitVal h1 := by omega
    have q4 : (digitVal h1 * 10 + digitVal h2) % 10 = digitVal h2 := by omega
    have q5 : (digitVal m1 * 10 + digitVal m2) / 10 = digitVal m1 := by omega
    have q6 : (digitVal m1 * 10 + digitVal m2) % 10 = digitVal m2 := by omega
    rw [q1, q2, q3, q4, q5, q6, c1, c2, c3, c4]
    rcases hsg with rfl | rfl <;> rfl

/-- The texts "+9959", "-0730", "+0000" and "-0000" under the reverse round trip. -/
theorem offset_codec_reverse_round_trip_witness :
    (OffsetStringToSeconds "+9959".toList).map (fun o => OffsetSecondsToString o [])
      = some "+9959".toList ∧
    (OffsetStringToSeconds "-0730".toList).map (fun o => OffsetSecondsToString o [])
      = some "-0730".toList ∧
    (OffsetStringToSeconds "+0000".toList).map (fun o => OffsetSecondsToString o [])
      = some "-0000".toList ∧
    (OffsetStringToSeconds "-0000".toList).map (fun o => OffsetSecondsToString o [])
      = some "-0000".toList :=
  ⟨offset_codec_reverse_round_trip '+' '9' '9' '5' '9' (Or.inl rfl) (by decide) (by decide)
      (by decide) (by decide) (by decide),
   offset_codec_reverse_round_trip '-' '0' '7' '3' '0' (Or.inr rfl) (by decide) (by decide)
      (by decide) (by decide) (by decide),
   offset_codec_reverse_round_trip '+' '0' '0' '0' '0' (Or.inl rfl) (by decide) (by decide)
      (by decide) (by decide) (by decide),
   offset_codec_reverse_round_trip '-' '0' '0' '0' '0' (Or.inr rfl) (by decide) (by decide)
      (by decide) (by decide) (by decide)⟩

end tzinfo

namespace tzinfo

open gostd

/-- C25: `StatusUpdate(s)` returns an error exactly when the lower-cased `s` is none of
"", "alias", "canonical", "deprecated"; when it returns an error the receiver is
unchanged, and when it succeeds the receiver differs from before in the status field
only, which is `s`. -/
theorem status_update_error_iff (ToLower : List Char → List Char) (tzloc : TimeZoneLocation)
    (s : List Char) :
    ((TimeZoneLocation.StatusUpdate ToLower tzloc s).2 ≠ none ↔
      ¬ (ToLower s = [] ∨ ToLower s = "alias".toList ∨ ToLower s = "canonical".toList ∨
        ToLower s = "deprecated".toList)) ∧
    ((TimeZoneLocation.StatusUpdate ToLower tzloc s).2 ≠ none →
      (TimeZoneLocation.StatusUpdate ToLower tzloc s).1 = tzloc) ∧
    ((TimeZoneLocation.StatusUpdate ToLower tzloc s).2 = none →
      (TimeZoneLocation.StatusUpdate ToLower tzloc s).1 = { tzloc with status := s }) := by
  unfold TimeZoneLocation.StatusUpdate
  by_cases h : ToLower s = [] ∨ ToLower s = "alias".toList ∨ ToLower s = "canonical".toList ∨
      ToLower s = "deprecated".toList
  · rw [if_pos h]
    exact ⟨⟨fun e => absurd rfl e, fun e => absurd h e⟩, fun e => absurd rfl e, fun _ => rfl⟩
  · rw [if_neg h]
    refine ⟨⟨fun _ => h, fun _ e => Option.noConfusion e⟩, fun _ => rfl,
      fun e => Option.noConfusion e⟩

/-- The calls `StatusUpdate("Canonical")` and `StatusUpdate("retired")` on the zone that
`GetCurrentTimeZoneLocation` builds, with the ASCII lower-casing: the first is not an
error and changes the status only, the second is an error and changes nothing. -/
theorem status_update_error_iff_witness :
    (TimeZoneLocation.StatusUpdate (List.map lowerASCII)
        (GetCurrentTimeZoneLocation ⟨("PDT".toList, -25200), fun _ => none, id⟩)
        "Canonical".toList).1
      = ⟨[], [], [], some ⟨"PDT".toList, some (-25200)⟩, [], -25200, "Canonical".toList,
          "PDT".toList⟩ ∧
    (TimeZoneLocation.StatusUpdate (List.map lowerASCII)
        (GetCurrentTimeZoneLocation ⟨("PDT".toList, -25200), fun _ => none, id⟩)
        "retired".toList).1
      = GetCurrentTimeZoneLocation ⟨("PDT".toList, -25200), fun _ => none, id⟩ :=
  ⟨(status_update_error_iff (List.map lowerASCII)
      (GetCurrentTimeZoneLocation ⟨("PDT".toList, -25200), fun _ => none, id⟩)
      "Canonical".toList).2.2 (by decide),
   (status_update_error_iff (List.map lowerASCII)
      (GetCurrentTimeZoneLocation ⟨("PDT".toList, -25200), fun _ => none, id⟩)
      "retired".toList).2.1 (by decide)⟩

/-- C26: for every Zone Location, the call `StatusUpdate("ALIAS")` with the ASCII
lower-casing succeeds, and `Status()` then returns "ALIAS", which is none of "alias",
"canonical", "deprecated" and the empty string: the field is set to the argument, not to
its lower-cased form. -/
theorem status_keeps_argument_case (tzloc : TimeZoneLocation) :
    (TimeZoneLocation.StatusUpdate (List.map lowerASCII) tzloc "ALIAS".toList).2 = none ∧
    TimeZoneLocation.Status
        (TimeZoneLocation.StatusUpdate (List.map lowerASCII) tzloc "ALIAS".toList).1
      = "ALIAS".toList ∧
    "ALIAS".toList ∉ ["alias".toList, "canonical".toList, "deprecated".toList, []] := by
  have hl : List.map lowerASCII "ALIAS".toList = "alias".toList := by decide
  have hc : List.map lowerASCII "ALIAS".toList = [] ∨
      List.map lowerASCII "ALIAS".toList = "alias".toList ∨
      List.map lowerASCII "ALIAS".toList = "canonical".toList ∨
      List.map lowerASCII "ALIAS".toList = "deprecated".toList := Or.inr (Or.inl hl)
  refine ⟨?_, ?_, by decide⟩
  · simp only [TimeZoneLocation.StatusUpdate, if_pos hc]
  · simp only [TimeZoneLocation.StatusUpdate, if_pos hc, TimeZoneLocation.Status]

end tzinfo

namespace chronus

open gostd

/-- C27: the text that `UnixFloat` assembles is not the timestamp of the instant in the
first second after the epoch and before the epoch. For half a second after the epoch
(seconds 0, nanoseconds 500000000) the text is "0.00000000", which denotes 0; for half a
second before the epoch (seconds -1, nanoseconds 500000000) it is "-1.00000000", which
denotes -1; for 1.75 seconds before the epoch (seconds -2, nanoseconds 250000000) it is
"-2.750000000". From the first whole second on the text is right, as for seconds
1136239445 and nanoseconds 500000000. -/
theorem unix_float_text_near_epoch :
    UnixFloatText ⟨0, 500000000⟩ = some "0.00000000".toList ∧
    UnixFloatText ⟨0, 5⟩ = some "0.".toList ∧
    UnixFloatText ⟨-1, 500000000⟩ = some "-1.00000000".toList ∧
    UnixFloatText ⟨-2, 250000000⟩ = some "-2.750000000".toList ∧
    UnixFloatText ⟨1136239445, 500000000⟩ = some "1136239445.500000000".toList := by
  decide

end chronus

namespace tzinfo

open gostd

/-- A registration depends on the platform through `time.LoadLocation` and through
`strings.ToUpper` of the nation label only. -/
theorem setTimeZoneLocation_congr (P Q : Platform) (reg : Registry)
    (abbr offset ianaLoc nation : List Char) (hL : P.LoadLocation = Q.LoadLocation)
    (hU : P.ToUpper nation = Q.ToUpper nation) :
    setTimeZoneLocation P reg abbr offset ianaLoc nation
      = setTimeZoneLocation Q reg abbr offset ianaLoc nation := by
  unfold setTimeZoneLocation
  rw [hL, hU]

/-- A run of registrations depends on `strings.ToUpper` through the nation labels of the
run only. -/
theorem seedAll_congr (P Q : Platform) (hL : P.LoadLocation = Q.LoadLocation) :
    ∀ (l : List (List Char × List Char × List Char × List Char)) (reg : Registry),
      (∀ s ∈ l, P.ToUpper s.2.2.2 = Q.ToUpper s.2.2.2) → seedAll P reg l = seedAll Q reg l
  | [], reg, _ => rfl
  | (abbr, offset, ianaLoc, nation) :: rest, reg, h => by
    have h1 : P.ToUpper nation = Q.ToUpper nation := h (abbr, offset, ianaLoc, nation) (by simp)
    simp only [seedAll]
    rw [setTimeZoneLocation_congr P Q reg abbr offset ianaLoc nation hL h1]
    cases setTimeZoneLocation Q reg abbr offset ianaLoc nation with
    | none => rfl
    | some reg1 =>
      exact seedAll_congr P Q hL rest reg1 (fun s hs => h s (List.mem_cons_of_mem _ hs))

/-- Startup seeding reads `strings.ToUpper` at the nation label "America" only: it is the
same on the platform that upper-cases every text to "AMERICA" and is `P` otherwise. -/
theorem init_congr (P : Platform) (hUp : P.ToUpper "America".toList = "AMERICA".toList) :
    init P = init ⟨P.nowZone, P.LoadLocation, fun _ => "AMERICA".toList⟩ := by
  unfold init
  apply seedAll_congr P ⟨P.nowZone, P.LoadLocation, fun _ => "AMERICA".toList⟩ rfl
  intro s hs
  have hn : ∀ s ∈ seeds, s.2.2.2 = "America".toList := by decide
  rw [hn s hs, hUp]

/-- Startup seeding does not stop when `strings.ToUpper` maps "America" to "AMERICA",
whatever `time.LoadLocation` returns. -/
theorem init_some (P : Platform) (hUp : P.ToUpper "America".toList = "AMERICA".toList) :
    init P = some ((init ⟨P.nowZone, P.LoadLocation, fun _ => "AMERICA".toList⟩).getD
      ⟨[], [], []⟩) := by
  rw [init_congr P hUp]
  rfl

end tzinfo

namespace tzinfo

open gostd

theorem lookup_mapPut_self (m : List (List Char × List TimeZoneLocation)) (k : List Char)
    (v : List TimeZoneLocation) : (mapPut m k v).lookup k = some v := by
  simp [mapPut, List.lookup]

theorem lookup_filter_ne (k a : List Char) (h : a ≠ k) :
    ∀ m : List (List Char × List TimeZoneLocation),
      (m.filter (fun e => !(e.1 == k))).lookup a = m.lookup a
  | [] => rfl
  | (k1, v1) :: rest => by
    by_cases h1 : k1 = k
    · subst h1
      have e1 : (a == k1) = false := by simpa using h
      simp only [List.filter, beq_self_eq_true, Bool.not_true, List.lookup, e1]
      exact lookup_filter_ne k1 a h rest
    · have e1 : (k1 == k) = false := by simpa using h1
      simp only [List.filter, e1, Bool.not_false, List.lookup]
      rw [lookup_filter_ne k a h rest]

theorem lookup_mapPut_ne (m : List (List Char × List TimeZoneLocation)) (k a : List Char)
    (v : List TimeZoneLocation) (h : a ≠ k) : (mapPut m k v).lookup a = m.lookup a := by
  have e1 : (a == k) = false := by simpa using h
  simp only [mapPut, List.lookup, e1]
  exact lookup_filter_ne k a h m

theorem mapGet_mapPut_self (m : List (List Char × List TimeZoneLocation)) (k : List Char)
    (v : List TimeZoneLocation) : mapGet (mapPut m k v) k = v := by
  simp only [mapGet, lookup_mapPut_self, Option.getD_some]

theorem mapGet_mapPut_ne (m : List (List Char × List TimeZoneLocation)) (k a : List Char)
    (v : List TimeZoneLocation) (h : a ≠ k) : mapGet (mapPut m k v) a = mapGet m a := by
  simp only [mapGet, lookup_mapPut_ne m k a v h]

/-- A registration in the United States case: the package variables after it. -/
theorem setTimeZoneLocation_us (P : Platform) (reg : Registry)
    (abbr offset ianaLoc nation : List Char) (off : Int)
    (hN : isUnitedStates P nation) (hO : OffsetStringToSeconds offset = some off) :
    setTimeZoneLocation P reg abbr offset ianaLoc nation
      = some ⟨mapPut reg.timeZoneDataByAbbreviation abbr
          (mapGet reg.unitedStatesAbbreviationMap abbr
            ++ [usTimeZoneLocation P abbr ianaLoc nation off]
            ++ [usTimeZoneLocation P abbr ianaLoc nation off]),
        reg.TimeZoneLocations ++ [usTimeZoneLocation P abbr ianaLoc nation off],
        mapPut reg.unitedStatesAbbreviationMap abbr
          (mapGet reg.unitedStatesAbbreviationMap abbr
            ++ [usTimeZoneLocation P abbr ianaLoc nation off])⟩ := by
  unfold isUnitedStates at hN
  simp only [setTimeZoneLocation, if_pos hN, hO, mapGet_mapPut_self]
  rfl

/-- A registration in the United States case stops exactly when the offset text is
refused. -/
theorem setTimeZoneLocation_us_some (P : Platform) (reg reg1 : Registry)
    (abbr offset ianaLoc nation : List Char)
    (hN : isUnitedStates P nation)
    (h : setTimeZoneLocation P reg abbr offset ianaLoc nation = some reg1) :
    ∃ off, OffsetStringToSeconds offset = some off := by
  cases hO : OffsetStringToSeconds offset with
  | some off => exact ⟨off, rfl⟩
  | none =>
    exfalso
    unfold isUnitedStates at hN
    simp only [setTimeZoneLocation, if_pos hN, hO] at h
    exact Option.noConfusion h

/-- A registration outside the United States case: only the list of all Zone Locations
grows, by an entry with no status and no country code. -/
theorem setTimeZoneLocation_other (P : Platform) (reg reg1 : Registry)
    (abbr offset ianaLoc nation : List Char)
    (hN : ¬ isUnitedStates P nation)
    (h : setTimeZoneLocation P reg abbr offset ianaLoc nation = some reg1) :
    ∃ off, OffsetStringToSeconds offset = some off ∧
      reg1 = ⟨reg.timeZoneDataByAbbreviation,
        reg.TimeZoneLocations ++ [⟨[], [], ianaLoc, P.LoadLocation ianaLoc, nation, off, [], abbr⟩],
        reg.unitedStatesAbbreviationMap⟩ := by
  unfold isUnitedStates at hN
  cases hO : OffsetStringToSeconds offset with
  | some off =>
    simp only [setTimeZoneLocation, if_neg hN, hO, Option.some.injEq] at h
    exact ⟨off, rfl, h.symm⟩
  | none =>
    exfalso
    simp only [setTimeZoneLocation, if_neg hN, hO] at h
    exact Option.noConfusion h

end tzinfo

namespace tzinfo

open gostd

theorem usEntries_cons_self (P : Platform) (abbr offset ianaLoc nation : List Char)
    (rest : List (List Char × List Char × List Char × List Char)) :
    usEntries P ((abbr, offset, ianaLoc, nation) :: rest) abbr
      = usTimeZoneLocation P abbr ianaLoc nation ((OffsetStringToSeconds offset).getD 0)
          :: usEntries P rest abbr := by
  simp [usEntries, List.filter]

theorem usEntries_cons_ne (P : Platform) (abbr offset ianaLoc nation a : List Char)
    (rest : List (List Char × List Char × List Char × List Char)) (h : a ≠ abbr) :
    usEntries P ((abbr, offset, ianaLoc, nation) :: rest) a = usEntries P rest a := by
  have e : (abbr == a) = false := by simpa using fun e => h e.symm
  simp [usEntries, List.filter, e]

theorem usEntries_of_not_mem (P : Platform) (a : List Char) :
    ∀ l : List (List Char × List Char × List Char × List Char),
      a ∉ l.map (fun s => s.1) → usEntries P l a = []
  | [], _ => rfl
  | (abbr, offset, ianaLoc, nation) :: rest, h => by
    have h1 : a ≠ abbr := fun e => h (by simp [e])
    have h2 : a ∉ rest.map (fun s => s.1) := fun e => h (by simp at e ⊢; exact Or.inr e)
    rw [usEntries_cons_ne P abbr offset ianaLoc nation a rest h1]
    exact usEntries_of_not_mem P a rest h2

/-- The two maps after a run of registrations that are all of the United States case:
for an abbreviation of the run, the United States list is the one from before followed by
the new entries in order, and the global list is that list followed by one more copy of
its last entry; the lists of the other abbreviations are as before. -/
theorem seedAll_us_maps (P : Platform) :
    ∀ (l : List (List Char × List Char × List Char × List Char)) (reg reg1 : Registry),
      (∀ s ∈ l, isUnitedStates P s.2.2.2) → seedAll P reg l = some reg1 →
      ∀ a : List Char,
        (a ∈ l.map (fun s => s.1) →
          ∃ e, (usEntries P l a).getLast? = some e ∧
            reg1.unitedStatesAbbreviationMap.lookup a
              = some (mapGet reg.unitedStatesAbbreviationMap a ++ usEntries P l a) ∧
            reg1.timeZoneDataByAbbreviation.lookup a
              = some (mapGet reg.unitedStatesAbbreviationMap a ++ usEntries P l a ++ [e])) ∧
        (a ∉ l.map (fun s => s.1) →
          reg1.unitedStatesAbbreviationMap.lookup a = reg.unitedStatesAbbreviationMap.lookup a ∧
          reg1.timeZoneDataByAbbreviation.lookup a = reg.timeZoneDataByAbbreviation.lookup a)
  | [], reg, reg1, _, h, a => by
    simp only [seedAll, Option.some.injEq] at h
    subst h
    exact ⟨fun hm => absurd hm (by simp), fun _ => ⟨rfl, rfl⟩⟩
  | (abbr, offset, ianaLoc, nation) :: rest, reg, reg1, hUS, h, a => by
    have hN : isUnitedStates P nation := hUS (abbr, offset, ianaLoc, nation) (by simp)
    have hrest : ∀ s ∈ rest, isUnitedStates P s.2.2.2 :=
      fun s hs => hUS s (List.mem_cons_of_mem _ hs)
    simp only [seedAll] at h
    cases hst : setTimeZoneLocation P reg abbr offset ianaLoc nation with
    | none =>
      rw [hst] at h
      exact Option.noConfusion h
    | some reg2 =>
      rw [hst] at h
      simp only at h
      obtain ⟨off, hO⟩ := setTimeZoneLocation_us_some P reg reg2 abbr offset ianaLoc nation hN hst
      rw [setTimeZoneLocation_us P reg abbr offset ianaLoc nation off hN hO] at hst
      simp only [Option.some.injEq] at hst
      have ih := seedAll_us_maps P rest reg2 reg1 hrest h a
      have hoff : (OffsetStringToSeconds offset).getD 0 = off := by rw [hO]; rfl
      subst hst
      by_cases ha : a = abbr
      · subst ha
        have hc := usEntries_cons_self P a offset ianaLoc nation rest
        rw [hoff] at hc
        refine ⟨fun _ => ?_, fun hm => absurd hm (by simp)⟩
        by_cases hr : a ∈ rest.map (fun s => s.1)
        · obtain ⟨e, he, h1, h2⟩ := ih.1 hr
          simp only [mapGet_mapPut_self] at h1 h2
          refine ⟨e, ?_, ?_, ?_⟩
          · rw [hc]
            cases hu : usEntries P rest a with
            | nil => rw [hu] at he; exact absurd he (by simp)
            | cons x t => rw [hu] at he; rw [← he]; exact List.getLast?_cons_cons
          · rw [h1, hc]; simp
          · rw [h2, hc]; simp
        · obtain ⟨h1, h2⟩ := ih.2 hr
          have hn := usEntries_of_not_mem P a rest hr
          rw [hn] at hc
          refine ⟨usTimeZoneLocation P a ianaLoc nation off, ?_, ?_, ?_⟩
          · rw [hc]; rfl
          · rw [h1, hc]; exact lookup_mapPut_self _ _ _
          · rw [h2, hc]; exact lookup_mapPut_self _ _ _
      · have hc := usEntries_cons_ne P abbr offset ianaLoc nation a rest ha
        constructor
        · intro hm
          have hr : a ∈ rest.map (fun s => s.1) := by
            simp only [List.map_cons, List.mem_cons] at hm
            rcases hm with hm | hm
            · exact absurd hm ha
            · exact hm
          obtain ⟨e, he, h1, h2⟩ := ih.1 hr
          simp only [mapGet_mapPut_ne _ _ _ _ ha] at h1 h2
          exact ⟨e, by rw [hc]; exact he, by rw [h1, hc], by rw [h2, hc]⟩
        · intro hm
          have hr : a ∉ rest.map (fun s => s.1) := by
            intro e
            exact hm (by simp only [List.map_cons, List.mem_cons]; exact Or.inr e)
          obtain ⟨h1, h2⟩ := ih.2 hr
          exact ⟨by rw [h1]; exact lookup_mapPut_ne _ _ _ _ ha,
            by rw [h2]; exact lookup_mapPut_ne _ _ _ _ ha⟩

/-- Every seed of `init` has the nation label "America". -/
theorem seeds_united_states (P : Platform)
    (hUp : P.ToUpper "America".toList = "AMERICA".toList) :
    ∀ s ∈ seeds, isUnitedStates P s.2.2.2 := by
  intro s hs
  have hn : ∀ s ∈ seeds, s.2.2.2 = "America".toList := by decide
  rw [hn s hs]
  exact Or.inl hUp

/-- The two maps after startup seeding, for a seeded abbreviation. -/
theorem init_maps (P : Platform) (hUp : P.ToUpper "America".toList = "AMERICA".toList)
    (reg : Registry) (h : init P = some reg) (a : List Char)
    (ha : a ∈ seeds.map (fun s => s.1)) :
    ∃ e, (usEntries P seeds a).getLast? = some e ∧
      reg.unitedStatesAbbreviationMap.lookup a = some (usEntries P seeds a) ∧
      reg.timeZoneDataByAbbreviation.lookup a = some (usEntries P seeds a ++ [e]) := by
  obtain ⟨e, he, h1, h2⟩ :=
    (seedAll_us_maps P seeds ⟨[], [], []⟩ reg (seeds_united_states P hUp) h a).1 ha
  refine ⟨e, he, ?_, ?_⟩
  · rw [h1]; rfl
  · rw [h2]; rfl

end tzinfo

namespace tzinfo

open gostd

theorem usEntries_seeds_PST (P : Platform) :
    usEntries P seeds "PST".toList
      = [usTimeZoneLocation P "PST".toList "US/Pacific".toList "America".toList (-28800)] := by
  rfl

theorem usEntries_seeds_EST (P : Platform) :
    usEntries P seeds "EST".toList
      = [usTimeZoneLocation P "EST".toList "US/Eastern".toList "America".toList (-18000)] := by
  rfl

theorem usEntries_seeds_HST (P : Platform) :
    usEntries P seeds "HST".toList
      = [usTimeZoneLocation P "HST".toList "US/Aleutian".toList "America".toList (-39600),
         usTimeZoneLocation P "HST".toList "US/Hawaii".toList "America".toList (-39600)] := by
  rfl

/-- C23: after startup seeding, for any outcome of the lookups in the zone database, the
global lookup of "PST" succeeds and returns a list with an entry of offset -28800, and
the United States lookup of "EST" succeeds and returns an entry of offset -18000 whose
status is "canonical" or "deprecated", and is "deprecated" exactly when the text of its
location is one of the listed names. -/
theorem seeded_pst_and_est (P : Platform)
    (hUp : P.ToUpper "America".toList = "AMERICA".toList) :
    ∃ reg, init P = some reg ∧
      (∃ l, GetTimeZoneLocationsByTZAbbreviation reg "PST".toList = some l ∧
        ∃ e ∈ l, e.offset = -28800) ∧
      (∃ e, GetUSTimeZoneLocationByTZAbbreviation reg "EST".toList = some e ∧
        e.offset = -18000 ∧
        (e.status = "canonical".toList ∨ e.status = "deprecated".toList) ∧
        (e.status = "deprecated".toList ↔ locationString e.location ∈ deprecatedNames)) := by
  obtain ⟨reg, h⟩ : ∃ reg, init P = some reg := ⟨_, init_some P hUp⟩
  refine ⟨reg, h, ?_, ?_⟩
  · obtain ⟨e, _, _, h2⟩ := init_maps P hUp _ h "PST".toList (by decide)
    rw [usEntries_seeds_PST] at h2
    refine ⟨[usTimeZoneLocation P "PST".toList "US/Pacific".toList "America".toList (-28800)]
        ++ [e], by simp only [GetTimeZoneLocationsByTZAbbreviation, h2],
      usTimeZoneLocation P "PST".toList "US/Pacific".toList "America".toList (-28800),
      List.mem_append_left _ (List.mem_singleton_self _), rfl⟩
  · obtain ⟨e, _, h1, _⟩ := init_maps P hUp _ h "EST".toList (by decide)
    rw [usEntries_seeds_EST] at h1
    refine ⟨usTimeZoneLocation P "EST".toList "US/Eastern".toList "America".toList (-18000),
      by simp only [GetUSTimeZoneLocationByTZAbbreviation, h1, List.head?], rfl, ?_, ?_⟩
    · by_cases hd : locationString (P.LoadLocation "US/Eastern".toList) ∈ deprecatedNames
      · exact Or.inr (if_pos hd)
      · exact Or.inl (if_neg hd)
    · show (if locationString (P.LoadLocation "US/Eastern".toList) ∈ deprecatedNames
        then "deprecated".toList else "canonical".toList) = "deprecated".toList ↔
        locationString (P.LoadLocation "US/Eastern".toList) ∈ deprecatedNames
      by_cases hd : locationString (P.LoadLocation "US/Eastern".toList) ∈ deprecatedNames
      · rw [if_pos hd]
        exact ⟨fun _ => hd, fun _ => rfl⟩
      · rw [if_neg hd]
        exact ⟨fun e => absurd e (by decide), fun e => absurd e hd⟩

/-- Seeding on a platform whose zone database knows every name and on one whose zone
database knows none. -/
theorem seeded_pst_and_est_witness :
    (∃ reg, init ⟨("CEST".toList, 7200), fun n => some ⟨n, none⟩, fun s => s.map upperASCII⟩
        = some reg ∧
      (∃ l, GetTimeZoneLocationsByTZAbbreviation reg "PST".toList = some l ∧
        ∃ e ∈ l, e.offset = -28800) ∧
      (∃ e, GetUSTimeZoneLocationByTZAbbreviation reg "EST".toList = some e ∧
        e.offset = -18000 ∧
        (e.status = "canonical".toList ∨ e.status = "deprecated".toList) ∧
        (e.status = "deprecated".toList ↔ locationString e.location ∈ deprecatedNames))) ∧
    (∃ reg, init ⟨("CEST".toList, 7200), fun _ => none, fun s => s.map upperASCII⟩
        = some reg ∧
      (∃ l, GetTimeZoneLocationsByTZAbbreviation reg "PST".toList = some l ∧
        ∃ e ∈ l, e.offset = -28800) ∧
      (∃ e, GetUSTimeZoneLocationByTZAbbreviation reg "EST".toList = some e ∧
        e.offset = -18000 ∧
        (e.status = "canonical".toList ∨ e.status = "deprecated".toList) ∧
        (e.status = "deprecated".toList ↔ locationString e.location ∈ deprecatedNames))) :=
  ⟨seeded_pst_and_est ⟨("CEST".toList, 7200), fun n => some ⟨n, none⟩,
      fun s => s.map upperASCII⟩ (by decide),
   seeded_pst_and_est ⟨("CEST".toList, 7200), fun _ => none, fun s => s.map upperASCII⟩
      (by decide)⟩

end tzinfo

namespace tzinfo

open gostd

/-- C24, as stated, fails: after startup seeding, the registration of "GMT", "+0000",
"Europe/London" with the nation label "United Kingdom", which is none of "AMERICA", "US",
"USA" after upper-casing, does not stop, and the global lookup of "GMT" afterwards finds
nothing. -/
theorem non_us_entry_missing_from_global_lookup :
    ¬ isUnitedStates ⟨("CEST".toList, 7200), fun n => some ⟨n, none⟩, fun s => s.map upperASCII⟩
        "United Kingdom".toList ∧
    ((init ⟨("CEST".toList, 7200), fun n => some ⟨n, none⟩, fun s => s.map upperASCII⟩).bind
        (fun reg => setTimeZoneLocation
          ⟨("CEST".toList, 7200), fun n => some ⟨n, none⟩, fun s => s.map upperASCII⟩ reg
          "GMT".toList "+0000".toList "Europe/London".toList "United Kingdom".toList)).map
        (fun reg1 => GetTimeZoneLocationsByTZAbbreviation reg1 "GMT".toList)
      = some none := by
  constructor
  · decide
  · decide

/-- C24, amended: a registration whose nation label is none of "AMERICA", "US", "USA"
after upper-casing appends one entry to the list of all Zone Locations, with the
abbreviation as its zone, the empty status and no country code, and leaves both maps as
they were: the entry is not put into the United States map and not into the global map,
so both lookups of the abbreviation return what they returned before the registration. -/
theorem non_us_entry_not_in_global_map (P : Platform) (reg reg1 : Registry)
    (abbr offset ianaLoc nation : List Char)
    (hN : ¬ isUnitedStates P nation)
    (h : setTimeZoneLocation P reg abbr offset ianaLoc nation = some reg1) :
    (∃ e, reg1.TimeZoneLocations = reg.TimeZoneLocations ++ [e] ∧ e.zone = abbr ∧
      TimeZoneLocation.Status e = [] ∧ e.countryCodeAlpha2 = [] ∧ e.countryCodeAlpha3 = []) ∧
    reg1.unitedStatesAbbreviationMap = reg.unitedStatesAbbreviationMap ∧
    reg1.timeZoneDataByAbbreviation = reg.timeZoneDataByAbbreviation ∧
    GetUSTimeZoneLocationsByTZAbbreviation reg1 abbr
      = GetUSTimeZoneLocationsByTZAbbreviation reg abbr ∧
    GetTimeZoneLocationsByTZAbbreviation reg1 abbr
      = GetTimeZoneLocationsByTZAbbreviation reg abbr := by
  obtain ⟨off, _, h1⟩ := setTimeZoneLocation_other P reg reg1 abbr offset ianaLoc nation hN h
  subst h1
  exact ⟨⟨_, rfl, rfl, rfl, rfl, rfl⟩, rfl, rfl, rfl, rfl⟩

/-- The registration of "GMT", "+0000", "Europe/London", "United Kingdom" with no
registration before it: the global lookup of "GMT" fails afterwards. -/
theorem non_us_entry_not_in_global_map_witness :
    setTimeZoneLocation ⟨([], 0), fun _ => none, fun s => s.map upperASCII⟩ ⟨[], [], []⟩
        "GMT".toList "+0000".toList "Europe/London".toList "United Kingdom".toList
      = some ⟨[], [⟨[], [], "Europe/London".toList, none, "United Kingdom".toList, 0, [],
          "GMT".toList⟩], []⟩ ∧
    GetTimeZoneLocationsByTZAbbreviation
        ⟨[], [⟨[], [], "Europe/London".toList, none, "United Kingdom".toList, 0, [],
          "GMT".toList⟩], []⟩ "GMT".toList
      = none :=
  ⟨rfl,
   (non_us_entry_not_in_global_map ⟨([], 0), fun _ => none, fun s => s.map upperASCII⟩
      ⟨[], [], []⟩
      ⟨[], [⟨[], [], "Europe/London".toList, none, "United Kingdom".toList, 0, [],
        "GMT".toList⟩], []⟩
      "GMT".toList "+0000".toList "Europe/London".toList "United Kingdom".toList
      (by decide) rfl).2.2.2.2⟩

/-- C29: after a registration of the United States case for the abbreviation `abbr`, the
United States list for `abbr` is the list from before followed by the new entry, and the
global list for `abbr` is that United States list followed by one more copy of the new
entry. After startup seeding, for every seeded abbreviation both lookups succeed and the
global list is the United States list followed by one more copy of its last entry; the
lists of "PST" have 2 and 1 entries, those of "HST" 3 and 2. -/
theorem global_list_is_us_list_and_copy (P : Platform)
    (hUp : P.ToUpper "America".toList = "AMERICA".toList) :
    (∀ (reg reg1 : Registry) (abbr offset ianaLoc nation : List Char),
      isUnitedStates P nation →
      setTimeZoneLocation P reg abbr offset ianaLoc nation = some reg1 →
      ∃ us e, GetUSTimeZoneLocationsByTZAbbreviation reg1 abbr = some us ∧
        us = mapGet reg.unitedStatesAbbreviationMap abbr ++ [e] ∧
        GetTimeZoneLocationsByTZAbbreviation reg1 abbr = some (us ++ [e])) ∧
    (∃ reg, init P = some reg ∧
      (∀ a ∈ seeds.map (fun s => s.1),
        ∃ us e, GetUSTimeZoneLocationsByTZAbbreviation reg a = some us ∧
          us.getLast? = some e ∧
          GetTimeZoneLocationsByTZAbbreviation reg a = some (us ++ [e])) ∧
      (GetTimeZoneLocationsByTZAbbreviation reg "PST".toList).map List.length = some 2 ∧
      (GetUSTimeZoneLocationsByTZAbbreviation reg "PST".toList).map List.length = some 1 ∧
      (GetTimeZoneLocationsByTZAbbreviation reg "HST".toList).map List.length = some 3 ∧
      (GetUSTimeZoneLocationsByTZAbbreviation reg "HST".toList).map List.length = some 2) := by
  constructor
  · intro reg reg1 abbr offset ianaLoc nation hN h
    obtain ⟨off, hO⟩ := setTimeZoneLocation_us_some P reg reg1 abbr offset ianaLoc nation hN h
    rw [setTimeZoneLocation_us P reg abbr offset ianaLoc nation off hN hO] at h
    simp only [Option.some.injEq] at h
    subst h
    refine ⟨_, usTimeZoneLocation P abbr ianaLoc nation off, ?_, rfl, ?_⟩
    · simp only [GetUSTimeZoneLocationsByTZAbbreviation, lookup_mapPut_self]
    · simp only [GetTimeZoneLocationsByTZAbbreviation, lookup_mapPut_self]
  · obtain ⟨reg, h⟩ : ∃ reg, init P = some reg := ⟨_, init_some P hUp⟩
    refine ⟨reg, h, ?_, ?_, ?_, ?_, ?_⟩
    · intro a ha
      obtain ⟨e, he, h1, h2⟩ := init_maps P hUp reg h a ha
      exact ⟨usEntries P seeds a, e,
        by simp only [GetUSTimeZoneLocationsByTZAbbreviation, h1], he,
        by simp only [GetTimeZoneLocationsByTZAbbreviation, h2]⟩
    · obtain ⟨e, _, _, h2⟩ := init_maps P hUp reg h "PST".toList (by decide)
      rw [usEntries_seeds_PST] at h2
      simp only [GetTimeZoneLocationsByTZAbbreviation, h2]
      rfl
    · obtain ⟨e, _, h1, _⟩ := init_maps P hUp reg h "PST".toList (by decide)
      rw [usEntries_seeds_PST] at h1
      simp only [GetUSTimeZoneLocationsByTZAbbreviation, h1]
      rfl
    · obtain ⟨e, _, _, h2⟩ := init_maps P hUp reg h "HST".toList (by decide)
      rw [usEntries_seeds_HST] at h2
      simp only [GetTimeZoneLocationsByTZAbbreviation, h2]
      rfl
    · obtain ⟨e, _, h1, _⟩ := init_maps P hUp reg h "HST".toList (by decide)
      rw [usEntries_seeds_HST] at h1
      simp only [GetUSTimeZoneLocationsByTZAbbreviation, h1]
      rfl

/-- Startup seeding on a platform with the ASCII upper-casing whose zone database knows
every name: the lists of "PST" have 2 and 1 entries, those of "HST" 3 and 2. -/
theorem global_list_is_us_list_and_copy_witness :
    ∃ reg, init ⟨("CEST".toList, 7200), fun n => some ⟨n, none⟩, fun s => s.map upperASCII⟩
        = some reg ∧
      (GetTimeZoneLocationsByTZAbbreviation reg "PST".toList).map List.length = some 2 ∧
      (GetUSTimeZoneLocationsByTZAbbreviation reg "PST".toList).map List.length = some 1 ∧
      (GetTimeZoneLocationsByTZAbbreviation reg "HST".toList).map List.length = some 3 ∧
      (GetUSTimeZoneLocationsByTZAbbreviation reg "HST".toList).map List.length = some 2 :=
  match (global_list_is_us_list_and_copy
    ⟨("CEST".toList, 7200), fun n => some ⟨n, none⟩, fun s => s.map upperASCII⟩
    (by decide)).2 with
  | ⟨reg, h, _, hl⟩ => ⟨reg, h, hl⟩

end tzinfo
